import Mathlib

set_option maxRecDepth 100000

/-!
Verification development for the SudokuSolverAndGenerator repository.

This file gives a shallow embedding, in Lean 4, of the parts of the
repository relevant to the verified claims:

* `board.py`  — the `Board` class: the 81-cell array of
  `(occupied-flag, value, influencer-list)` triples, coordinate mapping,
  candidate computation, influencer propagation and conformance checking;
* `solver.py` — `SudokuSolver.occupy` (the committing operation) together
  with the six influence strategies it runs after a successful commit,
  the occupation strategies `OneCandidateLeftStrategy` and
  `RemainingInfluencerStrategy`, string validation (`checkString`,
  `wellFormed`) and the loaders `turnStringIntoBoard` / `solveBF`;
* `generator.py` — `SudokuGenerator`: board construction
  (`createSolution`), the counting backtracker (`solve`), clue
  elimination (`eliminateNumbers`) and `createSudoku`.

Python state mutation is modelled by explicit state passing: every method
that mutates the board becomes a function `BoardData → ... → BoardData`.
Python `for` loops become folds over `pyrange a b` (the list
`[a, a+1, ..., b-1]`, mirroring `range(a, b)`).  Randomness (`shuffle`)
is modelled by parameters carrying the shuffled lists, constrained to be
permutations.  Python exceptions (`assert`, `IndexError` on `pop` from an
empty list) are modelled by `Option`, with `none` for an abnormal
termination.
-/

namespace SudokuSpec

/-- Models Python `range(a, b)`: the list `[a, a+1, ..., b-1]`. -/
def pyrange (a b : Nat) : List Nat := List.range' a (b - a)

theorem pyrange_succ_right {a b : Nat} (h : a ≤ b) :
    pyrange a (b + 1) = pyrange a b ++ [b] := by
  unfold pyrange
  rw [Nat.succ_sub h, List.range'_concat]
  have hb : a + 1 * (b - a) = b := by omega
  rw [hb]

theorem mem_pyrange {a b n : Nat} : n ∈ pyrange a b ↔ a ≤ n ∧ n < b := by
  unfold pyrange
  rw [List.mem_range'_1]
  omega

/-! ## board.py : the `Board` data model

`Board._data` is a Python list of 81 tuples `(x, y, z)`:
`x = True` means the position is occupied by number `y`;
`x = False` means the position is vacant and influenced by the numbers
in the list `z`. -/

/-- `dim = 3`, the size of Sudoku quadrants (board.py). -/
def dim : Nat := 3

/-- `DIM = dim * dim = 9`, the size of the Sudoku puzzle (board.py). -/
def DIM : Nat := 9

/-- A cell of `Board._data`: the Python tuple `(x, y, z)`. -/
abbrev Cell := Bool × Nat × List Nat

/-- The contents of `Board._data`: a list of 81 cells. -/
abbrev BoardData := List Cell

/-- The default cell used for out-of-range reads (all reads in the
claims are in range, where `List.getD` agrees with Python indexing). -/
def defaultCell : Cell := (false, 0, [])

/-- The freshly initialized board of `SudokuSolver.reinitialize`:
`[(False, 0, []) for i in range(0, DIM*DIM)]`. -/
def emptyData : BoardData := List.replicate (DIM * DIM) (false, 0, [])

namespace Board

/-- `Board.map`: user coordinate `(i, j)` (1-based) to the internal index
`(i - 1) * DIM + j - 1`. -/
def bmap (i j : Nat) : Nat := (i - 1) * DIM + (j - 1)

/-- `Board.mapQuadrant`: quadrant-relative coordinate to internal index. -/
def mapQuadrant (d1 d2 xi xj : Nat) : Nat :=
  bmap ((d1 - 1) * dim + xi) ((d2 - 1) * dim + xj)

/-- `Board.inverseMapQuadrant`: board coordinate `(i, j)` to
quadrant-relative coordinate `(d1, d2, iq, jq)`. -/
def inverseMapQuadrant (i j : Nat) : Nat × Nat × Nat × Nat :=
  let d1 := (i - 1) / dim + 1
  let d2 := (j - 1) / dim + 1
  (d1, d2, i - (d1 - 1) * dim, j - (d2 - 1) * dim)

/-- `Board.getElement`: read `_data[map(i, j)]`. -/
def getElement (b : BoardData) (i j : Nat) : Cell := b.getD (bmap i j) defaultCell

/-- `Board.setElement`: write `_data[map(i, j)]`. -/
def setElement (b : BoardData) (i j : Nat) (c : Cell) : BoardData :=
  b.set (bmap i j) c

/-- `Board.getElementInQuadrant`: read `_data[mapQuadrant(d1, d2, i, j)]`. -/
def getElementInQuadrant (b : BoardData) (d1 d2 i j : Nat) : Cell :=
  b.getD (mapQuadrant d1 d2 i j) defaultCell

/-- `Board.getInfluencers`: the influencer list `z` for a vacant cell,
`[]` for an occupied one. -/
def getInfluencers (b : BoardData) (i j : Nat) : List Nat :=
  let (x, _, z) := getElement b i j
  if x then [] else z

/-- `Board.calcCandidates`: the numbers in `1..DIM` not in `z`. -/
def calcCandidates (z : List Nat) : List Nat :=
  (pyrange 1 (DIM + 1)).filter (fun num => decide (num ∉ z))

/-- `Board.getCandidates`: `[]` for an occupied cell, otherwise the
numbers in `1..DIM` not in the influencer list. -/
def getCandidates (b : BoardData) (i j : Nat) : List Nat :=
  let (x, _, _) := getElement b i j
  if x then []
  else (pyrange 1 (DIM + 1)).filter (fun num => decide (num ∉ getInfluencers b i j))

/-- `Board.getVacanciesInRow`: vacant neighbour cells in row `i`,
skipping column `j`. -/
def getVacanciesInRow (b : BoardData) (i j : Nat) : List (Nat × Nat) :=
  (pyrange 1 (DIM + 1)).foldl (fun acc col =>
    if col = j then acc
    else
      let (x, _, _) := getElement b i col
      if x then acc else acc ++ [(i, col)]) []

/-- `Board.getVacanciesInColumn`: vacant neighbour cells in column `j`,
skipping row `i`. -/
def getVacanciesInColumn (b : BoardData) (i j : Nat) : List (Nat × Nat) :=
  (pyrange 1 (DIM + 1)).foldl (fun acc row =>
    if row = i then acc
    else
      let (x, _, _) := getElement b row j
      if x then acc else acc ++ [(row, j)]) []

/-- `Board.getVacanciesInQuadrant`: quadrant-relative coordinates of the
vacant neighbour cells in quadrant `(d1, d2)`, skipping `(r, c)`. -/
def getVacanciesInQuadrant (b : BoardData) (d1 d2 r c : Nat) : List (Nat × Nat) :=
  (pyrange 1 (dim + 1)).foldl (fun acc row =>
    (pyrange 1 (dim + 1)).foldl (fun acc col =>
      if (row, col) = (r, c) then acc
      else
        let (x, _, _) := getElementInQuadrant b d1 d2 row col
        if x then acc else acc ++ [(row, col)]) acc) []

/-- `Board.addInfluencer`: add `number` to the influencer list of cell
`(i, j)` only if the cell is vacant and `number` is not already there
(in Python the in-place `z.append` mutates the list held by the tuple). -/
def addInfluencer (b : BoardData) (number i j : Nat) : BoardData :=
  let (x, y, z) := getElement b i j
  if x then b
  else if number ∈ z then b
  else setElement b i j (x, y, z ++ [number])

/-- `Board.addInfluencerToQuadrant` with its exception list. -/
def addInfluencerToQuadrant (b : BoardData) (number d1 d2 : Nat)
    (exceptionList : List (Nat × Nat)) : BoardData :=
  let quadRow := (d1 - 1) * dim
  let quadCol := (d2 - 1) * dim
  (pyrange 1 (dim + 1)).foldl (fun b i =>
    (pyrange 1 (dim + 1)).foldl (fun b j =>
      if (i, j) ∈ exceptionList then b
      else addInfluencer b number (quadRow + i) (quadCol + j)) b) b

/-- `Board.addInfluencerToColumn` with its exception list. -/
def addInfluencerToColumn (b : BoardData) (number j : Nat)
    (exceptionList : List Nat) : BoardData :=
  (pyrange 1 (DIM + 1)).foldl (fun b i =>
    if i ∈ exceptionList then b
    else
      let (x, _, _) := getElement b i j
      if x then b else addInfluencer b number i j) b

/-- `Board.addInfluencerToRow` with its exception list. -/
def addInfluencerToRow (b : BoardData) (number i : Nat)
    (exceptionList : List Nat) : BoardData :=
  (pyrange 1 (DIM + 1)).foldl (fun b j =>
    if j ∈ exceptionList then b
    else
      let (x, _, _) := getElement b i j
      if x then b else addInfluencer b number i j) b

/-- `Board.addInfluencerToRegionExclusive`: propagate `number` to the
row, column and quadrant of `(i, j)`, leaving `(i, j)` itself alone. -/
def addInfluencerToRegionExclusive (b : BoardData) (number i j : Nat) : BoardData :=
  let b := addInfluencerToRow b number i [j]
  let b := addInfluencerToColumn b number j [i]
  addInfluencerToQuadrant b number ((i - 1) / dim + 1) ((j - 1) / dim + 1) [(i, j)]

/-- The common loop body of the three conformance checkers: walk the
cells of a region accumulating the values of occupied cells in
`numberList`, and fail on the first duplicate. -/
def conformAux (b : BoardData) : List (Nat × Nat) → List Nat → Bool
  | [], _ => true
  | (r, c) :: rest, numberList =>
    let (x, y, _) := getElement b r c
    if x then
      if y ∈ numberList then false
      else conformAux b rest (numberList ++ [y])
    else conformAux b rest numberList

/-- `Board.checkConformanceInRow`: no duplicate occupied value in row `r`. -/
def checkConformanceInRow (b : BoardData) (r : Nat) : Bool :=
  conformAux b ((pyrange 1 (DIM + 1)).map (fun c => (r, c))) []

/-- `Board.checkConformanceInColumn`: no duplicate occupied value in column `c`. -/
def checkConformanceInColumn (b : BoardData) (c : Nat) : Bool :=
  conformAux b ((pyrange 1 (DIM + 1)).map (fun r => (r, c))) []

/-- `Board.checkConformanceInQuadrant`: no duplicate occupied value in
quadrant `(d1, d2)`. -/
def checkConformanceInQuadrant (b : BoardData) (d1 d2 : Nat) : Bool :=
  let quadTop := (d1 - 1) * dim + 1
  let quadLeft := (d2 - 1) * dim + 1
  conformAux b
    ((pyrange 0 dim).foldl (fun acc i =>
      acc ++ (pyrange 0 dim).map (fun j => (quadTop + i, quadLeft + j))) [])
    []

/-- `Board.checkConformanceOfBoard`: all columns, then all rows, then all
quadrants conform. -/
def checkConformanceOfBoard (b : BoardData) : Bool :=
  ((pyrange 1 (DIM + 1)).all fun c => checkConformanceInColumn b c) &&
  ((pyrange 1 (DIM + 1)).all fun r => checkConformanceInRow b r) &&
  ((pyrange 1 (dim + 1)).all fun d1 =>
    (pyrange 1 (dim + 1)).all fun d2 => checkConformanceInQuadrant b d1 d2)

/-- `Board.turnBoardIntoString`: the 81-character flat encoding, `str(y)`
for an occupied cell and `"0"` for a vacant one (strings are modelled as
`List Char`). -/
def turnBoardIntoString (b : BoardData) : List Char :=
  (List.range (DIM * DIM)).foldl (fun sl idx =>
    let (x, y, _) := b.getD idx defaultCell
    if x then sl ++ Nat.toDigits 10 y else sl ++ ['0']) []

end Board

/-! ## solver.py : the influence strategies

`SudokuSolver.__init__` installs six influence strategies, in order:
`XWingStrategy`, `SwordFishStrategy`, `HiddenPairsStrategy`,
`HiddenTriplesStrategy`, `PointingPairsAndTriplesStrategy`,
`IndirectInfluencersStrategy`.  `occupy` runs them, in that order, after
every successful commit.  All of them mutate the board only through
`Board.addInfluencer` (directly or via `addInfluencerToRow/Column`). -/

namespace XWingStrategy

open Board

/-- `XWingStrategy.findCandidatesInRow`: all vacant cells of row `r`
whose influencer list does not contain `pivot`. -/
def findCandidatesInRow (b : BoardData) (pivot r : Nat) : List (Nat × Nat) :=
  (pyrange 1 (DIM + 1)).foldl (fun acc c =>
    let (x, _, z) := getElement b r c
    if x then acc
    else if pivot ∈ z then acc
    else acc ++ [(r, c)]) []

/-- `XWingStrategy.findCandidatesInColumn`. -/
def findCandidatesInColumn (b : BoardData) (pivot c : Nat) : List (Nat × Nat) :=
  (pyrange 1 (DIM + 1)).foldl (fun acc r =>
    let (x, _, z) := getElement b r c
    if x then acc
    else if pivot ∈ z then acc
    else acc ++ [(r, c)]) []

/-- `XWingStrategy.getXWingRow`: two candidate rows aligned on the same
columns form an X-Wing (the Python code destructures two 2-element
lists; callers only pass 2-element lists). -/
def getXWingRow : List (Nat × Nat) → List (Nat × Nat) → Option (Nat × Nat × Nat × Nat)
  | [(r11, c11), (_, c12)], [(_, c21), (r22, c22)] =>
    if c11 = c21 ∧ c12 = c22 then some (r11, c11, r22, c22) else none
  | _, _ => none

/-- `XWingStrategy.getXWingColumn`. -/
def getXWingColumn : List (Nat × Nat) → List (Nat × Nat) → Option (Nat × Nat × Nat × Nat)
  | [(r11, c11), (r12, _)], [(r21, _), (r22, c22)] =>
    if r11 = r21 ∧ r12 = r22 then some (r11, c11, r22, c22) else none
  | _, _ => none

/-- `XWingStrategy.searchForXWingRows`: all X-Wings among the pairs of
candidate rows. -/
def searchForXWingRows (listOfRows : List (List (Nat × Nat))) :
    List (Nat × Nat × Nat × Nat) :=
  (pyrange 0 (listOfRows.length - 1)).foldl (fun acc k =>
    (pyrange (k + 1) listOfRows.length).foldl (fun acc l =>
      match getXWingRow (listOfRows.getD k []) (listOfRows.getD l []) with
      | some xw => acc ++ [xw]
      | none => acc) acc) []

/-- `XWingStrategy.searchForXWingColumns`. -/
def searchForXWingColumns (listOfColumns : List (List (Nat × Nat))) :
    List (Nat × Nat × Nat × Nat) :=
  (pyrange 0 (listOfColumns.length - 1)).foldl (fun acc k =>
    (pyrange (k + 1) listOfColumns.length).foldl (fun acc l =>
      match getXWingColumn (listOfColumns.getD k []) (listOfColumns.getD l []) with
      | some xw => acc ++ [xw]
      | none => acc) acc) []

/-- `XWingStrategy.applyStrategyToRows`. -/
def applyStrategyToRows (b : BoardData) : BoardData :=
  (pyrange 1 (DIM + 1)).foldl (fun b pivot =>
    let listOfRows := (pyrange 1 (DIM + 1)).foldl (fun acc r =>
      let cells := findCandidatesInRow b pivot r
      if cells.length = 2 then acc ++ [cells] else acc) []
    if 2 ≤ listOfRows.length then
      (searchForXWingRows listOfRows).foldl (fun b xw =>
        let (r11, c11, r22, c22) := xw
        let b := addInfluencerToColumn b pivot c11 [r11, r22]
        addInfluencerToColumn b pivot c22 [r11, r22]) b
    else b) b

/-- `XWingStrategy.applyStrategyToColumns`. -/
def applyStrategyToColumns (b : BoardData) : BoardData :=
  (pyrange 1 (DIM + 1)).foldl (fun b pivot =>
    let listOfColumns := (pyrange 1 (DIM + 1)).foldl (fun acc c =>
      let cells := findCandidatesInColumn b pivot c
      if cells.length = 2 then acc ++ [cells] else acc) []
    if 2 ≤ listOfColumns.length then
      (searchForXWingColumns listOfColumns).foldl (fun b xw =>
        let (r11, c11, r22, c22) := xw
        let b := addInfluencerToRow b pivot r11 [c11, c22]
        addInfluencerToRow b pivot r22 [c11, c22]) b
    else b) b

/-- `XWingStrategy.applyStrategy`: columns, then rows. -/
def applyStrategy (b : BoardData) : BoardData :=
  applyStrategyToRows (applyStrategyToColumns b)

end XWingStrategy

namespace SwordFishStrategy

open Board

/-- `SwordFishStrategy.rowContainsCandidate`: how often `pivot` appears
as a candidate in row `r`. -/
def rowContainsCandidate (b : BoardData) (pivot r : Nat) : Nat :=
  (pyrange 1 (DIM + 1)).foldl (fun result c =>
    let (x, _, _) := getElement b r c
    if x then result
    else if pivot ∈ getCandidates b r c then result + 1 else result) 0

/-- `SwordFishStrategy.columnContainsCandidate`.  The Python loop resets
`result = 0` at the top of every iteration, so only the last row
(`r = DIM`) contributes to the returned count. -/
def columnContainsCandidate (b : BoardData) (pivot c : Nat) : Nat :=
  (pyrange 1 (DIM + 1)).foldl (fun _ r =>
    let (x, _, _) := getElement b r c
    if x then 0
    else if pivot ∈ getCandidates b r c then 1 else 0) 0

/-- `SwordFishStrategy.matchingRows`: the rows in which `pivot` is a
candidate of one of the columns `c1, c2, c3`. -/
def matchingRows (b : BoardData) (pivot c1 c2 c3 : Nat) : List Nat :=
  (pyrange 1 (DIM + 1)).foldl (fun acc r =>
    if pivot ∈ getCandidates b r c1 ∨ pivot ∈ getCandidates b r c2 ∨
        pivot ∈ getCandidates b r c3 then acc ++ [r]
    else acc) []

/-- `SwordFishStrategy.matchingColumns`. -/
def matchingColumns (b : BoardData) (pivot r1 r2 r3 : Nat) : List Nat :=
  (pyrange 1 (DIM + 1)).foldl (fun acc c =>
    if pivot ∈ getCandidates b r1 c ∨ pivot ∈ getCandidates b r2 c ∨
        pivot ∈ getCandidates b r3 c then acc ++ [c]
    else acc) []

/-- `SwordFishStrategy.applyStrategyToColumns`. -/
def applyStrategyToColumns (b : BoardData) : BoardData :=
  (pyrange 1 (DIM + 1)).foldl (fun b pivot =>
    (pyrange 1 (DIM - 1)).foldl (fun b c1 =>
      let howMany := columnContainsCandidate b pivot c1
      if howMany ≤ 1 ∨ dim < howMany then b
      else (pyrange (c1 + 1) DIM).foldl (fun b c2 =>
        let howMany := columnContainsCandidate b pivot c2
        if howMany ≤ 1 ∨ dim < howMany then b
        else (pyrange (c2 + 1) (DIM + 1)).foldl (fun b c3 =>
          let howMany := columnContainsCandidate b pivot c3
          if howMany ≤ 1 ∨ dim < howMany then b
          else
            let rowList := matchingRows b pivot c1 c2 c3
            if rowList.length = dim then
              rowList.foldl (fun b r => addInfluencerToRow b pivot r [c1, c2, c3]) b
            else b) b) b) b) b

/-- `SwordFishStrategy.applyStrategyToRows`. -/
def applyStrategyToRows (b : BoardData) : BoardData :=
  (pyrange 1 (DIM + 1)).foldl (fun b pivot =>
    (pyrange 1 (DIM - 1)).foldl (fun b r1 =>
      let howMany := rowContainsCandidate b pivot r1
      if howMany ≤ 1 ∨ dim < howMany then b
      else (pyrange (r1 + 1) DIM).foldl (fun b r2 =>
        let howMany := rowContainsCandidate b pivot r2
        if howMany ≤ 1 ∨ dim < howMany then b
        else (pyrange (r2 + 1) (DIM + 1)).foldl (fun b r3 =>
          let howMany := rowContainsCandidate b pivot r3
          if howMany ≤ 1 ∨ dim < howMany then b
          else
            let colList := matchingColumns b pivot r1 r2 r3
            if colList.length = dim then
              colList.foldl (fun b c => addInfluencerToColumn b pivot c [r1, r2, r3]) b
            else b) b) b) b) b

/-- `SwordFishStrategy.applyStrategy`: columns, then rows. -/
def applyStrategy (b : BoardData) : BoardData :=
  applyStrategyToRows (applyStrategyToColumns b)

end SwordFishStrategy

namespace HiddenPairsStrategy

open Board

/-- `HiddenPairsStrategy.handleHiddenPairs` on one region (a 9-cell
list) and one number pair `(n1, n2)`. -/
def handleHiddenPairs (b : BoardData) (cells : List (Nat × Nat)) (n1 n2 : Nat) :
    BoardData :=
  let occurrences := cells.foldl (fun acc cell =>
    let cand := getCandidates b cell.1 cell.2
    if n1 ∈ cand ∧ n2 ∈ cand then acc ++ [cell] else acc) []
  match occurrences with
  | [cell1, cell2] =>
    let cand1 := getCandidates b cell1.1 cell1.2
    let cand2 := getCandidates b cell2.1 cell2.2
    if 2 < cand1.length ∧ 2 < cand2.length then
      (pyrange 1 (DIM + 1)).foldl (fun b num =>
        if num ≠ n1 ∧ num ≠ n2 then
          let b := if num ∉ cand1 then addInfluencer b num cell1.1 cell1.2 else b
          if num ∉ cand2 then addInfluencer b num cell2.1 cell2.2 else b
        else b) b
    else b
  | _ => b

/-- `HiddenPairsStrategy.applyStrategyToRows`. -/
def applyStrategyToRows (b : BoardData) : BoardData :=
  (pyrange 1 (DIM + 1)).foldl (fun b i =>
    let array := (pyrange 1 (DIM + 1)).map (fun j => (i, j))
    (pyrange 1 DIM).foldl (fun b n1 =>
      (pyrange (n1 + 1) (DIM + 1)).foldl (fun b n2 =>
        handleHiddenPairs b array n1 n2) b) b) b

/-- `HiddenPairsStrategy.applyStrategyToColumns`. -/
def applyStrategyToColumns (b : BoardData) : BoardData :=
  (pyrange 1 (DIM + 1)).foldl (fun b j =>
    let array := (pyrange 1 (DIM + 1)).map (fun i => (i, j))
    (pyrange 1 DIM).foldl (fun b n1 =>
      (pyrange (n1 + 1) (DIM + 1)).foldl (fun b n2 =>
        handleHiddenPairs b array n1 n2) b) b) b

/-- `HiddenPairsStrategy.applyStrategyToQuadrants`. -/
def applyStrategyToQuadrants (b : BoardData) : BoardData :=
  (pyrange 1 (dim + 1)).foldl (fun b d1 =>
    (pyrange 1 (dim + 1)).foldl (fun b d2 =>
      let array := (pyrange 1 (dim + 1)).foldl (fun acc r =>
        acc ++ (pyrange 1 (dim + 1)).map (fun c => ((d1 - 1) * dim + r, (d2 - 1) * dim + c))) []
      (pyrange 1 DIM).foldl (fun b n1 =>
        (pyrange (n1 + 1) (DIM + 1)).foldl (fun b n2 =>
          handleHiddenPairs b array n1 n2) b) b) b) b

/-- `HiddenPairsStrategy.applyStrategy`: quadrants, rows, columns. -/
def applyStrategy (b : BoardData) : BoardData :=
  applyStrategyToColumns (applyStrategyToRows (applyStrategyToQuadrants b))

end HiddenPairsStrategy

namespace HiddenTriplesStrategy

open Board

/-- `HiddenTriplesStrategy.handleHiddenTriples` on one region and one
number triple `(n1, n2, n3)`. -/
def handleHiddenTriples (b : BoardData) (cells : List (Nat × Nat)) (n1 n2 n3 : Nat) :
    BoardData :=
  let occurrences := cells.foldl (fun acc cell =>
    let cand := getCandidates b cell.1 cell.2
    if n1 ∈ cand ∧ n2 ∈ cand ∧ n3 ∈ cand then acc ++ [cell] else acc) []
  match occurrences with
  | [cell1, cell2, cell3] =>
    let cand1 := getCandidates b cell1.1 cell1.2
    let cand2 := getCandidates b cell2.1 cell2.2
    let cand3 := getCandidates b cell3.1 cell3.2
    if 3 < cand1.length ∧ 3 < cand2.length ∧ 3 < cand3.length then
      (pyrange 1 (DIM + 1)).foldl (fun b num =>
        if num ≠ n1 ∧ num ≠ n2 ∧ num ≠ n3 then
          let b := if num ∉ cand1 then addInfluencer b num cell1.1 cell1.2 else b
          let b := if num ∉ cand2 then addInfluencer b num cell2.1 cell2.2 else b
          if num ∉ cand3 then addInfluencer b num cell3.1 cell3.2 else b
        else b) b
    else b
  | _ => b

/-- `HiddenTriplesStrategy.applyStrategyToRows`. -/
def applyStrategyToRows (b : BoardData) : BoardData :=
  (pyrange 1 (DIM + 1)).foldl (fun b i =>
    let array := (pyrange 1 (DIM + 1)).map (fun j => (i, j))
    (pyrange 1 (DIM - 1)).foldl (fun b n1 =>
      (pyrange (n1 + 1) DIM).foldl (fun b n2 =>
        (pyrange (n2 + 1) (DIM + 1)).foldl (fun b n3 =>
          handleHiddenTriples b array n1 n2 n3) b) b) b) b

/-- `HiddenTriplesStrategy.applyStrategyToColumns`. -/
def applyStrategyToColumns (b : BoardData) : BoardData :=
  (pyrange 1 (DIM + 1)).foldl (fun b j =>
    let array := (pyrange 1 (DIM + 1)).map (fun i => (i, j))
    (pyrange 1 (DIM - 1)).foldl (fun b n1 =>
      (pyrange (n1 + 1) DIM).foldl (fun b n2 =>
        (pyrange (n2 + 1) (DIM + 1)).foldl (fun b n3 =>
          handleHiddenTriples b array n1 n2 n3) b) b) b) b

/-- `HiddenTriplesStrategy.applyStrategyToQuadrants`. -/
def applyStrategyToQuadrants (b : BoardData) : BoardData :=
  (pyrange 1 (dim + 1)).foldl (fun b d1 =>
    (pyrange 1 (dim + 1)).foldl (fun b d2 =>
      let array := (pyrange 1 (dim + 1)).foldl (fun acc r =>
        acc ++ (pyrange 1 (dim + 1)).map (fun c => ((d1 - 1) * dim + r, (d2 - 1) * dim + c))) []
      (pyrange 1 (DIM - 1)).foldl (fun b n1 =>
        (pyrange (n1 + 1) DIM).foldl (fun b n2 =>
          (pyrange (n2 + 1) (DIM + 1)).foldl (fun b n3 =>
            handleHiddenTriples b array n1 n2 n3) b) b) b) b) b

/-- `HiddenTriplesStrategy.applyStrategy`: quadrants, rows, columns. -/
def applyStrategy (b : BoardData) : BoardData :=
  applyStrategyToColumns (applyStrategyToRows (applyStrategyToQuadrants b))

end HiddenTriplesStrategy

namespace PointingPairsAndTriplesStrategy

open Board

/-- `PointingPairsAndTriplesStrategy.handlePointingPairsAndTriples` on
one quadrant (a 9-cell list) and one number.  Note that the Python
filter `if c >= low or c <= high: continue` is satisfied by every
`c` in `1..DIM`, so the add-influencer loops never add anything. -/
def handlePointingPairsAndTriples (b : BoardData) (cells : List (Nat × Nat))
    (num : Nat) : BoardData :=
  let occurrences := cells.foldl (fun acc cell =>
    if num ∈ getCandidates b cell.1 cell.2 then acc ++ [cell] else acc) []
  let count := occurrences.length
  if ¬ (2 ≤ count ∧ count ≤ 3) then b
  else
    let flags :=
      match occurrences with
      | [(c1i, c1j), (c2i, c2j)] =>
        some (decide (c1i = c2i), decide (c1j = c2j), c1i, c1j)
      | [(c1i, c1j), (c2i, c2j), (c3i, c3j)] =>
        some (decide (c1i = c2i) && decide (c2i = c3i),
              decide (c1j = c2j) && decide (c2j = c3j), c1i, c1j)
      | _ => none
    match flags with
    | none => b
    | some (inSameRow, inSameCol, c1i, c1j) =>
      let (d1, d2, _, _) := inverseMapQuadrant c1i c1j
      if inSameRow then
        let low := (d2 - 1) * dim + 1
        let high := (d2 - 1) * dim + 3
        (pyrange 1 (DIM + 1)).foldl (fun b c =>
          if low ≤ c ∨ c ≤ high then b
          else addInfluencer b num c1i c) b
      else if inSameCol then
        let low := (d1 - 1) * dim + 1
        let high := (d1 - 1) * dim + 3
        (pyrange 1 (DIM + 1)).foldl (fun b r =>
          if low ≤ r ∨ r ≤ high then b
          else addInfluencer b num r c1j) b
      else b

/-- `PointingPairsAndTriplesStrategy.applyStrategyToQuadrants`. -/
def applyStrategyToQuadrants (b : BoardData) : BoardData :=
  (pyrange 1 (dim + 1)).foldl (fun b d1 =>
    (pyrange 1 (dim + 1)).foldl (fun b d2 =>
      let array := (pyrange 1 (dim + 1)).foldl (fun acc r =>
        acc ++ (pyrange 1 (dim + 1)).map (fun c => ((d1 - 1) * dim + r, (d2 - 1) * dim + c))) []
      (pyrange 1 (DIM + 1)).foldl (fun b n =>
        handlePointingPairsAndTriples b array n) b) b) b

/-- `PointingPairsAndTriplesStrategy.applyStrategy`. -/
def applyStrategy (b : BoardData) : BoardData :=
  applyStrategyToQuadrants b

end PointingPairsAndTriplesStrategy

namespace IndirectInfluencersStrategy

open Board

/-- Python set union, as used by `IndirectInfluencersStrategy`.  Only the
cardinality of `totalSet` and (when the strategy fires) its elements
matter; we keep first-insertion order.  None of the theorems in this
file depend on the iteration order of the fired loop. -/
def listUnion (ts cands : List Nat) : List Nat :=
  ts ++ cands.filter (fun n => decide (n ∉ ts))

/-- `IndirectInfluencersStrategy.analyzeRowInQuadrant`. -/
def analyzeRowInQuadrant (b : BoardData) (d1 d2 r : Nat) : BoardData :=
  let sc := (pyrange 1 (dim + 1)).foldl (fun (sc : List Nat × Nat) c =>
    let (x, _, z) := getElementInQuadrant b d1 d2 r c
    if x then sc
    else (listUnion sc.1 (calcCandidates z), sc.2 + 1)) ([], 0)
  let totalSet := sc.1
  let countVacantCells := sc.2
  if totalSet.length = countVacantCells then
    totalSet.foldl (fun b num =>
      let row := (d1 - 1) * dim + r
      (pyrange 1 (DIM + 1)).foldl (fun b j =>
        let (x, _, _) := getElement b row j
        if x then b
        else if (d2 - 1) * dim + 1 ≤ j ∧ j < (d2 - 1) * dim + dim + 1 then b
        else addInfluencer b num row j) b) b
  else b

/-- `IndirectInfluencersStrategy.analyzeColumnInQuadrant`. -/
def analyzeColumnInQuadrant (b : BoardData) (d1 d2 c : Nat) : BoardData :=
  let sc := (pyrange 1 (dim + 1)).foldl (fun (sc : List Nat × Nat) r =>
    let (x, _, z) := getElementInQuadrant b d1 d2 r c
    if x then sc
    else (listUnion sc.1 (calcCandidates z), sc.2 + 1)) ([], 0)
  let totalSet := sc.1
  let countVacantCells := sc.2
  if totalSet.length = countVacantCells then
    totalSet.foldl (fun b num =>
      let col := (d2 - 1) * dim + c
      (pyrange 1 (DIM + 1)).foldl (fun b i =>
        let (x, _, _) := getElement b i col
        if x then b
        else if (d1 - 1) * dim + 1 ≤ i ∧ i < (d1 - 1) * dim + dim + 1 then b
        else addInfluencer b num i col) b) b
  else b

/-- `IndirectInfluencersStrategy.addIndirectInfluencersToQuadrant`. -/
def addIndirectInfluencersToQuadrant (b : BoardData) (d1 d2 : Nat) : BoardData :=
  let b := (pyrange 1 (dim + 1)).foldl (fun b r => analyzeRowInQuadrant b d1 d2 r) b
  (pyrange 1 (dim + 1)).foldl (fun b c => analyzeColumnInQuadrant b d1 d2 c) b

/-- `IndirectInfluencersStrategy.applyStrategy`. -/
def applyStrategy (b : BoardData) : BoardData :=
  (pyrange 1 (dim + 1)).foldl (fun b d1 =>
    (pyrange 1 (dim + 1)).foldl (fun b d2 =>
      addIndirectInfluencersToQuadrant b d1 d2) b) b

end IndirectInfluencersStrategy

/-! ## solver.py : `SudokuSolver.occupy` -/

/-- The influence-strategy pass run by `occupy` after a successful
commit: the six installed strategies, in installation order. -/
def influencePhase (b : BoardData) : BoardData :=
  IndirectInfluencersStrategy.applyStrategy
    (PointingPairsAndTriplesStrategy.applyStrategy
      (HiddenTriplesStrategy.applyStrategy
        (HiddenPairsStrategy.applyStrategy
          (SwordFishStrategy.applyStrategy
            (XWingStrategy.applyStrategy b)))))

/-- `SudokuSolver.occupy`: commit `number` to cell `(i, j)`.
An occupied target is reported and left unchanged; a commit that breaks
conformance is rolled back; otherwise the number is propagated as an
influencer to its region and all influence strategies are applied. -/
def occupy (b : BoardData) (number i j : Nat) : BoardData :=
  let (x, y, z) := Board.getElement b i j
  if x then b
  else
    let b1 := Board.setElement b i j (true, number, [])
    if ¬ Board.checkConformanceOfBoard b1 then
      Board.setElement b1 i j (x, y, z)
    else
      influencePhase (Board.addInfluencerToRegionExclusive b1 number i j)

/-! ## solver.py : occupation strategies under scrutiny -/

namespace RemainingInfluencerStrategy

/-- `RemainingInfluencerStrategy.applyToQuadrant`.  The loop body
assigns its intersection to the fresh lowercase name `totalset`, so
`totalSet` keeps its initial value `{1, ..., 9}`; the success test
`len(totalSet) == 1` can therefore never fire.  (Had it fired,
`totalSet[0]` would raise a `TypeError` on a Python set; the
unreachable subscript is modelled by `headD`.) -/
def applyToQuadrant (b : BoardData) (i j : Nat) : Nat :=
  let _candidates := Board.getCandidates b i j
  let (d1, d2, r, c) := Board.inverseMapQuadrant i j
  let vacancies := Board.getVacanciesInQuadrant b d1 d2 r c
  let totalSet : List Nat := [1, 2, 3, 4, 5, 6, 7, 8, 9]
  let _totalset := vacancies.foldl (fun _ vacancy =>
    totalSet.filter (fun n =>
      decide (n ∈ (Board.getElementInQuadrant b d1 d2 vacancy.1 vacancy.2).2.2))) []
  if totalSet.length = 1 then totalSet.headD 0
  else 0

/-- `RemainingInfluencerStrategy.applyToColumn`, with the same dead
`totalset` assignment. -/
def applyToColumn (b : BoardData) (i j : Nat) : Nat :=
  let vacancies := Board.getVacanciesInColumn b i j
  let totalSet : List Nat := [1, 2, 3, 4, 5, 6, 7, 8, 9]
  let _totalset := vacancies.foldl (fun _ vacancy =>
    totalSet.filter (fun n =>
      decide (n ∈ (Board.getElement b vacancy.1 vacancy.2).2.2))) []
  if totalSet.length = 1 then totalSet.headD 0
  else 0

/-- `RemainingInfluencerStrategy.applyToRow`, with the same dead
`totalset` assignment. -/
def applyToRow (b : BoardData) (i j : Nat) : Nat :=
  let vacancies := Board.getVacanciesInRow b i j
  let totalSet : List Nat := [1, 2, 3, 4, 5, 6, 7, 8, 9]
  let _totalset := vacancies.foldl (fun _ vacancy =>
    totalSet.filter (fun n =>
      decide (n ∈ (Board.getElement b vacancy.1 vacancy.2).2.2))) []
  if totalSet.length = 1 then totalSet.headD 0
  else 0

end RemainingInfluencerStrategy

namespace OneCandidateLeftStrategy

/-- `OneCandidateLeftStrategy.applyStrategy`: if exactly `DIM - 1`
numbers are in the influencer list, the single remaining candidate is
returned, else 0.  (`candidates[0]` cannot fail on a vacant cell, since
8 listed numbers cannot exclude all nine candidates; for an occupied
cell with a length-8 influencer list Python would raise an
`IndexError`, modelled by the `headD` default.) -/
def applyStrategy (b : BoardData) (i j : Nat) : Nat :=
  let (_, _, z) := Board.getElement b i j
  if z.length = DIM - 1 then (Board.getCandidates b i j).headD 0
  else 0

end OneCandidateLeftStrategy

/-! ## solver.py : string validation and loaders -/

/-- `SudokuSolver.wellFormed`: the first `DIM * DIM` characters are all
digits. -/
def wellFormed (string : List Char) : Bool :=
  (pyrange 0 (DIM * DIM)).all fun idx =>
    decide (string.getD idx ' ' ∈ ['0', '1', '2', '3', '4', '5', '6', '7', '8', '9'])

/-- `SudokuSolver.checkString`: length must be exactly `DIM * DIM` and
every character a digit.  The error branch for an invalid character
reads the undefined name `i` and raises a `NameError` in Python; that
abnormal exit is modelled by `none`.  `some false` is the explicit
`return False` for a wrong length, `some true` the success case. -/
def checkString (sl : List Char) : Option Bool :=
  if sl.length ≠ DIM * DIM then some false
  else if (pyrange 0 (DIM * DIM)).all fun idx =>
      decide (sl.getD idx ' ' ∈ ['0', '1', '2', '3', '4', '5', '6', '7', '8', '9']) then
    some true
  else none

/-- Python `int(c)` on a digit character. -/
def charToNat (c : Char) : Nat := c.toNat - 48

/-- The body of the loading loop of `turnStringIntoBoard`: read the
digit at flat index `idx` and `occupy` the corresponding cell when it
is nonzero. -/
def reloadBody (sl : List Char) (b : BoardData) (idx : Nat) : BoardData :=
  let val := charToNat (sl.getD idx ' ')
  if val ≠ 0 then occupy b val (idx / DIM + 1) (idx % DIM + 1) else b

/-- `SudokuSolver.turnStringIntoBoard`: strip blanks, validate
(`assert(self.checkString(sl))`), then `occupy` every nonzero cell in
row-major order.  A failed assert or the `NameError` inside
`checkString` aborts before any `occupy`; both are modelled by
`none`. -/
def turnStringIntoBoard (sl : List Char) (b : BoardData) : Option BoardData :=
  let sl := sl.filter (fun c => decide (c ≠ ' '))
  match checkString sl with
  | some true => some ((pyrange 0 (DIM * DIM)).foldl (reloadBody sl) b)
  | _ => none

/-! ## solver.py : the brute force engine `solveBF`

`solveBruteForce` works on the flat string.  Python's `find` returns
`-1` when the string has no `'0'`; the subsequent arithmetic and slices
then use Python's negative-index conventions, which we model exactly
with `Int.fdiv` / `Int.emod` (Python `//` and `%`) and slices that
count from the end. -/

/-- Python `string.find(c)`: index of the first occurrence, `-1` if
absent. -/
def pyFind (s : List Char) (c : Char) : Int :=
  match s.findIdx? (fun x => decide (x = c)) with
  | some idx => (idx : Int)
  | none => -1

/-- Python `s[0:e]` for `e ≥ -len s`. -/
def pySliceTo (s : List Char) (e : Int) : List Char :=
  if e < 0 then s.take (s.length - (-e).toNat) else s.take e.toNat

/-- Python `s[a:]` for `a ≥ 0`. -/
def pySliceFrom (s : List Char) (a : Int) : List Char := s.drop a.toNat

/-- The `influencer(i, j)` helper of `solveBruteForce`, on Python
integers. -/
def bfInfluencer (i j : Int) : Bool :=
  (i.fdiv 9 = j.fdiv 9) || (i.emod 9 = j.emod 9) ||
    (((i.fdiv 9).fdiv 3 = (j.fdiv 9).fdiv 3) && ((i.emod 9).fdiv 3 = (j.emod 9).fdiv 3))

/-- `solveBruteForce`, with the local `string` and the attribute
`self.bfs` threaded through as state and a fuel argument for the
recursion (the fuel is never exhausted in the runs the claims are
about; an exhausted fuel returns the state unchanged).  Python iterates
the *set* `candidates` in an unspecified (salted) order; ascending
order is modelled, and no theorem below depends on it. -/
def solveBruteForce (fuel : Nat) (string : List Char) (bfs : List Char) : List Char :=
  match fuel with
  | 0 => bfs
  | fuel + 1 =>
    let vacancy := pyFind string '0'
    let influencers := (List.range string.length).foldl (fun acc j =>
      if bfInfluencer vacancy (Int.ofNat j) then
        let c := string.getD j ' '
        if c ∈ acc then acc else acc ++ [c]
      else acc) []
    let candidates := (pyrange 1 (DIM + 1)).foldl (fun acc num =>
      let c := Char.ofNat (48 + num)
      if c ∈ influencers then acc else acc ++ [c]) []
    (candidates.foldl (fun (st : List Char × List Char) num =>
      let string := pySliceTo st.1 vacancy ++ [num] ++ pySliceFrom st.1 (vacancy + 1)
      let bfs := solveBruteForce fuel string st.2
      if pyFind string '0' = -1 then (string, string) else (string, bfs))
      (string, bfs)).2

/-- `SudokuSolver.solveBF`: reject a wrong length or an invalid
character with the empty string, otherwise run the brute force search.
(`self.bfs` starts out unset; reading it unset would raise, which the
claims never exercise; it is modelled as the empty string.) -/
def solveBF (string : List Char) : List Char :=
  if string.length ≠ DIM * DIM then []
  else if ¬ wellFormed string then []
  else solveBruteForce (DIM * DIM + 1) string []

/-! ## Reachable boards -/

/-- The boards reachable from the empty board by a sequence of `occupy`
calls with in-range coordinates (the number is arbitrary).  A command
`(n, i, j)` commits number `n` at row `i.val + 1`, column `j.val + 1`. -/
def reach (cmds : List (Nat × Fin 9 × Fin 9)) : BoardData :=
  cmds.foldl (fun b c => occupy b c.1 (c.2.1.val + 1) (c.2.2.val + 1)) emptyData

/-- Boards reachable from the empty board by legal commits: a command
`(n, i, j)` commits number `n.val + 1` at `(i.val + 1, j.val + 1)`. -/
def reachL (cmds : List (Fin 9 × Fin 9 × Fin 9)) : BoardData :=
  reach (cmds.map (fun c => (c.1.val + 1, c.2.1, c.2.2)))

/-! ## List helper lemmas -/

theorem getD_set_self {α} (l : List α) (k : Nat) (a d : α) (h : k < l.length) :
    (l.set k a).getD k d = a := by
  simp [List.getD, List.getElem?_set, h]

theorem getD_set_ne {α} (l : List α) {k m : Nat} (a d : α) (h : k ≠ m) :
    (l.set k a).getD m d = l.getD m d := by
  simp [List.getD, List.getElem?_set, h]

theorem set_getD_self {α} (l : List α) (k : Nat) (d : α) :
    l.set k (l.getD k d) = l := by
  induction l generalizing k with
  | nil => rfl
  | cons x xs ih =>
    cases k with
    | zero => simp [List.getD]
    | succ n =>
      have h : (x :: xs).getD (n + 1) d = xs.getD n d := rfl
      rw [h]
      show x :: xs.set n (xs.getD n d) = x :: xs
      rw [ih]

/-! ## The extension order on boards

All influence strategies and all propagation operations mutate the board
exclusively through `Board.addInfluencer`, which either leaves the board
unchanged or appends one number to the influencer list of one vacant
cell.  `Ext b b'` captures the net effect: occupancy flags and occupant
values are untouched, and every influencer list grows only on the
right. -/

/-- The cell at internal index `idx` (the default is only returned for
out-of-range reads). -/
def cellAt (b : BoardData) (idx : Nat) : Cell := b.getD idx defaultCell

/-- `b'` extends `b` by influencer appends only. -/
def Ext (b b' : BoardData) : Prop :=
  b'.length = b.length ∧ ∀ idx : Nat,
    (cellAt b' idx).1 = (cellAt b idx).1 ∧
    (cellAt b' idx).2.1 = (cellAt b idx).2.1 ∧
    ∃ t, (cellAt b' idx).2.2 = (cellAt b idx).2.2 ++ t

theorem Ext.refl (b : BoardData) : Ext b b :=
  ⟨rfl, fun _ => ⟨rfl, rfl, [], by simp⟩⟩

theorem Ext.trans {a b c : BoardData} (h1 : Ext a b) (h2 : Ext b c) : Ext a c := by
  obtain ⟨hl1, hp1⟩ := h1
  obtain ⟨hl2, hp2⟩ := h2
  refine ⟨hl2.trans hl1, fun idx => ?_⟩
  obtain ⟨f1, v1, t1, hz1⟩ := hp1 idx
  obtain ⟨f2, v2, t2, hz2⟩ := hp2 idx
  exact ⟨f2.trans f1, v2.trans v1, t1 ++ t2, by rw [hz2, hz1, List.append_assoc]⟩

/-- Folding an `Ext`-producing body produces an `Ext`-extension. -/
theorem foldl_ext {α} (f : BoardData → α → BoardData)
    (H : ∀ b x, Ext b (f b x)) (l : List α) (b : BoardData) :
    Ext b (l.foldl f b) := by
  induction l generalizing b with
  | nil => exact Ext.refl b
  | cons x xs ih => exact (H b x).trans (ih (f b x))

theorem addInfluencer_ext (b : BoardData) (number i j : Nat) :
    Ext b (Board.addInfluencer b number i j) := by
  show Ext b (if (Board.getElement b i j).1 then b
    else if number ∈ (Board.getElement b i j).2.2 then b
    else Board.setElement b i j ((Board.getElement b i j).1,
      (Board.getElement b i j).2.1, (Board.getElement b i j).2.2 ++ [number]))
  split
  · exact Ext.refl b
  split
  · exact Ext.refl b
  refine ⟨List.length_set .., fun idx => ?_⟩
  unfold cellAt Board.setElement
  rcases Nat.lt_or_ge (Board.bmap i j) b.length with hlt | hge
  · rcases eq_or_ne (Board.bmap i j) idx with rfl | hne
    · rw [getD_set_self _ _ _ _ hlt]
      exact ⟨rfl, rfl, [number], rfl⟩
    · rw [getD_set_ne _ _ _ hne]
      exact ⟨rfl, rfl, [], by simp⟩
  · rw [List.set_eq_of_length_le hge]
    exact ⟨rfl, rfl, [], by simp⟩

theorem addInfluencerToQuadrant_ext (b : BoardData) (number d1 d2 : Nat)
    (exceptionList : List (Nat × Nat)) :
    Ext b (Board.addInfluencerToQuadrant b number d1 d2 exceptionList) := by
  unfold Board.addInfluencerToQuadrant
  refine foldl_ext _ (fun b i => ?_) _ _
  refine foldl_ext _ (fun b j => ?_) _ _
  dsimp only
  split
  · exact Ext.refl b
  · exact addInfluencer_ext ..

theorem addInfluencerToColumn_ext (b : BoardData) (number j : Nat)
    (exceptionList : List Nat) :
    Ext b (Board.addInfluencerToColumn b number j exceptionList) := by
  unfold Board.addInfluencerToColumn
  refine foldl_ext _ (fun b i => ?_) _ _
  show Ext b (if i ∈ exceptionList then b
    else if (Board.getElement b i j).1 then b else Board.addInfluencer b number i j)
  split
  · exact Ext.refl b
  split
  · exact Ext.refl b
  · exact addInfluencer_ext ..

theorem addInfluencerToRow_ext (b : BoardData) (number i : Nat)
    (exceptionList : List Nat) :
    Ext b (Board.addInfluencerToRow b number i exceptionList) := by
  unfold Board.addInfluencerToRow
  refine foldl_ext _ (fun b j => ?_) _ _
  show Ext b (if j ∈ exceptionList then b
    else if (Board.getElement b i j).1 then b else Board.addInfluencer b number i j)
  split
  · exact Ext.refl b
  split
  · exact Ext.refl b
  · exact addInfluencer_ext ..

theorem addInfluencerToRegionExclusive_ext (b : BoardData) (number i j : Nat) :
    Ext b (Board.addInfluencerToRegionExclusive b number i j) := by
  unfold Board.addInfluencerToRegionExclusive
  exact ((addInfluencerToRow_ext ..).trans (addInfluencerToColumn_ext ..)).trans
    (addInfluencerToQuadrant_ext ..)

/-- A fold whose body fixes `b` on every element of the list fixes `b`. -/
theorem foldl_fix {α β} (f : β → α → β) (b : β) (l : List α)
    (H : ∀ x ∈ l, f b x = b) : l.foldl f b = b := by
  induction l with
  | nil => rfl
  | cons x xs ih =>
    rw [List.foldl_cons, H x (List.mem_cons_self ..)]
    exact ih fun y hy => H y (List.mem_cons_of_mem _ hy)

/-- `Board.addInfluencer` is a no-op on an occupied cell and on a cell
already containing the number. -/
theorem addInfluencer_noop {b : BoardData} {number i j : Nat}
    (h : (Board.getElement b i j).1 = true ∨ number ∈ (Board.getElement b i j).2.2) :
    Board.addInfluencer b number i j = b := by
  show (if (Board.getElement b i j).1 then b
    else if number ∈ (Board.getElement b i j).2.2 then b
    else Board.setElement b i j ((Board.getElement b i j).1,
      (Board.getElement b i j).2.1, (Board.getElement b i j).2.2 ++ [number])) = b
  split
  · rfl
  · split
    · rfl
    · rcases h with h | h
      · exact absurd h (by assumption)
      · exact absurd h (by assumption)

/-- A number in `1..DIM` that is not among the candidates of a vacant
cell is in its influencer list. -/
theorem mem_influencers_of_not_candidate {b : BoardData} {num i j : Nat}
    (hnum : num ∈ pyrange 1 (DIM + 1)) (hvac : (Board.getElement b i j).1 = false)
    (h : num ∉ Board.getCandidates b i j) : num ∈ (Board.getElement b i j).2.2 := by
  have hg : Board.getCandidates b i j =
      (pyrange 1 (DIM + 1)).filter
        (fun n => decide (n ∉ Board.getInfluencers b i j)) := by
    show (if (Board.getElement b i j).1 then [] else _) = _
    rw [hvac]; rfl
  have hi : Board.getInfluencers b i j = (Board.getElement b i j).2.2 := by
    show (if (Board.getElement b i j).1 then [] else (Board.getElement b i j).2.2) = _
    rw [hvac]; rfl
  rw [hg, hi, List.mem_filter] at h
  push_neg at h
  simpa using h hnum

/-! ### `HiddenPairsStrategy` and `HiddenTriplesStrategy` never act

Both strategies add `num` as an influencer only under the test
`if not num in cand` — but a number that is *not* a candidate of a
vacant cell is already in its influencer list, so `addInfluencer`
ignores it.  (The test is inverted with respect to the rule the
strategy is named after.)  Hence both `applyStrategy` methods are
no-ops on every board. -/

theorem handleHiddenPairs_id (b : BoardData) (cells : List (Nat × Nat)) (n1 n2 : Nat) :
    HiddenPairsStrategy.handleHiddenPairs b cells n1 n2 = b := by
  unfold HiddenPairsStrategy.handleHiddenPairs
  dsimp only
  split
  case _ cell1 cell2 _ =>
    split
    case isTrue hlen =>
      refine foldl_fix _ _ _ (fun num hnum => ?_)
      dsimp only
      split
      case isTrue hne =>
        have fix1 : (if num ∉ Board.getCandidates b cell1.1 cell1.2 then
            Board.addInfluencer b num cell1.1 cell1.2 else b) = b := by
          split
          case isTrue hnc =>
            rcases h1 : (Board.getElement b cell1.1 cell1.2).1 with _ | _
            · exact addInfluencer_noop
                (Or.inr (mem_influencers_of_not_candidate hnum h1 hnc))
            · exact addInfluencer_noop (Or.inl h1)
          case isFalse => rfl
        rw [fix1]
        split
        case isTrue hnc =>
          rcases h2 : (Board.getElement b cell2.1 cell2.2).1 with _ | _
          · exact addInfluencer_noop
              (Or.inr (mem_influencers_of_not_candidate hnum h2 hnc))
          · exact addInfluencer_noop (Or.inl h2)
        case isFalse => rfl
      case isFalse => rfl
    case isFalse => rfl
  case _ => rfl

theorem hiddenPairsToRows_id (b : BoardData) :
    HiddenPairsStrategy.applyStrategyToRows b = b := by
  unfold HiddenPairsStrategy.applyStrategyToRows
  refine foldl_fix _ _ _ (fun i _ => ?_)
  refine foldl_fix _ _ _ (fun n1 _ => ?_)
  refine foldl_fix _ _ _ (fun n2 _ => ?_)
  exact handleHiddenPairs_id ..

theorem hiddenPairsToColumns_id (b : BoardData) :
    HiddenPairsStrategy.applyStrategyToColumns b = b := by
  unfold HiddenPairsStrategy.applyStrategyToColumns
  refine foldl_fix _ _ _ (fun j _ => ?_)
  refine foldl_fix _ _ _ (fun n1 _ => ?_)
  refine foldl_fix _ _ _ (fun n2 _ => ?_)
  exact handleHiddenPairs_id ..

theorem hiddenPairsToQuadrants_id (b : BoardData) :
    HiddenPairsStrategy.applyStrategyToQuadrants b = b := by
  unfold HiddenPairsStrategy.applyStrategyToQuadrants
  refine foldl_fix _ _ _ (fun d1 _ => ?_)
  refine foldl_fix _ _ _ (fun d2 _ => ?_)
  refine foldl_fix _ _ _ (fun n1 _ => ?_)
  refine foldl_fix _ _ _ (fun n2 _ => ?_)
  exact handleHiddenPairs_id ..

theorem hiddenPairs_id (b : BoardData) : HiddenPairsStrategy.applyStrategy b = b := by
  unfold HiddenPairsStrategy.applyStrategy
  rw [hiddenPairsToQuadrants_id, hiddenPairsToRows_id, hiddenPairsToColumns_id]

theorem handleHiddenTriples_id (b : BoardData) (cells : List (Nat × Nat))
    (n1 n2 n3 : Nat) : HiddenTriplesStrategy.handleHiddenTriples b cells n1 n2 n3 = b := by
  unfold HiddenTriplesStrategy.handleHiddenTriples
  dsimp only
  split
  case _ cell1 cell2 cell3 _ =>
    split
    case isTrue hlen =>
      refine foldl_fix _ _ _ (fun num hnum => ?_)
      dsimp only
      split
      case isTrue hne =>
        have fix1 : (if num ∉ Board.getCandidates b cell1.1 cell1.2 then
            Board.addInfluencer b num cell1.1 cell1.2 else b) = b := by
          split
          case isTrue hnc =>
            rcases h1 : (Board.getElement b cell1.1 cell1.2).1 with _ | _
            · exact addInfluencer_noop
                (Or.inr (mem_influencers_of_not_candidate hnum h1 hnc))
            · exact addInfluencer_noop (Or.inl h1)
          case isFalse => rfl
        rw [fix1]
        have fix2 : (if num ∉ Board.getCandidates b cell2.1 cell2.2 then
            Board.addInfluencer b num cell2.1 cell2.2 else b) = b := by
          split
          case isTrue hnc =>
            rcases h2 : (Board.getElement b cell2.1 cell2.2).1 with _ | _
            · exact addInfluencer_noop
                (Or.inr (mem_influencers_of_not_candidate hnum h2 hnc))
            · exact addInfluencer_noop (Or.inl h2)
          case isFalse => rfl
        rw [fix2]
        split
        case isTrue hnc =>
          rcases h3 : (Board.getElement b cell3.1 cell3.2).1 with _ | _
          · exact addInfluencer_noop
              (Or.inr (mem_influencers_of_not_candidate hnum h3 hnc))
          · exact addInfluencer_noop (Or.inl h3)
        case isFalse => rfl
      case isFalse => rfl
    case isFalse => rfl
  case _ => rfl

theorem hiddenTriplesToRows_id (b : BoardData) :
    HiddenTriplesStrategy.applyStrategyToRows b = b := by
  unfold HiddenTriplesStrategy.applyStrategyToRows
  refine foldl_fix _ _ _ (fun i _ => ?_)
  refine foldl_fix _ _ _ (fun n1 _ => ?_)
  refine foldl_fix _ _ _ (fun n2 _ => ?_)
  refine foldl_fix _ _ _ (fun n3 _ => ?_)
  exact handleHiddenTriples_id ..

theorem hiddenTriplesToColumns_id (b : BoardData) :
    HiddenTriplesStrategy.applyStrategyToColumns b = b := by
  unfold HiddenTriplesStrategy.applyStrategyToColumns
  refine foldl_fix _ _ _ (fun j _ => ?_)
  refine foldl_fix _ _ _ (fun n1 _ => ?_)
  refine foldl_fix _ _ _ (fun n2 _ => ?_)
  refine foldl_fix _ _ _ (fun n3 _ => ?_)
  exact handleHiddenTriples_id ..

theorem hiddenTriplesToQuadrants_id (b : BoardData) :
    HiddenTriplesStrategy.applyStrategyToQuadrants b = b := by
  unfold HiddenTriplesStrategy.applyStrategyToQuadrants
  refine foldl_fix _ _ _ (fun d1 _ => ?_)
  refine foldl_fix _ _ _ (fun d2 _ => ?_)
  refine foldl_fix _ _ _ (fun n1 _ => ?_)
  refine foldl_fix _ _ _ (fun n2 _ => ?_)
  refine foldl_fix _ _ _ (fun n3 _ => ?_)
  exact handleHiddenTriples_id ..

theorem hiddenTriples_id (b : BoardData) : HiddenTriplesStrategy.applyStrategy b = b := by
  unfold HiddenTriplesStrategy.applyStrategy
  rw [hiddenTriplesToQuadrants_id, hiddenTriplesToRows_id, hiddenTriplesToColumns_id]

/-! ### `PointingPairsAndTriplesStrategy` never acts

The skip condition `if c >= low or c <= high: continue` holds for every
`c`: either `low ≤ c`, or `c < low ≤ high` and hence `c ≤ high`.  So the
strategy never adds an influencer. -/

theorem handlePointing_id (b : BoardData) (cells : List (Nat × Nat)) (num : Nat) :
    PointingPairsAndTriplesStrategy.handlePointingPairsAndTriples b cells num = b := by
  unfold PointingPairsAndTriplesStrategy.handlePointingPairsAndTriples
  dsimp only
  split
  · rfl
  · split
    · rfl
    case _ inSameRow inSameCol c1i c1j _ =>
      rcases hq : Board.inverseMapQuadrant c1i c1j with ⟨d1, d2, rr, cc⟩
      simp only [hq]
      split
      · refine foldl_fix _ _ _ (fun c _ => ?_)
        split
        · rfl
        · rename_i hcon
          exfalso
          revert hcon
          simp only [dim]
          omega
      · split
        · refine foldl_fix _ _ _ (fun r _ => ?_)
          split
          · rfl
          · rename_i hcon
            exfalso
            revert hcon
            simp only [dim]
            omega
        · rfl

theorem pointing_id (b : BoardData) :
    PointingPairsAndTriplesStrategy.applyStrategy b = b := by
  unfold PointingPairsAndTriplesStrategy.applyStrategy
    PointingPairsAndTriplesStrategy.applyStrategyToQuadrants
  refine foldl_fix _ _ _ (fun _ _ => ?_)
  refine foldl_fix _ _ _ (fun _ _ => ?_)
  refine foldl_fix _ _ _ (fun _ _ => ?_)
  exact handlePointing_id ..

/-! ### The remaining strategies produce `Ext`-extensions -/

theorem xwingRows_ext (b : BoardData) : Ext b (XWingStrategy.applyStrategyToRows b) := by
  unfold XWingStrategy.applyStrategyToRows
  refine foldl_ext _ (fun b pivot => ?_) _ _
  dsimp only
  split
  · refine foldl_ext _ (fun b xw => ?_) _ _
    obtain ⟨r11, c11, r22, c22⟩ := xw
    exact (addInfluencerToColumn_ext ..).trans (addInfluencerToColumn_ext ..)
  · exact Ext.refl b

theorem xwingColumns_ext (b : BoardData) :
    Ext b (XWingStrategy.applyStrategyToColumns b) := by
  unfold XWingStrategy.applyStrategyToColumns
  refine foldl_ext _ (fun b pivot => ?_) _ _
  dsimp only
  split
  · refine foldl_ext _ (fun b xw => ?_) _ _
    obtain ⟨r11, c11, r22, c22⟩ := xw
    exact (addInfluencerToRow_ext ..).trans (addInfluencerToRow_ext ..)
  · exact Ext.refl b

theorem xwing_ext (b : BoardData) : Ext b (XWingStrategy.applyStrategy b) :=
  (xwingColumns_ext b).trans (xwingRows_ext _)

theorem swordfishColumns_ext (b : BoardData) :
    Ext b (SwordFishStrategy.applyStrategyToColumns b) := by
  unfold SwordFishStrategy.applyStrategyToColumns
  refine foldl_ext _ (fun b pivot => ?_) _ _
  refine foldl_ext _ (fun b c1 => ?_) _ _
  dsimp only
  split
  · exact Ext.refl b
  refine foldl_ext _ (fun b c2 => ?_) _ _
  dsimp only
  split
  · exact Ext.refl b
  refine foldl_ext _ (fun b c3 => ?_) _ _
  dsimp only
  split
  · exact Ext.refl b
  split
  · exact foldl_ext _ (fun b r => addInfluencerToRow_ext ..) _ _
  · exact Ext.refl b

theorem swordfishRows_ext (b : BoardData) :
    Ext b (SwordFishStrategy.applyStrategyToRows b) := by
  unfold SwordFishStrategy.applyStrategyToRows
  refine foldl_ext _ (fun b pivot => ?_) _ _
  refine foldl_ext _ (fun b r1 => ?_) _ _
  dsimp only
  split
  · exact Ext.refl b
  refine foldl_ext _ (fun b r2 => ?_) _ _
  dsimp only
  split
  · exact Ext.refl b
  refine foldl_ext _ (fun b r3 => ?_) _ _
  dsimp only
  split
  · exact Ext.refl b
  split
  · exact foldl_ext _ (fun b c => addInfluencerToColumn_ext ..) _ _
  · exact Ext.refl b

theorem swordfish_ext (b : BoardData) : Ext b (SwordFishStrategy.applyStrategy b) :=
  (swordfishColumns_ext b).trans (swordfishRows_ext _)

theorem analyzeRowInQuadrant_ext (b : BoardData) (d1 d2 r : Nat) :
    Ext b (IndirectInfluencersStrategy.analyzeRowInQuadrant b d1 d2 r) := by
  unfold IndirectInfluencersStrategy.analyzeRowInQuadrant
  dsimp only
  split
  · refine foldl_ext _ (fun b num => ?_) _ _
    refine foldl_ext _ (fun b j => ?_) _ _
    show Ext b (if (Board.getElement b ((d1 - 1) * dim + r) j).1 then b
      else if (d2 - 1) * dim + 1 ≤ j ∧ j < (d2 - 1) * dim + dim + 1 then b
      else Board.addInfluencer b num ((d1 - 1) * dim + r) j)
    split
    · exact Ext.refl b
    split
    · exact Ext.refl b
    · exact addInfluencer_ext ..
  · exact Ext.refl b

theorem analyzeColumnInQuadrant_ext (b : BoardData) (d1 d2 c : Nat) :
    Ext b (IndirectInfluencersStrategy.analyzeColumnInQuadrant b d1 d2 c) := by
  unfold IndirectInfluencersStrategy.analyzeColumnInQuadrant
  dsimp only
  split
  · refine foldl_ext _ (fun b num => ?_) _ _
    refine foldl_ext _ (fun b i => ?_) _ _
    show Ext b (if (Board.getElement b i ((d2 - 1) * dim + c)).1 then b
      else if (d1 - 1) * dim + 1 ≤ i ∧ i < (d1 - 1) * dim + dim + 1 then b
      else Board.addInfluencer b num i ((d2 - 1) * dim + c))
    split
    · exact Ext.refl b
    split
    · exact Ext.refl b
    · exact addInfluencer_ext ..
  · exact Ext.refl b

theorem indirect_ext (b : BoardData) :
    Ext b (IndirectInfluencersStrategy.applyStrategy b) := by
  unfold IndirectInfluencersStrategy.applyStrategy
  refine foldl_ext _ (fun b d1 => ?_) _ _
  refine foldl_ext _ (fun b d2 => ?_) _ _
  unfold IndirectInfluencersStrategy.addIndirectInfluencersToQuadrant
  exact (foldl_ext _ (fun b r => analyzeRowInQuadrant_ext ..) _ _).trans
    (foldl_ext _ (fun b c => analyzeColumnInQuadrant_ext ..) _ _)

/-- The whole influence-strategy pass of `occupy` only appends
influencers. -/
theorem influencePhase_ext (b : BoardData) : Ext b (influencePhase b) := by
  unfold influencePhase
  rw [hiddenPairs_id, hiddenTriples_id, pointing_id]
  exact ((xwing_ext b).trans (swordfish_ext _)).trans (indirect_ext _)

/-! ## Occupancy view and congruence of conformance checking

Conformance checking and the flat string encoding read only the
occupancy flag and the occupant value of each cell, never the
influencer lists.  `OccEq b b'` says the two boards agree on that
view. -/

/-- Two boards with the same occupancy flags and occupant values. -/
def OccEq (b b' : BoardData) : Prop :=
  b'.length = b.length ∧ ∀ idx : Nat,
    (cellAt b' idx).1 = (cellAt b idx).1 ∧
    (cellAt b' idx).2.1 = (cellAt b idx).2.1

theorem Ext.occEq {b b' : BoardData} (h : Ext b b') : OccEq b b' :=
  ⟨h.1, fun idx => ⟨(h.2 idx).1, (h.2 idx).2.1⟩⟩

theorem OccEq.same (b : BoardData) : OccEq b b := ⟨rfl, fun _ => ⟨rfl, rfl⟩⟩

theorem OccEq.symm {b b' : BoardData} (h : OccEq b b') : OccEq b' b :=
  ⟨h.1.symm, fun idx => ⟨(h.2 idx).1.symm, (h.2 idx).2.symm⟩⟩

theorem OccEq.chain {a b c : BoardData} (h1 : OccEq a b) (h2 : OccEq b c) : OccEq a c :=
  ⟨h2.1.trans h1.1, fun idx =>
    ⟨(h2.2 idx).1.trans (h1.2 idx).1, (h2.2 idx).2.trans (h1.2 idx).2⟩⟩

theorem getElement_fst_of_occEq {b b' : BoardData} (h : OccEq b b') (i j : Nat) :
    (Board.getElement b' i j).1 = (Board.getElement b i j).1 :=
  (h.2 (Board.bmap i j)).1

theorem getElement_val_of_occEq {b b' : BoardData} (h : OccEq b b') (i j : Nat) :
    (Board.getElement b' i j).2.1 = (Board.getElement b i j).2.1 :=
  (h.2 (Board.bmap i j)).2

/-- The one-step unfolding of `conformAux` on a cons cell list. -/
theorem conformAux_cons (b : BoardData) (r c : Nat) (rest : List (Nat × Nat))
    (numberList : List Nat) :
    Board.conformAux b ((r, c) :: rest) numberList =
      if (Board.getElement b r c).1 then
        if (Board.getElement b r c).2.1 ∈ numberList then false
        else Board.conformAux b rest (numberList ++ [(Board.getElement b r c).2.1])
      else Board.conformAux b rest numberList := rfl

theorem conformAux_congr {b b' : BoardData} (h : OccEq b b') (cells : List (Nat × Nat)) :
    ∀ numberList, Board.conformAux b' cells numberList =
      Board.conformAux b cells numberList := by
  induction cells with
  | nil => intro _; rfl
  | cons cell rest ih =>
    intro numberList
    obtain ⟨r, c⟩ := cell
    rw [conformAux_cons, conformAux_cons, getElement_fst_of_occEq h,
      getElement_val_of_occEq h]
    split
    · split
      · rfl
      · exact ih _
    · exact ih _

/-- `List.all` only depends on the values of its predicate on the list. -/
theorem allCongr {α} {l : List α} {f g : α → Bool} (h : ∀ x ∈ l, f x = g x) :
    l.all f = l.all g := by
  induction l with
  | nil => rfl
  | cons x xs ih =>
    rw [List.all_cons, List.all_cons, h x (List.mem_cons_self ..),
      ih fun y hy => h y (List.mem_cons_of_mem _ hy)]

theorem checkConformance_congr {b b' : BoardData} (h : OccEq b b') :
    Board.checkConformanceOfBoard b' = Board.checkConformanceOfBoard b := by
  unfold Board.checkConformanceOfBoard Board.checkConformanceInColumn
    Board.checkConformanceInRow Board.checkConformanceInQuadrant
  rw [allCongr (fun c _ => conformAux_congr h _ _),
    allCongr (fun r _ => conformAux_congr h _ _),
    allCongr (fun d1 _ => allCongr (fun d2 _ => conformAux_congr h _ _))]

/-- A fold only depends on the values of its body on the list. -/
theorem foldlCongr {α β} {l : List α} {f g : β → α → β} (s : β)
    (h : ∀ s, ∀ x ∈ l, f s x = g s x) : l.foldl f s = l.foldl g s := by
  induction l generalizing s with
  | nil => rfl
  | cons x xs ih =>
    rw [List.foldl_cons, List.foldl_cons, h s x (List.mem_cons_self ..)]
    exact ih _ fun s y hy => h s y (List.mem_cons_of_mem _ hy)

theorem turnBoardIntoString_congr {b b' : BoardData} (h : OccEq b b') :
    Board.turnBoardIntoString b' = Board.turnBoardIntoString b := by
  unfold Board.turnBoardIntoString
  refine foldlCongr _ (fun sl idx _ => ?_)
  have h1 : (b'.getD idx defaultCell).1 = (b.getD idx defaultCell).1 := (h.2 idx).1
  have h2 : (b'.getD idx defaultCell).2.1 = (b.getD idx defaultCell).2.1 := (h.2 idx).2
  show (if (b'.getD idx defaultCell).1 then sl ++ Nat.toDigits 10 (b'.getD idx defaultCell).2.1
    else sl ++ ['0']) =
    (if (b.getD idx defaultCell).1 then sl ++ Nat.toDigits 10 (b.getD idx defaultCell).2.1
    else sl ++ ['0'])
  rw [h1, h2]

/-! ## Case analysis of `occupy` -/

theorem setElement_setElement (b : BoardData) (i j : Nat) (c c' : Cell) :
    Board.setElement (Board.setElement b i j c) i j c' = Board.setElement b i j c' :=
  List.set_set ..

theorem setElement_getElement_self (b : BoardData) (i j : Nat) :
    Board.setElement b i j (Board.getElement b i j) = b :=
  set_getD_self ..

/-- `occupy` on an already occupied cell leaves the board unchanged
(it only prints an error). -/
theorem occupy_occupied {b : BoardData} {number i j : Nat}
    (h : (Board.getElement b i j).1 = true) : occupy b number i j = b := by
  show (if (Board.getElement b i j).1 then b else _) = b
  rw [if_pos h]

/-- `occupy` on a vacant cell whose commit breaks conformance restores
the previous content and leaves the board unchanged. -/
theorem occupy_rollback {b : BoardData} {number i j : Nat}
    (hvac : (Board.getElement b i j).1 = false)
    (hconf : Board.checkConformanceOfBoard
      (Board.setElement b i j (true, number, [])) = false) :
    occupy b number i j = b := by
  show (if (Board.getElement b i j).1 then b
    else if ¬ Board.checkConformanceOfBoard (Board.setElement b i j (true, number, [])) then
      Board.setElement (Board.setElement b i j (true, number, [])) i j
        ((Board.getElement b i j).1, (Board.getElement b i j).2.1,
          (Board.getElement b i j).2.2)
    else influencePhase (Board.addInfluencerToRegionExclusive
      (Board.setElement b i j (true, number, [])) number i j)) = b
  rw [if_neg (by rw [hvac]; exact Bool.false_ne_true),
    if_pos (by rw [hconf]; exact Bool.false_ne_true)]
  have he : ((Board.getElement b i j).1, (Board.getElement b i j).2.1,
      (Board.getElement b i j).2.2) = Board.getElement b i j := rfl
  rw [he, setElement_setElement]
  exact setElement_getElement_self ..

/-- `occupy` on a vacant cell whose commit keeps conformance propagates
the number and runs the influence strategies. -/
theorem occupy_success {b : BoardData} {number i j : Nat}
    (hvac : (Board.getElement b i j).1 = false)
    (hconf : Board.checkConformanceOfBoard
      (Board.setElement b i j (true, number, [])) = true) :
    occupy b number i j = influencePhase (Board.addInfluencerToRegionExclusive
      (Board.setElement b i j (true, number, [])) number i j) := by
  show (if (Board.getElement b i j).1 then b
    else if ¬ Board.checkConformanceOfBoard (Board.setElement b i j (true, number, [])) then
      Board.setElement (Board.setElement b i j (true, number, [])) i j
        ((Board.getElement b i j).1, (Board.getElement b i j).2.1,
          (Board.getElement b i j).2.2)
    else influencePhase (Board.addInfluencerToRegionExclusive
      (Board.setElement b i j (true, number, [])) number i j)) = _
  rw [if_neg (by rw [hvac]; exact Bool.false_ne_true),
    if_neg (by rw [hconf]; exact not_not_intro rfl)]

/-- A successful `occupy` run maintains conformance: either the board is
unchanged, or the committed board passed the conformance check and the
subsequent propagation and strategies change no occupancy data. -/
theorem checkConformance_occupy {b : BoardData} (number i j : Nat)
    (hb : Board.checkConformanceOfBoard b = true) :
    Board.checkConformanceOfBoard (occupy b number i j) = true := by
  rcases hflag : (Board.getElement b i j).1 with _ | _
  · rcases hconf : Board.checkConformanceOfBoard
      (Board.setElement b i j (true, number, [])) with _ | _
    · rw [occupy_rollback hflag hconf]
      exact hb
    · rw [occupy_success hflag hconf]
      have hext : Ext (Board.setElement b i j (true, number, []))
          (influencePhase (Board.addInfluencerToRegionExclusive
            (Board.setElement b i j (true, number, [])) number i j)) :=
        (addInfluencerToRegionExclusive_ext ..).trans (influencePhase_ext _)
      rw [checkConformance_congr hext.occEq]
      exact hconf
  · rw [occupy_occupied hflag]
    exact hb

/-! ## Conformance of reachable boards -/

theorem checkConformance_emptyData : Board.checkConformanceOfBoard emptyData = true := by
  decide

/-- Invariants are preserved along folds. -/
theorem foldl_invariant {α β} (P : β → Prop) (f : β → α → β)
    (H : ∀ b x, P b → P (f b x)) :
    ∀ (l : List α) (b : β), P b → P (l.foldl f b)
  | [], _, hb => hb
  | x :: xs, b, hb => foldl_invariant P f H xs (f b x) (H b x hb)

theorem checkConformance_reach (cmds : List (Nat × Fin 9 × Fin 9)) :
    Board.checkConformanceOfBoard (reach cmds) = true := by
  unfold reach
  exact foldl_invariant (fun b => Board.checkConformanceOfBoard b = true)
    _ (fun b c hb => checkConformance_occupy _ _ _ hb) cmds emptyData
    checkConformance_emptyData

/-! ## What conformance checking means

`conformAux` walks a region and fails exactly when the values of the
occupied cells of the region contain a duplicate. -/

/-- The values of the occupied cells among `cells`, in order. -/
def occVals (b : BoardData) (cells : List (Nat × Nat)) : List Nat :=
  cells.filterMap (fun rc =>
    if (Board.getElement b rc.1 rc.2).1 then some (Board.getElement b rc.1 rc.2).2.1
    else none)

theorem occVals_cons (b : BoardData) (r c : Nat) (rest : List (Nat × Nat)) :
    occVals b ((r, c) :: rest) =
      if (Board.getElement b r c).1 then
        (Board.getElement b r c).2.1 :: occVals b rest
      else occVals b rest := by
  unfold occVals
  rw [List.filterMap_cons]
  split <;> simp_all

theorem conformAux_eq_true_iff (b : BoardData) (cells : List (Nat × Nat)) :
    ∀ numberList, Board.conformAux b cells numberList = true ↔
      (occVals b cells).Nodup ∧ ∀ v ∈ occVals b cells, v ∉ numberList := by
  induction cells with
  | nil => intro acc; simp [Board.conformAux, occVals]
  | cons cell rest ih =>
    intro acc
    obtain ⟨r, c⟩ := cell
    rw [conformAux_cons, occVals_cons]
    rcases hflag : (Board.getElement b r c).1 with _ | _
    · rw [if_neg (by simp), if_neg (by simp [hflag])]
      exact ih acc
    · rw [if_pos rfl, if_pos rfl]
      by_cases hmem : (Board.getElement b r c).2.1 ∈ acc
      · rw [if_pos hmem]
        constructor
        · intro hfalse; exact absurd hfalse (by simp)
        · rintro ⟨-, hall⟩
          exact absurd hmem (hall _ (List.mem_cons_self ..))
      · rw [if_neg hmem, ih]
        constructor
        · rintro ⟨hnd, hall⟩
          refine ⟨List.nodup_cons.mpr ⟨fun hv => ?_, hnd⟩, ?_⟩
          · have := hall _ hv
            simp at this
          · intro v hv
            rcases List.mem_cons.mp hv with rfl | hv'
            · exact hmem
            · intro hvacc
              exact (hall v hv') (by simp [hvacc])
        · rintro ⟨hnd, hall⟩
          obtain ⟨hnotin, hnd'⟩ := List.nodup_cons.mp hnd
          refine ⟨hnd', fun v hv => ?_⟩
          intro hvmem
          rcases List.mem_append.mp hvmem with hvacc | hveq
          · exact hall v (List.mem_cons_of_mem _ hv) hvacc
          · simp only [List.mem_singleton] at hveq
            subst hveq
            exact hnotin hv

/-- The cell list of row `r`, as walked by `checkConformanceInRow`. -/
def rowCells (r : Nat) : List (Nat × Nat) := (pyrange 1 (DIM + 1)).map (fun c => (r, c))

/-- The cell list of column `c`, as walked by `checkConformanceInColumn`. -/
def colCells (c : Nat) : List (Nat × Nat) := (pyrange 1 (DIM + 1)).map (fun r => (r, c))

/-- The cell list of quadrant `(d1, d2)`, as walked by
`checkConformanceInQuadrant`. -/
def quadCells (d1 d2 : Nat) : List (Nat × Nat) :=
  (pyrange 0 dim).foldl (fun acc i =>
    acc ++ (pyrange 0 dim).map (fun j => ((d1 - 1) * dim + 1 + i, (d2 - 1) * dim + 1 + j))) []

theorem checkConformanceInRow_iff (b : BoardData) (r : Nat) :
    Board.checkConformanceInRow b r = true ↔ (occVals b (rowCells r)).Nodup := by
  unfold Board.checkConformanceInRow
  rw [conformAux_eq_true_iff]
  simp [rowCells]

theorem checkConformanceInColumn_iff (b : BoardData) (c : Nat) :
    Board.checkConformanceInColumn b c = true ↔ (occVals b (colCells c)).Nodup := by
  unfold Board.checkConformanceInColumn
  rw [conformAux_eq_true_iff]
  simp [colCells]

theorem checkConformanceInQuadrant_iff (b : BoardData) (d1 d2 : Nat) :
    Board.checkConformanceInQuadrant b d1 d2 = true ↔
      (occVals b (quadCells d1 d2)).Nodup := by
  unfold Board.checkConformanceInQuadrant
  rw [conformAux_eq_true_iff]
  unfold quadCells
  constructor
  · intro h; exact h.1
  · intro h; exact ⟨h, by simp⟩

/-- The whole-board checker succeeds iff every column, row and quadrant
value list is duplicate free. -/
theorem checkConformanceOfBoard_iff (b : BoardData) :
    Board.checkConformanceOfBoard b = true ↔
      (∀ c ∈ pyrange 1 (DIM + 1), (occVals b (colCells c)).Nodup) ∧
      (∀ r ∈ pyrange 1 (DIM + 1), (occVals b (rowCells r)).Nodup) ∧
      (∀ d1 ∈ pyrange 1 (dim + 1), ∀ d2 ∈ pyrange 1 (dim + 1),
        (occVals b (quadCells d1 d2)).Nodup) := by
  unfold Board.checkConformanceOfBoard
  simp only [Bool.and_eq_true, List.all_eq_true]
  rw [forall_congr' (fun c => forall_congr' (fun _ => checkConformanceInColumn_iff b c)),
    forall_congr' (fun r => forall_congr' (fun _ => checkConformanceInRow_iff b r))]
  constructor
  · rintro ⟨⟨hc, hr⟩, hq⟩
    exact ⟨hc, hr, fun d1 h1 d2 h2 => (checkConformanceInQuadrant_iff b d1 d2).mp (hq d1 h1 d2 h2)⟩
  · rintro ⟨hc, hr, hq⟩
    exact ⟨⟨hc, hr⟩, fun d1 h1 d2 h2 => (checkConformanceInQuadrant_iff b d1 d2).mpr (hq d1 h1 d2 h2)⟩

/-- In a duplicate-free `filterMap`, two distinct list elements cannot
be mapped to the same value. -/
theorem filterMap_nodup_unique {α β} {l : List α} {f : α → Option β}
    (h : (l.filterMap f).Nodup) :
    ∀ x ∈ l, ∀ y ∈ l, x ≠ y → ∀ v, f x = some v → f y = some v → False := by
  induction l with
  | nil => intro x hx; exact absurd hx (List.not_mem_nil x)
  | cons a as ih =>
    intro x hx y hy hxy v hfx hfy
    rw [List.filterMap_cons] at h
    rcases List.mem_cons.mp hx with rfl | hx' <;>
      rcases List.mem_cons.mp hy with rfl | hy'
    · exact hxy rfl
    · rw [hfx] at h
      exact (List.nodup_cons.mp h).1 (List.mem_filterMap.mpr ⟨y, hy', hfy⟩)
    · rw [hfy] at h
      exact (List.nodup_cons.mp h).1 (List.mem_filterMap.mpr ⟨x, hx', hfx⟩)
    · rcases hfa : f a with _ | w
      · rw [hfa] at h
        exact ih h x hx' y hy' hxy v hfx hfy
      · rw [hfa] at h
        exact ih (List.nodup_cons.mp h).2 x hx' y hy' hxy v hfx hfy

/-- The claim-level conformance property: no row, column or quadrant
contains two occupied cells holding the same value. -/
def NoRegionDuplicates (b : BoardData) : Prop :=
  ∀ i j i' j', i ∈ pyrange 1 (DIM + 1) → j ∈ pyrange 1 (DIM + 1) →
    i' ∈ pyrange 1 (DIM + 1) → j' ∈ pyrange 1 (DIM + 1) →
    (i, j) ≠ (i', j') →
    (Board.getElement b i j).1 = true → (Board.getElement b i' j').1 = true →
    (i = i' ∨ j = j' ∨
      ((i - 1) / dim = (i' - 1) / dim ∧ (j - 1) / dim = (j' - 1) / dim)) →
    (Board.getElement b i j).2.1 ≠ (Board.getElement b i' j').2.1

theorem mem_rowCells {r p q : Nat} :
    (p, q) ∈ rowCells r ↔ p = r ∧ q ∈ pyrange 1 (DIM + 1) := by
  unfold rowCells
  simp only [List.mem_map, Prod.mk.injEq]
  constructor
  · rintro ⟨c, hc, rfl, rfl⟩; exact ⟨rfl, hc⟩
  · rintro ⟨rfl, hq⟩; exact ⟨q, hq, rfl, rfl⟩

theorem mem_colCells {c p q : Nat} :
    (p, q) ∈ colCells c ↔ q = c ∧ p ∈ pyrange 1 (DIM + 1) := by
  unfold colCells
  simp only [List.mem_map, Prod.mk.injEq]
  constructor
  · rintro ⟨r, hr, rfl, rfl⟩; exact ⟨rfl, hr⟩
  · rintro ⟨rfl, hp⟩; exact ⟨p, hp, rfl, rfl⟩

theorem mem_quadCells {d1 d2 p q : Nat} :
    (p, q) ∈ quadCells d1 d2 ↔
      ((d1 - 1) * dim + 1 ≤ p ∧ p ≤ (d1 - 1) * dim + dim ∧
       (d2 - 1) * dim + 1 ≤ q ∧ q ≤ (d2 - 1) * dim + dim) := by
  show (p, q) ∈ ([] ++ _ ++ _ ++ _ : List (Nat × Nat)) ↔ _
  simp only [List.nil_append, List.mem_append, List.mem_map, Prod.mk.injEq]
  unfold dim
  constructor
  · rintro ((⟨j, hj, rfl, rfl⟩ | ⟨j, hj, rfl, rfl⟩) | ⟨j, hj, rfl, rfl⟩) <;>
      rw [mem_pyrange] at hj <;> omega
  · intro hpq
    have hp1 : p = (d1 - 1) * 3 + 1 + 0 ∨ p = (d1 - 1) * 3 + 1 + 1 ∨
        p = (d1 - 1) * 3 + 1 + 2 := by omega
    have hjj : q - ((d2 - 1) * 3 + 1) ∈ pyrange 0 3 := by rw [mem_pyrange]; omega
    have hq2 : q = (d2 - 1) * 3 + 1 + (q - ((d2 - 1) * 3 + 1)) := by omega
    rcases hp1 with hp | hp | hp <;> rw [hp]
    · exact Or.inl (Or.inl ⟨_, hjj, rfl, hq2.symm⟩)
    · exact Or.inl (Or.inr ⟨_, hjj, rfl, hq2.symm⟩)
    · exact Or.inr ⟨_, hjj, rfl, hq2.symm⟩

/-- Success of the conformance checker implies the claim-level
conformance property. -/
theorem noRegionDuplicates_of_check {b : BoardData}
    (h : Board.checkConformanceOfBoard b = true) : NoRegionDuplicates b := by
  obtain ⟨hcols, hrows, hquads⟩ := (checkConformanceOfBoard_iff b).mp h
  intro i j i' j' hi hj hi' hj' hne hocc hocc' hreg heq
  have hval : (fun rc : Nat × Nat =>
      if (Board.getElement b rc.1 rc.2).1 then some (Board.getElement b rc.1 rc.2).2.1
      else none) (i, j) = some (Board.getElement b i j).2.1 := by simp [hocc]
  have hval' : (fun rc : Nat × Nat =>
      if (Board.getElement b rc.1 rc.2).1 then some (Board.getElement b rc.1 rc.2).2.1
      else none) (i', j') = some (Board.getElement b i j).2.1 := by simp [hocc', heq]
  rcases hreg with rfl | rfl | ⟨hd1, hd2⟩
  · exact filterMap_nodup_unique (hrows i hi) (i, j)
      (mem_rowCells.mpr ⟨rfl, hj⟩) (i, j') (mem_rowCells.mpr ⟨rfl, hj'⟩)
      hne _ hval hval'
  · exact filterMap_nodup_unique (hcols j hj) (i, j)
      (mem_colCells.mpr ⟨rfl, hi⟩) (i', j) (mem_colCells.mpr ⟨rfl, hi'⟩)
      hne _ hval hval'
  · rw [mem_pyrange] at hi hj hi' hj'
    have hd1m : (i - 1) / dim + 1 ∈ pyrange 1 (dim + 1) := by
      rw [mem_pyrange]; unfold DIM dim at *; omega
    have hd2m : (j - 1) / dim + 1 ∈ pyrange 1 (dim + 1) := by
      rw [mem_pyrange]; unfold DIM dim at *; omega
    refine filterMap_nodup_unique (hquads _ hd1m _ hd2m) (i, j) ?_ (i', j') ?_
      hne _ hval hval'
    · rw [mem_quadCells]; unfold DIM dim at *; omega
    · rw [mem_quadCells]; unfold DIM dim at *; omega

/-! ## Claim C1 -/

/-- C1.  Every board state reachable from the empty board by a sequence
of `SudokuSolver.occupy` calls (the sole committing operation) has no
row, column or quadrant with two occupied cells holding the same value;
equivalently, `Board.checkConformanceOfBoard` returns `True` on every
such state. -/
theorem c1_conformance_of_reachable :
    ∀ cmds : List (Nat × Fin 9 × Fin 9),
      Board.checkConformanceOfBoard (reach cmds) = true ∧
        NoRegionDuplicates (reach cmds) := fun cmds =>
  ⟨checkConformance_reach cmds,
    noRegionDuplicates_of_check (checkConformance_reach cmds)⟩

/-- Witness for C1 at a concrete reachable state: the empty board
followed by one commit. -/
theorem c1_conformance_of_reachable_witness :
    Board.checkConformanceOfBoard (reach [(5, ⟨1, by omega⟩, ⟨0, by omega⟩)]) = true :=
  (c1_conformance_of_reachable [(5, ⟨1, by omega⟩, ⟨0, by omega⟩)]).1

/-! ## Claim C8 : the elimination primitive and monotonicity -/

/-- `f` only lets influencer lists of still-vacant cells grow: a cell
vacant after `f` was vacant before, with its previous influencer list a
prefix of the new one. -/
def InfluencerMonotone (f : BoardData → BoardData) : Prop :=
  ∀ b idx, (cellAt (f b) idx).1 = false →
    (cellAt b idx).1 = false ∧
    ∃ t, (cellAt (f b) idx).2.2 = (cellAt b idx).2.2 ++ t

theorem influencerMonotone_of_ext {f : BoardData → BoardData}
    (h : ∀ b, Ext b (f b)) : InfluencerMonotone f := by
  intro b idx hvac
  obtain ⟨hflag, _, t, hz⟩ := (h b).2 idx
  exact ⟨hflag ▸ hvac, t, hz⟩

/-- The exact behaviour of `Board.addInfluencer`. -/
theorem addInfluencer_spec (b : BoardData) (number i j : Nat) :
    ((Board.getElement b i j).1 = false ∧ number ∉ (Board.getElement b i j).2.2 →
      Board.addInfluencer b number i j =
        Board.setElement b i j ((Board.getElement b i j).1,
          (Board.getElement b i j).2.1, (Board.getElement b i j).2.2 ++ [number])) ∧
    ((Board.getElement b i j).1 = true ∨ number ∈ (Board.getElement b i j).2.2 →
      Board.addInfluencer b number i j = b) := by
  constructor
  · rintro ⟨hvac, hnmem⟩
    show (if (Board.getElement b i j).1 then b
      else if number ∈ (Board.getElement b i j).2.2 then b
      else Board.setElement b i j ((Board.getElement b i j).1,
        (Board.getElement b i j).2.1, (Board.getElement b i j).2.2 ++ [number])) = _
    rw [if_neg (by rw [hvac]; exact Bool.false_ne_true), if_neg hnmem]
  · exact addInfluencer_noop

theorem occupy_influencerMonotone (number i j : Nat) :
    InfluencerMonotone (fun b => occupy b number i j) := by
  intro b idx hvac
  replace hvac : (cellAt (occupy b number i j) idx).1 = false := hvac
  show (cellAt b idx).1 = false ∧
    ∃ t, (cellAt (occupy b number i j) idx).2.2 = (cellAt b idx).2.2 ++ t
  rcases hflag : (Board.getElement b i j).1 with _ | _
  · rcases hconf : Board.checkConformanceOfBoard
      (Board.setElement b i j (true, number, [])) with _ | _
    · rw [occupy_rollback hflag hconf] at hvac ⊢
      exact ⟨hvac, [], by simp⟩
    · rw [occupy_success hflag hconf] at hvac ⊢
      have hext : Ext (Board.setElement b i j (true, number, []))
          (influencePhase (Board.addInfluencerToRegionExclusive
            (Board.setElement b i j (true, number, [])) number i j)) :=
        (addInfluencerToRegionExclusive_ext ..).trans (influencePhase_ext _)
      obtain ⟨hf, _, t, hz⟩ := hext.2 idx
      rcases Nat.lt_or_ge (Board.bmap i j) b.length with hlt | hge
      · rcases eq_or_ne idx (Board.bmap i j) with rfl | hne
        · exfalso
          rw [hf] at hvac
          unfold cellAt Board.setElement at hvac
          rw [getD_set_self _ _ _ _ hlt] at hvac
          simp at hvac
        · have hcell : cellAt (Board.setElement b i j (true, number, [])) idx =
              cellAt b idx := by
            unfold cellAt Board.setElement
            exact getD_set_ne _ _ _ (Ne.symm hne)
          rw [hcell] at hf hz
          exact ⟨hf ▸ hvac, t, hz⟩
      · have hcell : cellAt (Board.setElement b i j (true, number, [])) idx =
            cellAt b idx := by
          have hb : Board.setElement b i j (true, number, []) = b :=
            List.set_eq_of_length_le hge
          rw [hb]
        rw [hcell] at hf hz
        exact ⟨hf ▸ hvac, t, hz⟩
  · rw [occupy_occupied hflag] at hvac ⊢
    exact ⟨hvac, [], by simp⟩

/-! ## Claim C6 -/

/-- C6.  The `totalset`/`totalSet` accumulation bug: each region method
of `RemainingInfluencerStrategy` returns 0 on every board and every
cell, because the working set never leaves the full 9-symbol universe
and the size-1 test never fires. -/
theorem c6_remaining_influencer_never_decides :
    ∀ (b : BoardData) (i j : Nat),
      RemainingInfluencerStrategy.applyToQuadrant b i j = 0 ∧
      RemainingInfluencerStrategy.applyToRow b i j = 0 ∧
      RemainingInfluencerStrategy.applyToColumn b i j = 0 :=
  fun _ _ _ => ⟨rfl, rfl, rfl⟩

/-! ## Claim C7 -/

/-- C7.  `OneCandidateLeftStrategy.applyStrategy` on a vacant cell whose
influencer list has exactly `DIM - 1 = 8` distinct symbols from `1..9`
returns the single symbol of `1..9` not in the list, and returns 0 when
the list has fewer than 8 entries. -/
theorem c7_one_candidate_left (b : BoardData) (i j : Nat) :
    ((Board.getElement b i j).1 = false →
      (Board.getElement b i j).2.2.Nodup →
      (∀ m ∈ (Board.getElement b i j).2.2, m ∈ pyrange 1 (DIM + 1)) →
      (Board.getElement b i j).2.2.length = DIM - 1 →
      ∀ m, m ∈ pyrange 1 (DIM + 1) → m ∉ (Board.getElement b i j).2.2 →
        OneCandidateLeftStrategy.applyStrategy b i j = m) ∧
    ((Board.getElement b i j).2.2.length < DIM - 1 →
      OneCandidateLeftStrategy.applyStrategy b i j = 0) := by
  have happ : OneCandidateLeftStrategy.applyStrategy b i j =
      if (Board.getElement b i j).2.2.length = DIM - 1 then
        (Board.getCandidates b i j).headD 0
      else 0 := rfl
  constructor
  · intro hvac hnodup hsub hlen m hm hmz
    have hcand : Board.getCandidates b i j =
        (pyrange 1 (DIM + 1)).filter
          (fun num => decide (num ∉ (Board.getElement b i j).2.2)) := by
      show (if (Board.getElement b i j).1 then [] else _) = _
      rw [if_neg (by rw [hvac]; exact Bool.false_ne_true)]
      have hinf : Board.getInfluencers b i j = (Board.getElement b i j).2.2 := by
        show (if (Board.getElement b i j).1 then []
          else (Board.getElement b i j).2.2) = _
        rw [if_neg (by rw [hvac]; exact Bool.false_ne_true)]
      rw [hinf]
    set z := (Board.getElement b i j).2.2 with hz
    have hperm : (pyrange 1 (DIM + 1)).filter (fun num => decide (num ∈ z)) |>.Perm z := by
      refine List.perm_of_nodup_nodup_toFinset_eq
        (List.Nodup.filter _ (by decide)) hnodup ?_
      ext a
      simp only [List.mem_toFinset, List.mem_filter, decide_eq_true_eq]
      exact ⟨fun h => h.2, fun h => ⟨hsub a h, h⟩⟩
    have hlenfil : ((pyrange 1 (DIM + 1)).filter
        (fun num => decide (num ∈ z))).length = DIM - 1 := by
      rw [hperm.length_eq, hlen]
    have hsplit := List.length_eq_length_filter_add (l := pyrange 1 (DIM + 1))
      (fun num => decide (num ∈ z))
    have hone : (Board.getCandidates b i j).length = 1 := by
      rw [hcand]
      have hfe : ((pyrange 1 (DIM + 1)).filter
          (fun num => decide (num ∉ z))).length =
        ((pyrange 1 (DIM + 1)).filter
          (fun num => !(decide (num ∈ z)))).length := by
        congr 1
        refine List.filter_congr (fun x _ => ?_)
        by_cases hx : x ∈ z <;> simp [hx]
      rw [hfe]
      have h9 : (pyrange 1 (DIM + 1)).length = DIM := by decide
      have hD : DIM = 9 := rfl
      omega
    obtain ⟨a, ha⟩ := List.length_eq_one.mp hone
    have hma : m ∈ Board.getCandidates b i j := by
      rw [hcand, List.mem_filter]
      exact ⟨hm, by simpa using hmz⟩
    rw [ha] at hma
    rw [happ, if_pos hlen, ha]
    have hma' : m = a := by simpa using hma
    rw [hma']
    rfl
  · intro hlt
    rw [happ]
    exact if_neg (show ¬ (Board.getElement b i j).2.2.length = DIM - 1 by omega)

/-- Witness for C7: a cell with influencer list `[1..8]` yields 9, and
a cell with a 7-element list yields 0. -/
theorem c7_one_candidate_left_witness :
    OneCandidateLeftStrategy.applyStrategy
      (Board.setElement emptyData 1 1 (false, 0, [1, 2, 3, 4, 5, 6, 7, 8])) 1 1 = 9 ∧
    OneCandidateLeftStrategy.applyStrategy
      (Board.setElement emptyData 2 2 (false, 0, [1, 2, 3, 4, 5, 6, 7])) 2 2 = 0 :=
  ⟨(c7_one_candidate_left _ 1 1).1 (by decide) (by decide) (by decide) (by decide)
      9 (by decide) (by decide),
    (c7_one_candidate_left _ 2 2).2 (by decide)⟩

/-! ## Claim C8 -/

/-- C8.  `Board.addInfluencer` adds the number to the influencer list
exactly when the cell is vacant and the number is not yet listed, and
is a no-op otherwise; consequently a cell that remains vacant has an
influencer list that only grows (so its candidate set only shrinks)
under every propagation operation, every installed influence strategy,
and `occupy` itself. -/
theorem c8_exclusion_monotonicity :
    (∀ (b : BoardData) (number i j : Nat),
      ((Board.getElement b i j).1 = false ∧ number ∉ (Board.getElement b i j).2.2 →
        Board.addInfluencer b number i j =
          Board.setElement b i j ((Board.getElement b i j).1,
            (Board.getElement b i j).2.1, (Board.getElement b i j).2.2 ++ [number])) ∧
      ((Board.getElement b i j).1 = true ∨ number ∈ (Board.getElement b i j).2.2 →
        Board.addInfluencer b number i j = b)) ∧
    (∀ number i j, InfluencerMonotone (fun b => Board.addInfluencer b number i j)) ∧
    (∀ number d1 d2 ex,
      InfluencerMonotone (fun b => Board.addInfluencerToQuadrant b number d1 d2 ex)) ∧
    (∀ number j ex,
      InfluencerMonotone (fun b => Board.addInfluencerToColumn b number j ex)) ∧
    (∀ number i ex,
      InfluencerMonotone (fun b => Board.addInfluencerToRow b number i ex)) ∧
    (∀ number i j,
      InfluencerMonotone (fun b => Board.addInfluencerToRegionExclusive b number i j)) ∧
    InfluencerMonotone XWingStrategy.applyStrategy ∧
    InfluencerMonotone SwordFishStrategy.applyStrategy ∧
    InfluencerMonotone HiddenPairsStrategy.applyStrategy ∧
    InfluencerMonotone HiddenTriplesStrategy.applyStrategy ∧
    InfluencerMonotone PointingPairsAndTriplesStrategy.applyStrategy ∧
    InfluencerMonotone IndirectInfluencersStrategy.applyStrategy ∧
    (∀ number i j, InfluencerMonotone (fun b => occupy b number i j)) := by
  refine ⟨addInfluencer_spec, ?_, ?_, ?_, ?_, ?_, ?_, ?_, ?_, ?_, ?_, ?_,
    occupy_influencerMonotone⟩
  · exact fun number i j => influencerMonotone_of_ext (fun b => addInfluencer_ext ..)
  · exact fun number d1 d2 ex =>
      influencerMonotone_of_ext (fun b => addInfluencerToQuadrant_ext ..)
  · exact fun number j ex =>
      influencerMonotone_of_ext (fun b => addInfluencerToColumn_ext ..)
  · exact fun number i ex =>
      influencerMonotone_of_ext (fun b => addInfluencerToRow_ext ..)
  · exact fun number i j =>
      influencerMonotone_of_ext (fun b => addInfluencerToRegionExclusive_ext ..)
  · exact influencerMonotone_of_ext xwing_ext
  · exact influencerMonotone_of_ext swordfish_ext
  · exact influencerMonotone_of_ext (fun b => by
      rw [hiddenPairs_id]; exact Ext.refl b)
  · exact influencerMonotone_of_ext (fun b => by
      rw [hiddenTriples_id]; exact Ext.refl b)
  · exact influencerMonotone_of_ext (fun b => by
      rw [pointing_id]; exact Ext.refl b)
  · exact influencerMonotone_of_ext indirect_ext

/-- Witness for C8: adding influencer 5 to the vacant cell (1, 1) of the
empty board appends it, and monotonicity applied at a concrete cell. -/
theorem c8_exclusion_monotonicity_witness :
    (((Board.getElement emptyData 1 1).1 = false ∧
        5 ∉ (Board.getElement emptyData 1 1).2.2) ∧
      Board.addInfluencer emptyData 5 1 1 =
        Board.setElement emptyData 1 1 ((Board.getElement emptyData 1 1).1,
          (Board.getElement emptyData 1 1).2.1,
          (Board.getElement emptyData 1 1).2.2 ++ [5])) ∧
    ((cellAt (Board.addInfluencer emptyData 5 1 1) 3).1 = false ∧
      ((cellAt emptyData 3).1 = false ∧
        ∃ t, (cellAt (Board.addInfluencer emptyData 5 1 1) 3).2.2 =
          (cellAt emptyData 3).2.2 ++ t)) :=
  ⟨⟨⟨by decide, by decide⟩,
      (c8_exclusion_monotonicity.1 emptyData 5 1 1).1 ⟨by decide, by decide⟩⟩,
    ⟨by decide, c8_exclusion_monotonicity.2.1 5 1 1 emptyData 3 (by decide)⟩⟩

/-! ## Claims C3 and C10 -/

/-- C3.  If `occupy` is called with a number and a vacant cell `(i, j)`
and writing that number makes the board non-conformant, the board after
the call equals the board before the call. -/
theorem c3_conflict_rollback (b : BoardData) (number i j : Nat)
    (hvac : (Board.getElement b i j).1 = false)
    (hconf : Board.checkConformanceOfBoard
      (Board.setElement b i j (true, number, [])) = false) :
    occupy b number i j = b :=
  occupy_rollback hvac hconf

/-- A small board used by the witnesses of C3 and C10: a 5 committed at
cell (1, 1). -/
def witnessBoard : BoardData := Board.setElement emptyData 1 1 (true, 5, [])

/-- Witness for C3: committing a second 5 in row 1 is rolled back. -/
theorem c3_conflict_rollback_witness :
    ((Board.getElement witnessBoard 1 2).1 = false ∧
      Board.checkConformanceOfBoard
        (Board.setElement witnessBoard 1 2 (true, 5, [])) = false) ∧
    occupy witnessBoard 5 1 2 = witnessBoard :=
  ⟨⟨by decide, by decide⟩,
    c3_conflict_rollback witnessBoard 5 1 2 (by decide) (by decide)⟩

/-- C10.  Calling `occupy` on an already occupied cell leaves every
cell of the board unchanged. -/
theorem c10_occupy_on_occupied_frame (b : BoardData) (number i j : Nat)
    (h : (Board.getElement b i j).1 = true) :
    occupy b number i j = b :=
  occupy_occupied h

/-- Witness for C10: occupying the occupied cell (1, 1) changes
nothing. -/
theorem c10_occupy_on_occupied_frame_witness :
    (Board.getElement witnessBoard 1 1).1 = true ∧
    occupy witnessBoard 7 1 1 = witnessBoard :=
  ⟨by decide, c10_occupy_on_occupied_frame witnessBoard 7 1 1 (by decide)⟩

/-! ## Claim C9 -/

theorem wellFormed_eq_false_of_badchar {s : List Char}
    (h : ∃ c ∈ s, c ∉ ['0', '1', '2', '3', '4', '5', '6', '7', '8', '9'])
    (hlen : s.length = DIM * DIM) : wellFormed s = false := by
  obtain ⟨c, hcs, hcd⟩ := h
  obtain ⟨n, hn, rfl⟩ := List.getElem_of_mem hcs
  have hget : s.getD n ' ' = s[n] := by
    simp [List.getD_eq_getElem?_getD, List.getElem?_eq_getElem hn]
  apply List.all_eq_false.mpr
  refine ⟨n, ?_, ?_⟩
  · rw [mem_pyrange]; omega
  · rw [hget]
    simpa using hcd

/-- C9, corrected.  `solveBF` rejects any string of wrong length or
with a non-digit character by returning the empty string (it operates
on strings only and touches no board).  `turnStringIntoBoard` strips
blanks first and validates only the *stripped* string: whenever the
stripped string has a wrong length (`checkString` returns `False` and
the assert fires) or a non-digit character (`checkString` aborts), the
loader aborts before performing any `occupy`, leaving every existing
grid cell unchanged. -/
theorem c9_malformed_input_rejection :
    (∀ s : List Char,
      s.length ≠ DIM * DIM ∨
        (∃ c ∈ s, c ∉ ['0', '1', '2', '3', '4', '5', '6', '7', '8', '9']) →
      solveBF s = []) ∧
    (∀ (s : List Char) (b : BoardData),
      ((s.filter (fun c => decide (c ≠ ' '))).length ≠ DIM * DIM ∨
        ∃ c ∈ s.filter (fun c => decide (c ≠ ' ')),
          c ∉ ['0', '1', '2', '3', '4', '5', '6', '7', '8', '9']) →
      turnStringIntoBoard s b = none) := by
  constructor
  · intro s h
    unfold solveBF
    by_cases hlen : s.length = DIM * DIM
    · rcases h with h | h
      · exact absurd hlen h
      · rw [if_neg (not_not_intro hlen), if_pos]
        rw [wellFormed_eq_false_of_badchar h hlen]
        exact Bool.false_ne_true
    · rw [if_pos hlen]
  · intro s b h
    have hchk : checkString (s.filter (fun c => decide (c ≠ ' '))) = some false ∨
        checkString (s.filter (fun c => decide (c ≠ ' '))) = none := by
      unfold checkString
      by_cases hlen : (s.filter (fun c => decide (c ≠ ' '))).length = DIM * DIM
      · rcases h with hl | hbad
        · exact absurd hlen hl
        · right
          rw [if_neg (not_not_intro hlen), if_neg]
          have hwf := wellFormed_eq_false_of_badchar hbad hlen
          unfold wellFormed at hwf
          rw [hwf]
          exact Bool.false_ne_true
      · left
        rw [if_pos hlen]
    unfold turnStringIntoBoard
    rcases hchk with hc | hc <;> simp only [hc]

/-- Witness for C9 (corrected form): an 80-character string is rejected
by both loaders, and a string with a non-digit character is rejected by
`solveBF`. -/
theorem c9_malformed_input_rejection_witness :
    (List.replicate 80 '0').length ≠ DIM * DIM ∧
    solveBF (List.replicate 80 '0') = [] ∧
    turnStringIntoBoard (List.replicate 80 '0') emptyData = none ∧
    solveBF (List.replicate 80 '0' ++ ['X']) = [] :=
  ⟨by decide,
    c9_malformed_input_rejection.1 _ (Or.inl (by decide)),
    c9_malformed_input_rejection.2 _ emptyData (Or.inl (by decide)),
    c9_malformed_input_rejection.1 _ (Or.inr ⟨'X', by decide, by decide⟩)⟩

/-- Counterexample to C9 as stated: the 82-character string of 81 zeros
followed by a blank has length different from 81, yet
`turnStringIntoBoard` does not reject it (the blank is stripped before
validation): the loader runs to completion and returns a board.  So the
claim that every input of length other than 81 fails `checkString`
before any `occupy` is false. -/
theorem c9_counterexample_blank_stripping :
    (List.replicate 81 '0' ++ [' ']).length ≠ DIM * DIM ∧
    turnStringIntoBoard (List.replicate 81 '0' ++ [' ']) emptyData =
      some emptyData := by
  constructor
  · decide
  · decide

/-! ## Claim C5 : the round trip

The flat encoding records occupants only.  Reloading replays the
occupants in row-major order, so the influencer lists are rebuilt in
row-major propagation order — which need not match the original commit
order.  The counterexample below exhibits a reachable grid whose
round trip differs in the influencer list of cell (1, 2). -/

theorem OccEq_set {b b' : BoardData} (h : OccEq b b') (i j : Nat) (c : Cell) :
    OccEq (Board.setElement b i j c) (Board.setElement b' i j c) := by
  refine ⟨by simp [Board.setElement, h.1], fun idx => ?_⟩
  unfold cellAt Board.setElement
  rcases eq_or_ne (Board.bmap i j) idx with rfl | hne
  · rcases Nat.lt_or_ge (Board.bmap i j) b.length with hlt | hge
    · rw [getD_set_self _ _ _ _ hlt, getD_set_self _ _ _ _ (by rw [h.1]; exact hlt)]
      exact ⟨rfl, rfl⟩
    · rw [List.set_eq_of_length_le hge, List.set_eq_of_length_le (by rw [h.1]; exact hge)]
      exact h.2 _
  · rw [getD_set_ne _ _ _ hne, getD_set_ne _ _ _ hne]
    exact h.2 idx

/-- The counterexample commits: 5 at (2, 1), then 3 at (1, 1). -/
def cexCmds : List (Fin 9 × Fin 9 × Fin 9) := [(4, 1, 0), (2, 0, 0)]

/-- The board after the first counterexample write. -/
def cexB1 : BoardData := Board.setElement emptyData 2 1 (true, 5, [])

/-- The occupancy view of the counterexample grid, as a literal. -/
def cexLit : BoardData := Board.setElement cexB1 1 1 (true, 3, [])

/-- The flat encoding of the counterexample grid. -/
def cexString : List Char :=
  ['3'] ++ List.replicate 8 '0' ++ ['5'] ++ List.replicate 71 '0'

/-- The board after the first write of the reload (row-major) side. -/
def cexB1R : BoardData := Board.setElement emptyData 1 1 (true, 3, [])

theorem reloadBody_occupy {sl : List Char} {idx v : Nat} (b : BoardData)
    (h : charToNat (sl.getD idx ' ') = v) (hv : v ≠ 0) :
    reloadBody sl b idx = occupy b v (idx / DIM + 1) (idx % DIM + 1) := by
  show (if charToNat (sl.getD idx ' ') ≠ 0 then
    occupy b (charToNat (sl.getD idx ' ')) (idx / DIM + 1) (idx % DIM + 1) else b) = _
  rw [h, if_pos hv]

theorem reloadBody_skip {sl : List Char} {idx : Nat} (b : BoardData)
    (h : charToNat (sl.getD idx ' ') = 0) : reloadBody sl b idx = b := by
  show (if charToNat (sl.getD idx ' ') ≠ 0 then
    occupy b (charToNat (sl.getD idx ' ')) (idx / DIM + 1) (idx % DIM + 1) else b) = b
  rw [h]
  simp

theorem reload_skip_range (sl : List Char) (k l : Nat) (b : BoardData)
    (h : (pyrange k l).all
      (fun idx => decide (charToNat (sl.getD idx ' ') = 0)) = true) :
    (pyrange k l).foldl (reloadBody sl) b = b :=
  foldl_fix _ _ _ (fun x hx =>
    reloadBody_skip _ (by simpa using List.all_eq_true.mp h x hx))

theorem turnStringIntoBoard_of_valid {sl : List Char}
    (h : checkString (sl.filter (fun c => decide (c ≠ ' '))) = some true)
    (b : BoardData) :
    turnStringIntoBoard sl b =
      some ((pyrange 0 (DIM * DIM)).foldl
        (reloadBody (sl.filter (fun c => decide (c ≠ ' ')))) b) := by
  unfold turnStringIntoBoard
  simp only [h]

/-- Counterexample to C5 as stated.  The grid reached by the legal
commits 5 at (2, 1) and then 3 at (1, 1) encodes and reloads to a grid
that differs from the original: the original influencer list of cell
(1, 2) starts with 5 (the first commit propagated first), the reloaded
one starts with 3 (row-major replay propagates the 3 first). -/
theorem c5_counterexample_roundtrip :
    turnStringIntoBoard (Board.turnBoardIntoString (reachL cexCmds)) emptyData ≠
      some (reachL cexCmds) := by
  intro hEq
  have hreach : reachL cexCmds = occupy (occupy emptyData 5 2 1) 3 1 1 := by
    unfold reachL cexCmds
    unfold reach
    rw [List.map_cons, List.map_cons, List.map_nil, List.foldl_cons,
      List.foldl_cons, List.foldl_nil]
    dsimp only
    have e4 : (4 : Fin 9).val + 1 = 5 := rfl
    have e2 : (2 : Fin 9).val + 1 = 3 := rfl
    have e1 : (1 : Fin 9).val + 1 = 2 := rfl
    have e0 : (0 : Fin 9).val + 1 = 1 := rfl
    rw [e4, e2, e1, e0]
  -- the original side
  have h1v : (Board.getElement emptyData 2 1).1 = false := by decide
  have h1c : Board.checkConformanceOfBoard cexB1 = true := by decide
  have hg1 : occupy emptyData 5 2 1 =
      influencePhase (Board.addInfluencerToRegionExclusive cexB1 5 2 1) :=
    occupy_success h1v h1c
  have hext1 : Ext (Board.addInfluencerToRegionExclusive cexB1 5 2 1)
      (influencePhase (Board.addInfluencerToRegionExclusive cexB1 5 2 1)) :=
    influencePhase_ext _
  have hextb1 : Ext cexB1
      (influencePhase (Board.addInfluencerToRegionExclusive cexB1 5 2 1)) :=
    (addInfluencerToRegionExclusive_ext cexB1 5 2 1).trans hext1
  rw [← hg1] at hextb1 hext1
  have hP1cell : cellAt (Board.addInfluencerToRegionExclusive cexB1 5 2 1)
      (Board.bmap 1 2) = (false, 0, [5]) := by decide
  obtain ⟨hf12, hv12, t1, hz12⟩ := hext1.2 (Board.bmap 1 2)
  rw [hP1cell] at hz12
  -- the second commit
  have h2v : (Board.getElement (occupy emptyData 5 2 1) 1 1).1 = false := by
    have h := (hextb1.occEq.2 (Board.bmap 1 1)).1
    show (cellAt (occupy emptyData 5 2 1) (Board.bmap 1 1)).1 = false
    rw [h]
    decide
  have hocc2 : OccEq cexLit
      (Board.setElement (occupy emptyData 5 2 1) 1 1 (true, 3, [])) :=
    OccEq_set hextb1.occEq 1 1 (true, 3, [])
  have h2c : Board.checkConformanceOfBoard
      (Board.setElement (occupy emptyData 5 2 1) 1 1 (true, 3, [])) = true := by
    rw [checkConformance_congr hocc2]
    decide
  have hg2 : occupy (occupy emptyData 5 2 1) 3 1 1 =
      influencePhase (Board.addInfluencerToRegionExclusive
        (Board.setElement (occupy emptyData 5 2 1) 1 1 (true, 3, [])) 3 1 1) :=
    occupy_success h2v h2c
  have hext2 : Ext (Board.setElement (occupy emptyData 5 2 1) 1 1 (true, 3, []))
      (occupy (occupy emptyData 5 2 1) 3 1 1) := by
    rw [hg2]
    exact (addInfluencerToRegionExclusive_ext ..).trans (influencePhase_ext _)
  have hset12 : cellAt (Board.setElement (occupy emptyData 5 2 1) 1 1 (true, 3, []))
      (Board.bmap 1 2) = cellAt (occupy emptyData 5 2 1) (Board.bmap 1 2) :=
    getD_set_ne _ _ _ (by decide)
  obtain ⟨-, -, t2, hz2⟩ := hext2.2 (Board.bmap 1 2)
  rw [hset12, hz12] at hz2
  -- the occupancy view of the original grid, and its encoding
  have hoccg : OccEq cexLit (occupy (occupy emptyData 5 2 1) 3 1 1) :=
    hocc2.chain hext2.occEq
  have hencode : Board.turnBoardIntoString (occupy (occupy emptyData 5 2 1) 3 1 1) =
      cexString := by
    rw [turnBoardIntoString_congr hoccg]
    decide
  -- the reload side
  have hfil : cexString.filter (fun c => decide (c ≠ ' ')) = cexString := by decide
  have hvalid : checkString (cexString.filter (fun c => decide (c ≠ ' '))) =
      some true := by decide
  have hload := turnStringIntoBoard_of_valid hvalid emptyData
  rw [hfil] at hload
  have hsplit : pyrange 0 (DIM * DIM) =
      [0] ++ (pyrange 1 9 ++ ([9] ++ pyrange 10 81)) := by decide
  have s1 : List.foldl (reloadBody cexString) emptyData [0] =
      occupy emptyData 3 1 1 := by
    rw [List.foldl_cons, List.foldl_nil,
      reloadBody_occupy _ (show charToNat (cexString.getD 0 ' ') = 3 by decide)
        (by decide)]
    have d1 : 0 / DIM + 1 = 1 := rfl
    have d2 : 0 % DIM + 1 = 1 := rfl
    rw [d1, d2]
  have s2 : (pyrange 1 9).foldl (reloadBody cexString) (occupy emptyData 3 1 1) =
      occupy emptyData 3 1 1 := reload_skip_range _ _ _ _ (by decide)
  have s3 : List.foldl (reloadBody cexString) (occupy emptyData 3 1 1) [9] =
      occupy (occupy emptyData 3 1 1) 5 2 1 := by
    rw [List.foldl_cons, List.foldl_nil,
      reloadBody_occupy _ (show charToNat (cexString.getD 9 ' ') = 5 by decide)
        (by decide)]
    have d1 : 9 / DIM + 1 = 2 := rfl
    have d2 : 9 % DIM + 1 = 1 := rfl
    rw [d1, d2]
  have s4 : (pyrange 10 81).foldl (reloadBody cexString)
      (occupy (occupy emptyData 3 1 1) 5 2 1) =
      occupy (occupy emptyData 3 1 1) 5 2 1 := reload_skip_range _ _ _ _ (by decide)
  have hreload : turnStringIntoBoard cexString emptyData =
      some (occupy (occupy emptyData 3 1 1) 5 2 1) := by
    rw [hload, hsplit, List.foldl_append, List.foldl_append, List.foldl_append,
      s1, s2, s3, s4]
  -- the two writes of the reload side, mirrored
  have h1vR : (Board.getElement emptyData 1 1).1 = false := by decide
  have h1cR : Board.checkConformanceOfBoard cexB1R = true := by decide
  have hg1R : occupy emptyData 3 1 1 =
      influencePhase (Board.addInfluencerToRegionExclusive cexB1R 3 1 1) :=
    occupy_success h1vR h1cR
  have hext1R : Ext (Board.addInfluencerToRegionExclusive cexB1R 3 1 1)
      (influencePhase (Board.addInfluencerToRegionExclusive cexB1R 3 1 1)) :=
    influencePhase_ext _
  have hextb1R : Ext cexB1R
      (influencePhase (Board.addInfluencerToRegionExclusive cexB1R 3 1 1)) :=
    (addInfluencerToRegionExclusive_ext cexB1R 3 1 1).trans hext1R
  rw [← hg1R] at hextb1R hext1R
  have hP1cellR : cellAt (Board.addInfluencerToRegionExclusive cexB1R 3 1 1)
      (Board.bmap 1 2) = (false, 0, [3]) := by decide
  obtain ⟨hf12R, hv12R, s1', hz12R⟩ := hext1R.2 (Board.bmap 1 2)
  rw [hP1cellR] at hz12R
  have h2vR : (Board.getElement (occupy emptyData 3 1 1) 2 1).1 = false := by
    have h := (hextb1R.occEq.2 (Board.bmap 2 1)).1
    show (cellAt (occupy emptyData 3 1 1) (Board.bmap 2 1)).1 = false
    rw [h]
    decide
  have hocc2R : OccEq (Board.setElement cexB1R 2 1 (true, 5, []))
      (Board.setElement (occupy emptyData 3 1 1) 2 1 (true, 5, [])) :=
    OccEq_set hextb1R.occEq 2 1 (true, 5, [])
  have h2cR : Board.checkConformanceOfBoard
      (Board.setElement (occupy emptyData 3 1 1) 2 1 (true, 5, [])) = true := by
    rw [checkConformance_congr hocc2R]
    decide
  have hg2R : occupy (occupy emptyData 3 1 1) 5 2 1 =
      influencePhase (Board.addInfluencerToRegionExclusive
        (Board.setElement (occupy emptyData 3 1 1) 2 1 (true, 5, [])) 5 2 1) :=
    occupy_success h2vR h2cR
  have hext2R : Ext (Board.setElement (occupy emptyData 3 1 1) 2 1 (true, 5, []))
      (occupy (occupy emptyData 3 1 1) 5 2 1) := by
    rw [hg2R]
    exact (addInfluencerToRegionExclusive_ext ..).trans (influencePhase_ext _)
  have hset12R : cellAt (Board.setElement (occupy emptyData 3 1 1) 2 1 (true, 5, []))
      (Board.bmap 1 2) = cellAt (occupy emptyData 3 1 1) (Board.bmap 1 2) :=
    getD_set_ne _ _ _ (by decide)
  obtain ⟨-, -, s2', hz2R⟩ := hext2R.2 (Board.bmap 1 2)
  rw [hset12R, hz12R] at hz2R
  -- combine: the two boards would have to be equal, but their
  -- influencer lists at (1, 2) start with different numbers
  rw [hreach, hencode, hreload] at hEq
  have hboards : occupy (occupy emptyData 3 1 1) 5 2 1 =
      occupy (occupy emptyData 5 2 1) 3 1 1 := Option.some.inj hEq
  have hcells : (cellAt (occupy (occupy emptyData 3 1 1) 5 2 1) (Board.bmap 1 2)).2.2 =
      (cellAt (occupy (occupy emptyData 5 2 1) 3 1 1) (Board.bmap 1 2)).2.2 :=
    congrArg (fun b => (cellAt b (Board.bmap 1 2)).2.2) hboards
  rw [hz2, hz2R] at hcells
  simp at hcells


/-! ## C5, amended: the occupancy view survives the round trip -/

/-- The occupancy view of one cell: flag and occupant value. -/
def occPair (b : BoardData) (idx : Nat) : Bool × Nat :=
  ((cellAt b idx).1, (cellAt b idx).2.1)

/-- A well-formed occupancy view: 81 cells, vacant cells hold value 0,
occupied cells a value in 1..9. -/
def WFocc (b : BoardData) : Prop :=
  b.length = DIM * DIM ∧ ∀ idx : Nat,
    ((cellAt b idx).1 = false → (cellAt b idx).2.1 = 0) ∧
    ((cellAt b idx).1 = true → 1 ≤ (cellAt b idx).2.1 ∧ (cellAt b idx).2.1 ≤ 9)

/-- The character the encoder emits for flat index `idx`. -/
def encChar (b : BoardData) (idx : Nat) : Char :=
  if (cellAt b idx).1 then Nat.digitChar (cellAt b idx).2.1 else '0'

theorem getD_set {α} (l : List α) (k m : Nat) (a d : α) :
    (l.set k a).getD m d =
      if k = m ∧ k < l.length then a else l.getD m d := by
  by_cases hkm : k = m
  · subst hkm
    by_cases hk : k < l.length
    · rw [getD_set_self l k a d hk, if_pos ⟨rfl, hk⟩]
    · rw [List.set_eq_of_length_le (Nat.le_of_not_lt hk), if_neg]
      intro h
      exact hk h.2
  · rw [getD_set_ne _ _ _ hkm, if_neg]
    intro h
    exact hkm h.1

theorem cellAt_empty (idx : Nat) : cellAt emptyData idx = (false, 0, []) := by
  by_cases h : idx < DIM * DIM
  · show (List.replicate (DIM * DIM) ((false : Bool), (0 : Nat), ([] : List Nat))).getD
        idx defaultCell = _
    rw [List.getD_eq_getElem _ _ (by simpa using h)]
    simp
  · show (List.replicate (DIM * DIM) ((false : Bool), (0 : Nat), ([] : List Nat))).getD
        idx defaultCell = _
    rw [List.getD_eq_default]
    · rfl
    · simpa using Nat.le_of_not_lt h

theorem cellAt_of_length_le {b : BoardData} {idx : Nat} (h : b.length ≤ idx) :
    cellAt b idx = defaultCell :=
  List.getD_eq_default _ _ h

theorem WFocc_empty : WFocc emptyData := by
  constructor
  · simp [emptyData]
  · intro idx
    rw [cellAt_empty]
    exact ⟨fun _ => rfl, fun h => absurd h (by simp)⟩

theorem WFocc_of_occEq {b b' : BoardData} (h : OccEq b b') (hb : WFocc b) : WFocc b' := by
  refine ⟨h.1.trans hb.1, fun idx => ?_⟩
  rw [(h.2 idx).1, (h.2 idx).2]
  exact hb.2 idx

theorem WFocc_set {b : BoardData} (hb : WFocc b) {num : Nat}
    (h1 : 1 ≤ num) (h9 : num ≤ 9) (i j : Nat) :
    WFocc (Board.setElement b i j (true, num, [])) := by
  refine ⟨?_, fun idx => ?_⟩
  · show (b.set (Board.bmap i j) _).length = _
    rw [List.length_set]
    exact hb.1
  · have hcell : cellAt (Board.setElement b i j (true, num, [])) idx =
        if Board.bmap i j = idx ∧ Board.bmap i j < b.length then (true, num, [])
        else cellAt b idx := getD_set b (Board.bmap i j) idx (true, num, []) defaultCell
    rw [hcell]
    split
    · exact ⟨fun h => absurd h (by simp), fun _ => ⟨h1, h9⟩⟩
    · exact hb.2 idx

theorem occupy_WF {b : BoardData} (hb : WFocc b) {num : Nat}
    (h1 : 1 ≤ num) (h9 : num ≤ 9) (i j : Nat) :
    WFocc (occupy b num i j) := by
  rcases hflag : (Board.getElement b i j).1 with _ | _
  · rcases hconf : Board.checkConformanceOfBoard
      (Board.setElement b i j (true, num, [])) with _ | _
    · rw [occupy_rollback hflag hconf]
      exact hb
    · rw [occupy_success hflag hconf]
      have hext : Ext (Board.setElement b i j (true, num, []))
          (influencePhase (Board.addInfluencerToRegionExclusive
            (Board.setElement b i j (true, num, [])) num i j)) :=
        (addInfluencerToRegionExclusive_ext ..).trans (influencePhase_ext _)
      exact WFocc_of_occEq hext.occEq (WFocc_set hb h1 h9 i j)
  · rw [occupy_occupied hflag]
    exact hb

theorem foldl_invariant_mem {α β} (P : β → Prop) (f : β → α → β) (l : List α)
    (H : ∀ b x, x ∈ l → P b → P (f b x)) :
    ∀ b : β, P b → P (l.foldl f b) := by
  induction l with
  | nil => exact fun b hb => hb
  | cons x xs ih =>
    intro b hb
    exact ih (fun b' y hy hb' => H b' y (List.mem_cons_of_mem x hy) hb')
      (f b x) (H b x (List.mem_cons_self x xs) hb)

theorem WFocc_reachL (cmds : List (Fin 9 × Fin 9 × Fin 9)) : WFocc (reachL cmds) := by
  have h : reachL cmds =
      (cmds.map (fun c => (c.1.val + 1, c.2.1, c.2.2))).foldl
        (fun b c => occupy b c.1 (c.2.1.val + 1) (c.2.2.val + 1)) emptyData := rfl
  rw [h]
  refine foldl_invariant_mem WFocc _ _ (fun b c hc hb => ?_) emptyData WFocc_empty
  obtain ⟨c', _, rfl⟩ := List.mem_map.mp hc
  exact occupy_WF hb (Nat.le_add_left 1 _) (by omega) _ _

/-- Every digit the encoder can emit for an occupied well-formed cell. -/
theorem digit_encode_facts (y : Nat) (h1 : 1 ≤ y) (h9 : y ≤ 9) :
    Nat.toDigits 10 y = [Nat.digitChar y] ∧ charToNat (Nat.digitChar y) = y ∧
      Nat.digitChar y ∈ ['0', '1', '2', '3', '4', '5', '6', '7', '8', '9'] ∧
      Nat.digitChar y ≠ ' ' := by
  interval_cases y <;> exact ⟨by decide, by decide, by decide, by decide⟩

theorem foldl_enc_chars {α} (enc : α → Char) (l : List α) :
    ∀ (f : List Char → α → List Char), ∀ s : List Char,
    (∀ s' x, x ∈ l → f s' x = s' ++ [enc x]) →
    l.foldl f s = s ++ l.map enc := by
  induction l with
  | nil =>
    intro f s _
    simp
  | cons a as ih =>
    intro f s h
    rw [List.foldl_cons, h s a (List.mem_cons_self a as), List.map_cons,
      ih f _ (fun s' x hx => h s' x (List.mem_cons_of_mem a hx)), List.append_assoc]
    rfl

theorem encode_eq_map {b : BoardData} (hb : WFocc b) :
    Board.turnBoardIntoString b = (List.range (DIM * DIM)).map (encChar b) := by
  unfold Board.turnBoardIntoString
  refine foldl_enc_chars (encChar b) (List.range (DIM * DIM)) _ [] ?_
  intro s' idx _
  show (if (b.getD idx defaultCell).1 then s' ++ Nat.toDigits 10 (b.getD idx defaultCell).2.1
    else s' ++ ['0']) = s' ++ [encChar b idx]
  unfold encChar
  rcases hflag : (cellAt b idx).1 with _ | _
  · rw [show b.getD idx defaultCell = cellAt b idx from rfl, hflag]
    simp
  · rw [show b.getD idx defaultCell = cellAt b idx from rfl, hflag]
    obtain ⟨hv1, hv9⟩ := (hb.2 idx).2 hflag
    obtain ⟨hd, -, -, -⟩ := digit_encode_facts _ hv1 hv9
    rw [hd]
    simp

theorem getD_map_range {α} (f : Nat → α) {n idx : Nat} (d : α) (h : idx < n) :
    ((List.range n).map f).getD idx d = f idx := by
  rw [List.getD_eq_getElem _ _ (by simpa using h)]
  simp

/-- The occupied cells of `bs` agree with `bg`; then every region value
list of `bs` is a sublist of that of `bg`. -/
theorem occVals_sublist {bg bs : BoardData}
    (h : ∀ idx, (cellAt bs idx).1 = true → occPair bs idx = occPair bg idx)
    (cells : List (Nat × Nat)) :
    List.Sublist (occVals bs cells) (occVals bg cells) := by
  induction cells with
  | nil => exact List.Sublist.refl _
  | cons rc rest ih =>
    rcases rc with ⟨r, c⟩
    rw [occVals_cons, occVals_cons]
    rcases hf : (Board.getElement bs r c).1 with _ | _
    · rw [if_neg Bool.false_ne_true]
      rcases hg : (Board.getElement bg r c).1 with _ | _
      · rw [if_neg Bool.false_ne_true]
        exact ih
      · rw [if_pos rfl]
        exact ih.cons _
    · have hp := h (Board.bmap r c) hf
      have hgf : (Board.getElement bg r c).1 = true := by
        have := congrArg Prod.fst hp
        simpa [occPair] using (hf ▸ this).symm
      have hgv : (Board.getElement bs r c).2.1 = (Board.getElement bg r c).2.1 := by
        have := congrArg Prod.snd hp
        simpa [occPair] using this
      rw [if_pos rfl, hgf, if_pos rfl, hgv]
      exact ih.cons₂ _

/-- Conformance transfers to any board whose occupied cells form a
sub-pattern of a conformant board. -/
theorem checkConformance_of_subOcc {bg bs : BoardData}
    (h : ∀ idx, (cellAt bs idx).1 = true → occPair bs idx = occPair bg idx)
    (hg : Board.checkConformanceOfBoard bg = true) :
    Board.checkConformanceOfBoard bs = true := by
  rw [checkConformanceOfBoard_iff] at hg ⊢
  obtain ⟨hc, hr, hq⟩ := hg
  exact ⟨fun c hcm => ((occVals_sublist h (colCells c)).nodup (hc c hcm)),
    fun r hrm => ((occVals_sublist h (rowCells r)).nodup (hr r hrm)),
    fun d1 h1 d2 h2 => ((occVals_sublist h (quadCells d1 d2)).nodup (hq d1 h1 d2 h2))⟩

/-- The invariant of the reloading loop after the first `k` flat cells
have been replayed: the prefix matches the source grid's occupancy, the
rest of the board is still vacant. -/
def ReloadInv (g b : BoardData) (k : Nat) : Prop :=
  WFocc b ∧ (∀ idx, idx < k → occPair b idx = occPair g idx) ∧
    (∀ idx, k ≤ idx → occPair b idx = (false, 0))

theorem bmap_decomp (k : Nat) : Board.bmap (k / DIM + 1) (k % DIM + 1) = k := by
  show (k / DIM + 1 - 1) * DIM + (k % DIM + 1 - 1) = k
  have h : DIM = 9 := rfl
  rw [h]
  omega

theorem reload_inv_step {g : BoardData} (hg : WFocc g)
    (hconf : Board.checkConformanceOfBoard g = true)
    {s : List Char} (hs : ∀ idx, idx < DIM * DIM → s.getD idx ' ' = encChar g idx)
    {k : Nat} (hk : k < DIM * DIM) {b : BoardData} (hb : ReloadInv g b k) :
    ReloadInv g (reloadBody s b k) (k + 1) := by
  obtain ⟨hWF, hpre, hpost⟩ := hb
  have hsk := hs k hk
  rcases hflag : (cellAt g k).1 with _ | _
  · -- the source cell is vacant: the loop skips the index
    have hzero : charToNat (s.getD k ' ') = 0 := by
      rw [hsk]
      unfold encChar
      rw [hflag, if_neg Bool.false_ne_true]
      decide
    rw [reloadBody_skip _ hzero]
    refine ⟨hWF, fun idx hidx => ?_, fun idx hidx => hpost idx (by omega)⟩
    by_cases hik : idx < k
    · exact hpre idx hik
    · have hik' : idx = k := by omega
      subst hik'
      rw [hpost idx (Nat.le_refl _)]
      unfold occPair
      rw [hflag, (hg.2 idx).1 hflag]
  · -- the source cell is occupied by v ∈ 1..9: the loop replays the commit
    obtain ⟨hv1, hv9⟩ := (hg.2 k).2 hflag
    obtain ⟨-, hct, -, -⟩ := digit_encode_facts _ hv1 hv9
    have hch : charToNat (s.getD k ' ') = (cellAt g k).2.1 := by
      rw [hsk]
      unfold encChar
      rw [hflag, if_pos rfl]
      exact hct
    rw [reloadBody_occupy _ hch (by omega)]
    have hvac : (Board.getElement b (k / DIM + 1) (k % DIM + 1)).1 = false := by
      show (cellAt b (Board.bmap (k / DIM + 1) (k % DIM + 1))).1 = false
      rw [bmap_decomp]
      have := hpost k (Nat.le_refl _)
      exact congrArg Prod.fst this
    have hbmk : Board.bmap (k / DIM + 1) (k % DIM + 1) = k := bmap_decomp k
    have hsetcell : ∀ idx, cellAt (Board.setElement b (k / DIM + 1) (k % DIM + 1)
        (true, (cellAt g k).2.1, [])) idx =
        if k = idx ∧ k < b.length then (true, (cellAt g k).2.1, [])
        else cellAt b idx := by
      intro idx
      show (b.set (Board.bmap (k / DIM + 1) (k % DIM + 1)) _).getD idx defaultCell = _
      rw [hbmk, getD_set]
      rfl
    have hkb : k < b.length := by rw [hWF.1]; exact hk
    have hsub : ∀ idx, (cellAt (Board.setElement b (k / DIM + 1) (k % DIM + 1)
        (true, (cellAt g k).2.1, [])) idx).1 = true →
        occPair (Board.setElement b (k / DIM + 1) (k % DIM + 1)
          (true, (cellAt g k).2.1, [])) idx = occPair g idx := by
      intro idx hfl
      unfold occPair
      rw [hsetcell] at hfl ⊢
      by_cases hik : k = idx ∧ k < b.length
      · rw [if_pos hik] at hfl ⊢
        obtain ⟨rfl, -⟩ := hik
        rw [hflag]
      · rw [if_neg hik] at hfl ⊢
        have hne : idx ≠ k := by
          intro hh
          exact hik ⟨hh.symm, hkb⟩
        by_cases hik2 : idx < k
        · exact hpre idx hik2
        · have := hpost idx (by omega)
          have hfalse : (cellAt b idx).1 = false := congrArg Prod.fst this
          rw [hfl] at hfalse
          exact absurd hfalse (by simp)
    have hconf2 : Board.checkConformanceOfBoard
        (Board.setElement b (k / DIM + 1) (k % DIM + 1)
          (true, (cellAt g k).2.1, [])) = true :=
      checkConformance_of_subOcc hsub hconf
    rw [occupy_success hvac hconf2]
    have hext : Ext (Board.setElement b (k / DIM + 1) (k % DIM + 1)
        (true, (cellAt g k).2.1, []))
        (influencePhase (Board.addInfluencerToRegionExclusive
          (Board.setElement b (k / DIM + 1) (k % DIM + 1)
            (true, (cellAt g k).2.1, [])) (cellAt g k).2.1
          (k / DIM + 1) (k % DIM + 1))) :=
      (addInfluencerToRegionExclusive_ext ..).trans (influencePhase_ext _)
    have hWF2 : WFocc (Board.setElement b (k / DIM + 1) (k % DIM + 1)
        (true, (cellAt g k).2.1, [])) := WFocc_set hWF hv1 hv9 _ _
    have hpair : ∀ idx, occPair (influencePhase (Board.addInfluencerToRegionExclusive
        (Board.setElement b (k / DIM + 1) (k % DIM + 1)
          (true, (cellAt g k).2.1, [])) (cellAt g k).2.1
        (k / DIM + 1) (k % DIM + 1))) idx =
        occPair (Board.setElement b (k / DIM + 1) (k % DIM + 1)
          (true, (cellAt g k).2.1, [])) idx := by
      intro idx
      unfold occPair
      rw [(hext.occEq.2 idx).1, (hext.occEq.2 idx).2]
    refine ⟨WFocc_of_occEq hext.occEq hWF2, fun idx hidx => ?_, fun idx hidx => ?_⟩
    · rw [hpair idx]
      unfold occPair
      rw [hsetcell idx]
      by_cases hik : k = idx ∧ k < b.length
      · obtain ⟨rfl, -⟩ := hik
        rw [if_pos ⟨rfl, hkb⟩, hflag]
      · rw [if_neg hik]
        have hik2 : idx < k := by
          rcases Nat.lt_or_ge idx k with hh | hh
          · exact hh
          · exact absurd ⟨by omega, hkb⟩ hik
        exact hpre idx hik2
    · rw [hpair idx]
      unfold occPair
      rw [hsetcell idx, if_neg (fun hh => by omega)]
      exact hpost idx (by omega)

theorem reload_inv {g : BoardData} (hg : WFocc g)
    (hconf : Board.checkConformanceOfBoard g = true)
    {s : List Char} (hs : ∀ idx, idx < DIM * DIM → s.getD idx ' ' = encChar g idx) :
    ∀ k, k ≤ DIM * DIM →
      ReloadInv g ((pyrange 0 k).foldl (reloadBody s) emptyData) k := by
  intro k
  induction k with
  | zero =>
    intro _
    refine ⟨WFocc_empty, fun idx hidx => absurd hidx (Nat.not_lt_zero idx),
      fun idx _ => ?_⟩
    unfold occPair
    rw [show (pyrange 0 0).foldl (reloadBody s) emptyData = emptyData from rfl,
      cellAt_empty]
  | succ k ih =>
    intro hk1
    have hk : k < DIM * DIM := hk1
    rw [pyrange_succ_right (Nat.zero_le k), List.foldl_append, List.foldl_cons,
      List.foldl_nil]
    exact reload_inv_step hg hconf hs hk (ih (Nat.le_of_lt hk))

/-- C5, amended: the encode/reload round trip of any reachable grid
succeeds and reproduces every cell's occupancy flag and value (the
influencer lists may differ, see the counterexample). -/
theorem c5_roundtrip_occupancy (cmds : List (Fin 9 × Fin 9 × Fin 9)) :
    ∃ b : BoardData,
      turnStringIntoBoard (Board.turnBoardIntoString (reachL cmds)) emptyData = some b ∧
        OccEq (reachL cmds) b := by
  have hg : WFocc (reachL cmds) := WFocc_reachL cmds
  have hconf : Board.checkConformanceOfBoard (reachL cmds) = true := by
    have h : reachL cmds = reach (cmds.map (fun c => (c.1.val + 1, c.2.1, c.2.2))) := rfl
    rw [h]
    exact checkConformance_reach _
  have hencm := encode_eq_map hg
  set s := Board.turnBoardIntoString (reachL cmds) with hsdef
  have hlen : s.length = DIM * DIM := by
    rw [hencm]
    simp
  have hget : ∀ idx, idx < DIM * DIM → s.getD idx ' ' = encChar (reachL cmds) idx := by
    intro idx hidx
    rw [hencm]
    exact getD_map_range _ _ hidx
  have hdig : ∀ idx, idx < DIM * DIM →
      s.getD idx ' ' ∈ ['0', '1', '2', '3', '4', '5', '6', '7', '8', '9'] := by
    intro idx hidx
    rw [hget idx hidx]
    unfold encChar
    rcases hflag : (cellAt (reachL cmds) idx).1 with _ | _
    · rw [if_neg Bool.false_ne_true]
      decide
    · rw [if_pos rfl]
      obtain ⟨hv1, hv9⟩ := (hg.2 idx).2 hflag
      exact (digit_encode_facts _ hv1 hv9).2.2.1
  have hfil : s.filter (fun c => decide (c ≠ ' ')) = s := by
    rw [List.filter_eq_self]
    intro c hc
    rw [hencm] at hc
    obtain ⟨idx, hidx, rfl⟩ := List.mem_map.mp hc
    have hidx' : idx < DIM * DIM := List.mem_range.mp hidx
    simp only [decide_eq_true_eq]
    unfold encChar
    rcases hflag : (cellAt (reachL cmds) idx).1 with _ | _
    · rw [if_neg Bool.false_ne_true]
      decide
    · rw [if_pos rfl]
      obtain ⟨hv1, hv9⟩ := (hg.2 idx).2 hflag
      exact (digit_encode_facts _ hv1 hv9).2.2.2
  have hcheck : checkString (s.filter (fun c => decide (c ≠ ' '))) = some true := by
    rw [hfil]
    unfold checkString
    rw [if_neg (by rw [hlen]; exact fun h => h rfl), if_pos]
    rw [List.all_eq_true]
    intro idx hidx
    have hidx' : idx < DIM * DIM := (mem_pyrange.mp hidx).2
    exact decide_eq_true (hdig idx hidx')
  have hload := turnStringIntoBoard_of_valid hcheck emptyData
  rw [hfil] at hload
  have hinv := reload_inv hg hconf hget (DIM * DIM) (Nat.le_refl _)
  obtain ⟨hWFb, hpre, hpost⟩ := hinv
  refine ⟨(pyrange 0 (DIM * DIM)).foldl (reloadBody s) emptyData, hload, ?_, ?_⟩
  · rw [hWFb.1, hg.1]
  · intro idx
    by_cases hidx : idx < DIM * DIM
    · have hp := hpre idx hidx
      have h1 : (occPair ((pyrange 0 (DIM * DIM)).foldl (reloadBody s) emptyData) idx).1 =
          (occPair (reachL cmds) idx).1 := congrArg Prod.fst hp
      have h2 : (occPair ((pyrange 0 (DIM * DIM)).foldl (reloadBody s) emptyData) idx).2 =
          (occPair (reachL cmds) idx).2 := congrArg Prod.snd hp
      exact ⟨h1, h2⟩
    · have hb : cellAt ((pyrange 0 (DIM * DIM)).foldl (reloadBody s) emptyData) idx =
          defaultCell := cellAt_of_length_le (by rw [hWFb.1]; omega)
      have hgd : cellAt (reachL cmds) idx = defaultCell :=
        cellAt_of_length_le (by rw [hg.1]; omega)
      rw [hb, hgd]
      exact ⟨rfl, rfl⟩



/-! ## generator.py : the board and its primitives

`SudokuGenerator` works on a plain `DIM × DIM` array of numbers with `0`
for a vacant cell. -/

/-- The generator's board type. -/
abbrev GB := List (List Nat)

/-- `board[i][j]` of the generator's board. -/
def gget (b : GB) (i j : Nat) : Nat := (b.getD i []).getD j 0

/-- `board[i][j] = v` of the generator's board. -/
def gset (b : GB) (i j v : Nat) : GB := b.set i ((b.getD i []).set j v)

/-- The all-zero board built by `reinitialize`. -/
def emptyGB : GB := List.replicate DIM (List.replicate DIM 0)

/-- `SudokuGenerator.canBeUsed`: `number` appears neither in the row
list, nor in the column, nor in the quadrant of `(row, col)`. -/
def canBeUsed (b : GB) (number row col : Nat) : Bool :=
  if number ∈ b.getD row [] then false
  else if (pyrange 0 DIM).any (fun i => decide (gget b i col = number)) then false
  else if (pyrange ((row / dim) * dim) ((row / dim) * dim + dim)).any (fun i =>
      (pyrange ((col / dim) * dim) ((col / dim) * dim + dim)).any (fun j =>
        decide (gget b i j = number))) then false
  else true

/-- `SudokuGenerator.nextVacantCell`: the first cell holding `0` in
row-major order; Python's implicit `return None` is `none`. -/
def nextVacantCell (b : GB) : Option (Nat × Nat) :=
  (pyrange 0 DIM).findSome? (fun i =>
    ((pyrange 0 DIM).find? (fun j => decide (gget b i j = 0))).map (fun j => (i, j)))

/-! ## Basic lemmas about `gget` / `gset` -/

theorem gget_gset_ne {b : GB} {r c r' c' : Nat} (v : Nat) (h : r ≠ r' ∨ c ≠ c') :
    gget (gset b r c v) r' c' = gget b r' c' := by
  unfold gget gset
  rcases h with h | h
  · rw [getD_set_ne _ _ _ h]
  · rw [getD_set]
    split
    · rename_i hcase
      rw [getD_set_ne _ _ _ h, hcase.1]
    · rfl

theorem gget_gset_same {b : GB} {r c : Nat} (v : Nat) (hr : r < b.length)
    (hc : c < (b.getD r []).length) : gget (gset b r c v) r c = v := by
  unfold gget gset
  rw [getD_set_self _ _ _ _ hr, getD_set_self _ _ _ _ hc]

theorem gget_gset_cases (b : GB) (r c v r' c' : Nat) :
    gget (gset b r c v) r' c' = gget b r' c' ∨ gget (gset b r c v) r' c' = v := by
  by_cases hr : r = r'
  · by_cases hc : c = c'
    · subst hr; subst hc
      by_cases hrl : r < b.length
      · by_cases hcl : c < (b.getD r []).length
        · exact Or.inr (gget_gset_same v hrl hcl)
        · refine Or.inl ?_
          unfold gget gset
          rw [getD_set_self _ _ _ _ hrl,
            List.set_eq_of_length_le (Nat.le_of_not_lt hcl)]
      · refine Or.inl ?_
        unfold gset
        rw [List.set_eq_of_length_le (Nat.le_of_not_lt hrl)]
    · exact Or.inl (gget_gset_ne v (Or.inr hc))
  · exact Or.inl (gget_gset_ne v (Or.inl hr))

theorem gset_gset (b : GB) (r c v w : Nat) :
    gset (gset b r c v) r c w = gset b r c w := by
  unfold gset
  by_cases hr : r < b.length
  · rw [getD_set_self _ _ _ _ hr, List.set_set, List.set_set]
  · rw [List.set_eq_of_length_le (Nat.le_of_not_lt hr),
      List.set_eq_of_length_le (Nat.le_of_not_lt hr)]

theorem gset_self {b : GB} {r c v : Nat} (h : gget b r c = v) :
    gset b r c v = b := by
  unfold gset
  rw [← h]
  show b.set r ((b.getD r []).set c ((b.getD r []).getD c 0)) = b
  rw [set_getD_self, set_getD_self]

theorem gset_restore {b : GB} {r c : Nat} (saved : Nat) (h : gget b r c = saved) :
    gset (gset b r c 0) r c saved = b := by
  rw [gset_gset, gset_self h]

/-! ## Well-formedness of generator boards -/

/-- A `DIM × DIM` board. -/
def wfGB (b : GB) : Prop := b.length = DIM ∧ ∀ row ∈ b, row.length = DIM

theorem wfGB_empty : wfGB emptyGB := by
  constructor
  · simp [emptyGB]
  · intro row hrow
    rw [List.eq_of_mem_replicate hrow]
    simp

theorem getD_mem {α} {l : List α} {i : Nat} (d : α) (h : i < l.length) :
    l.getD i d ∈ l := by
  rw [List.getD_eq_getElem l d h]
  exact List.getElem_mem h

theorem wfGB_gset {b : GB} (h : wfGB b) (r c v : Nat) : wfGB (gset b r c v) := by
  by_cases hr : r < b.length
  · refine ⟨by simpa [gset] using h.1, fun row hrow => ?_⟩
    rcases List.mem_or_eq_of_mem_set hrow with hmem | heq
    · exact h.2 row hmem
    · subst heq
      rw [List.length_set]
      exact h.2 _ (getD_mem [] hr)
  · unfold gset
    rw [List.set_eq_of_length_le (Nat.le_of_not_lt hr)]
    exact h

theorem row_length {b : GB} (h : wfGB b) {r : Nat} (hr : r < DIM) :
    (b.getD r []).length = DIM := by
  have hrl : r < b.length := by rw [h.1]; exact hr
  exact h.2 _ (getD_mem [] hrl)

/-! ## `pyrange` structure lemmas -/

theorem pyrange_cons {a b : Nat} (h : a < b) :
    pyrange a b = a :: pyrange (a + 1) b := by
  unfold pyrange
  have h1 : b - a = (b - (a + 1)) + 1 := by omega
  rw [h1, List.range'_succ]

theorem pyrange_split {a c b : Nat} (h1 : a ≤ c) (h2 : c < b) :
    pyrange a b = pyrange a c ++ c :: pyrange (c + 1) b := by
  rw [← pyrange_cons h2]
  show List.range' a (b - a) = List.range' a (c - a) ++ List.range' c (b - c)
  have h4 : a + 1 * (c - a) = c := by omega
  have h5 : b - a = (b - c) + (c - a) := by omega
  have happ := List.range'_append a (c - a) (b - c) 1
  rw [h4] at happ
  rw [h5, ← happ]

theorem pyrange_nodup (a b : Nat) : (pyrange a b).Nodup := by
  unfold pyrange
  exact List.nodup_range' _ _

/-! ## `nextVacantCell` lemmas -/

theorem nextVacant_some_spec {b : GB} {rc : Nat × Nat}
    (h : nextVacantCell b = some rc) :
    rc.1 < DIM ∧ rc.2 < DIM ∧ gget b rc.1 rc.2 = 0 := by
  obtain ⟨i, hi, hF⟩ := List.exists_of_findSome?_eq_some h
  rcases hmap : (pyrange 0 DIM).find? (fun j => decide (gget b i j = 0)) with _ | j
  · rw [hmap] at hF
    exact nomatch hF
  · rw [hmap] at hF
    have hj := List.find?_some hmap
    have hjm := List.mem_of_find?_eq_some hmap
    have hF' : some ((i, j) : Nat × Nat) = some rc := hF
    cases hF'
    exact ⟨(mem_pyrange.mp hi).2, (mem_pyrange.mp hjm).2, by simpa using hj⟩

theorem nextVacant_none_spec {b : GB} (h : nextVacantCell b = none) :
    ∀ i j, i < DIM → j < DIM → gget b i j ≠ 0 := by
  intro i j hi hj
  have hrow := List.findSome?_eq_none_iff.mp h i (mem_pyrange.mpr ⟨Nat.zero_le i, hi⟩)
  rcases hmap : (pyrange 0 DIM).find? (fun j => decide (gget b i j = 0)) with _ | j'
  · have := List.find?_eq_none.mp hmap j (mem_pyrange.mpr ⟨Nat.zero_le j, hj⟩)
    simpa using this
  · rw [hmap] at hrow
    exact nomatch hrow

theorem nextVacant_of_complete {b : GB}
    (h : ∀ i j, i < DIM → j < DIM → gget b i j ≠ 0) : nextVacantCell b = none := by
  refine List.findSome?_eq_none_iff.mpr (fun i hi => ?_)
  have hfind : (pyrange 0 DIM).find? (fun j => decide (gget b i j = 0)) = none := by
    refine List.find?_eq_none.mpr (fun j hj => ?_)
    simpa using h i j (mem_pyrange.mp hi).2 (mem_pyrange.mp hj).2
  rw [hfind]
  rfl

theorem find?_prefix_false {α} (p : α → Bool) (l1 l2 : List α)
    (h : ∀ x ∈ l1, p x = false) : (l1 ++ l2).find? p = l2.find? p := by
  induction l1 with
  | nil => rfl
  | cons a as ih =>
    rw [List.cons_append, List.find?_cons_of_neg _ (by
      simp [h a (List.mem_cons_self a as)]),
      ih (fun x hx => h x (List.mem_cons_of_mem a hx))]

theorem findSome?_prefix_none {α β} (F : α → Option β) (l1 l2 : List α)
    (h : ∀ x ∈ l1, F x = none) : (l1 ++ l2).findSome? F = l2.findSome? F := by
  induction l1 with
  | nil => rfl
  | cons a as ih =>
    rw [List.cons_append, List.findSome?_cons]
    rw [h a (List.mem_cons_self a as)]
    exact ih (fun x hx => h x (List.mem_cons_of_mem a hx))

theorem nextVacant_unique {b : GB} {r c : Nat} (hr : r < DIM) (hc : c < DIM)
    (h0 : gget b r c = 0)
    (hrest : ∀ i j, i < DIM → j < DIM → (i, j) ≠ (r, c) → gget b i j ≠ 0) :
    nextVacantCell b = some (r, c) := by
  have key : ∀ G : Nat → Option (Nat × Nat),
      (∀ i, i < r → G i = none) → G r = some (r, c) →
      (pyrange 0 DIM).findSome? G = some (r, c) := by
    intro G hnone hGr
    rw [pyrange_split (Nat.zero_le r) hr, findSome?_prefix_none _ _ _
      (fun i hi => hnone i (by have := mem_pyrange.mp hi; omega)),
      List.findSome?_cons, hGr]
  have hrowfind : (pyrange 0 DIM).find? (fun j => decide (gget b r j = 0)) = some c := by
    have hpre : ∀ j ∈ pyrange 0 c, decide (gget b r j = 0) = false := by
      intro j hj
      have hj' : j < c := by have := mem_pyrange.mp hj; omega
      simp only [decide_eq_false_iff_not]
      exact hrest r j hr (by omega) (by
        intro hh
        injection hh with ha hb
        omega)
    rw [pyrange_split (Nat.zero_le c) hc, find?_prefix_false _ _ _ hpre,
      List.find?_cons_of_pos _ (by simpa using h0)]
  refine key _ (fun i hi => ?_) ?_
  · show ((pyrange 0 DIM).find? (fun j => decide (gget b i j = 0))).map
      (fun j => (i, j)) = none
    have hfind : (pyrange 0 DIM).find? (fun j => decide (gget b i j = 0)) = none := by
      refine List.find?_eq_none.mpr (fun j hj => ?_)
      simp only [decide_eq_true_eq]
      exact hrest i j (by omega) (mem_pyrange.mp hj).2 (by
        intro hh
        injection hh with ha hb
        omega)
    rw [hfind]
    rfl
  · show ((pyrange 0 DIM).find? (fun j => decide (gget b r j = 0))).map
      (fun j => (r, j)) = some (r, c)
    rw [hrowfind]
    rfl

/-! ## generator.py : the two backtracking engines

Python's recursion is modelled with explicit fuel; the recursion fills
one vacant cell before each recursive call, so any fuel above the vacant
cell count gives the Python behaviour.  `random.shuffle` is modelled by
a caller-supplied permutation (`shuf` for the cell list, the stream
`ord` for the number lists, consumed index by index). -/

/-- The number loop of `SudokuGenerator.solve`: a write that fills the
board bumps `noOfSolutions` and `break`s, a recursive `True` is returned
at once, and otherwise the loop keeps the mutated board and goes on. -/
def solveNumLoop (recur : GB → Nat → GB × Nat × Bool) (row col : Nat) :
    List Nat → GB → Nat → GB × Nat × Bool
  | [], b, cnt => (b, cnt, false)
  | n :: rest, b, cnt =>
    if canBeUsed b n row col then
      match nextVacantCell (gset b row col n) with
      | none => (gset b row col n, cnt + 1, false)
      | some _ =>
        match recur (gset b row col n) cnt with
        | (b2, cnt2, true) => (b2, cnt2, true)
        | (b2, cnt2, false) => solveNumLoop recur row col rest b2 cnt2
    else solveNumLoop recur row col rest b cnt

/-- `SudokuGenerator.solve`, the counting engine.  The state is
`(board, noOfSolutions, returned value)`.  The flat scan handles the
first vacant cell and breaks; with no vacant cell the trailing
`board[row][col] = 0` hits the loop variables' final values
`(DIM - 1, DIM - 1)`. -/
def solveG : Nat → GB → Nat → GB × Nat × Bool
  | 0, b, cnt => (b, cnt, false)
  | fuel + 1, b, cnt =>
    match nextVacantCell b with
    | none => (gset b (DIM - 1) (DIM - 1) 0, cnt, false)
    | some (row, col) =>
      match solveNumLoop (solveG fuel) row col (pyrange 1 (DIM + 1)) b cnt with
      | (b', cnt', true) => (b', cnt', true)
      | (b', cnt', false) => (gset b' row col 0, cnt', false)

/-- `noOfSolutions` after `self.noOfSolutions = 0; self.solve(board_copy)`,
the counting mode `eliminateNumbers` consults.  Fuel `DIM * DIM + 1`
exceeds any possible recursion depth. -/
def solveCount (b : GB) : Nat := (solveG (DIM * DIM + 1) b 0).2.1

/-- The number loop of `SudokuGenerator.createSolution`: a completing
write or a successful recursion returns `True` at once; a failed
recursion leaves its number in the cell and the loop moves on. -/
def createNumLoop (recur : GB → Nat → GB × Nat × Bool) (row col : Nat) :
    List Nat → GB → Nat → GB × Nat × Bool
  | [], b, sidx => (b, sidx, false)
  | n :: rest, b, sidx =>
    if canBeUsed b n row col then
      match nextVacantCell (gset b row col n) with
      | none => (gset b row col n, sidx, true)
      | some _ =>
        match recur (gset b row col n) sidx with
        | (b2, sidx2, true) => (b2, sidx2, true)
        | (b2, sidx2, false) => createNumLoop recur row col rest b2 sidx2
    else createNumLoop recur row col rest b sidx

/-- `SudokuGenerator.createSolution`: like `solve` but with a freshly
shuffled number list per call (`ord sidx`) and an immediate `True` when
the board fills up.  The state is `(board, next shuffle index, returned
value)`. -/
def createSol (ord : Nat → List Nat) : Nat → GB → Nat → GB × Nat × Bool
  | 0, b, sidx => (b, sidx, false)
  | fuel + 1, b, sidx =>
    match nextVacantCell b with
    | none => (gset b (DIM - 1) (DIM - 1) 0, sidx, false)
    | some (row, col) =>
      match createNumLoop (createSol ord fuel) row col (ord sidx) b (sidx + 1) with
      | (b', sidx', true) => (b', sidx', true)
      | (b', sidx', false) => (gset b' row col 0, sidx', false)

/-- All board coordinates in the row-major order `getOccupiedCells`
walks them. -/
def gridCells : List (Nat × Nat) :=
  (pyrange 0 DIM).foldl (fun acc i => acc ++ (pyrange 0 DIM).map (fun j => (i, j))) []

/-- `SudokuGenerator.getOccupiedCells`: the shuffled list of occupied
coordinates. -/
def getOccupiedCells (shuf : List (Nat × Nat) → List (Nat × Nat)) (b : GB) :
    List (Nat × Nat) :=
  shuf (gridCells.filter (fun rc => decide (gget b rc.1 rc.2 ≠ 0)))

/-- The `while` loop of `SudokuGenerator.eliminateNumbers`.  `cells` is
the reversed occupied-cell list, so `occupiedCells.pop()` is the head;
popping from an exhausted list raises `IndexError` in Python, modelled
by `none`.  A removal that leaves `noOfSolutions ≠ 1` is undone and
costs one of the four `iters`. -/
def elimLoop (minOcc : Nat) : List (Nat × Nat) → GB → Nat → Nat → Option GB
  | [], b, n, iters => if 0 < iters ∧ minOcc ≤ n then none else some b
  | rc :: rest, b, n, iters =>
    if 0 < iters ∧ minOcc ≤ n then
      if solveCount (gset b rc.1 rc.2 0) ≠ 1 then
        elimLoop minOcc rest
          (gset (gset b rc.1 rc.2 0) rc.1 rc.2 (gget b rc.1 rc.2)) (n - 1 + 1) (iters - 1)
      else elimLoop minOcc rest (gset b rc.1 rc.2 0) (n - 1) iters
    else some b

/-- `SudokuGenerator.eliminateNumbers`. -/
def eliminateNumbers (shuf : List (Nat × Nat) → List (Nat × Nat)) (b : GB)
    (minOcc : Nat) : Option GB :=
  elimLoop minOcc (getOccupiedCells shuf b).reverse b (getOccupiedCells shuf b).length 4

/-- `SudokuGenerator.createSudoku`.  The argument `minimumOccupancy` is
accepted but the call to `eliminateNumbers` passes the literal
`minimumOccupancy = 20`, so the argument never reaches the elimination
loop. -/
def createSudoku (shuf : List (Nat × Nat) → List (Nat × Nat))
    (ord : Nat → List Nat) (minimumOccupancy : Nat) : Option GB :=
  eliminateNumbers shuf (createSol ord (DIM * DIM + 1) emptyGB 0).1 20

/-! ## Validity of generator boards

The invariant `canBeUsed`-guarded writes maintain: in every row, column
and quadrant the nonzero entries are pairwise distinct. -/

/-- The nonzero values of `b` along `cells`. -/
def occValsG (b : GB) (cells : List (Nat × Nat)) : List Nat :=
  cells.filterMap (fun rc =>
    if gget b rc.1 rc.2 ≠ 0 then some (gget b rc.1 rc.2) else none)

/-- The product of a row-index list and a column-index list. -/
def cellProd (ris cjs : List Nat) : List (Nat × Nat) :=
  ris.foldr (fun i acc => cjs.map (fun j => (i, j)) ++ acc) []

/-- Row `i` of the generator board. -/
def rowCellsG (i : Nat) : List (Nat × Nat) := (pyrange 0 DIM).map (fun j => (i, j))

/-- Column `j` of the generator board. -/
def colCellsG (j : Nat) : List (Nat × Nat) := (pyrange 0 DIM).map (fun i => (i, j))

/-- Quadrant `(qi, qj)` of the generator board (0-based). -/
def quadCellsG (qi qj : Nat) : List (Nat × Nat) :=
  cellProd (pyrange (qi * dim) (qi * dim + dim)) (pyrange (qj * dim) (qj * dim + dim))

/-- No duplicate nonzero value in any row, column or quadrant. -/
def validG (b : GB) : Prop :=
  (∀ i ∈ pyrange 0 DIM, (occValsG b (rowCellsG i)).Nodup) ∧
  (∀ j ∈ pyrange 0 DIM, (occValsG b (colCellsG j)).Nodup) ∧
  (∀ qi ∈ pyrange 0 dim, ∀ qj ∈ pyrange 0 dim, (occValsG b (quadCellsG qi qj)).Nodup)

theorem mem_cellProd {ris cjs : List Nat} {i j : Nat} :
    (i, j) ∈ cellProd ris cjs ↔ i ∈ ris ∧ j ∈ cjs := by
  induction ris with
  | nil => simp [cellProd]
  | cons a as ih =>
    show (i, j) ∈ cjs.map (fun j => (a, j)) ++ cellProd as cjs ↔ _
    rw [List.mem_append, ih]
    simp only [List.mem_map, Prod.mk.injEq, List.mem_cons]
    constructor
    · rintro (⟨j', hj', rfl, rfl⟩ | ⟨h1, h2⟩)
      · exact ⟨Or.inl rfl, hj'⟩
      · exact ⟨Or.inr h1, h2⟩
    · rintro ⟨rfl | h1, h2⟩
      · exact Or.inl ⟨j, h2, rfl, rfl⟩
      · exact Or.inr ⟨h1, h2⟩

theorem cellProd_nodup {ris cjs : List Nat} (h1 : ris.Nodup) (h2 : cjs.Nodup) :
    (cellProd ris cjs).Nodup := by
  induction ris with
  | nil => exact List.nodup_nil
  | cons a as ih =>
    show (cjs.map (fun j => (a, j)) ++ cellProd as cjs).Nodup
    rcases List.nodup_cons.mp h1 with ⟨hna, has⟩
    refine List.Nodup.append ?_ (ih has) ?_
    · exact h2.map (fun x y hxy => by injection hxy)
    · intro p hp1 hp2
      obtain ⟨j', hj', rfl⟩ := List.mem_map.mp hp1
      exact hna (mem_cellProd.mp hp2).1

theorem rowCellsG_nodup (i : Nat) : (rowCellsG i).Nodup :=
  (pyrange_nodup 0 DIM).map (fun x y hxy => by injection hxy)

theorem colCellsG_nodup (j : Nat) : (colCellsG j).Nodup :=
  (pyrange_nodup 0 DIM).map (fun x y hxy => by injection hxy)

theorem quadCellsG_nodup (qi qj : Nat) : (quadCellsG qi qj).Nodup :=
  cellProd_nodup (pyrange_nodup _ _) (pyrange_nodup _ _)

theorem mem_rowCellsG {i p q : Nat} : (p, q) ∈ rowCellsG i ↔ p = i ∧ q < DIM := by
  unfold rowCellsG
  simp only [List.mem_map, Prod.mk.injEq]
  constructor
  · rintro ⟨j', hj', rfl, rfl⟩
    exact ⟨rfl, (mem_pyrange.mp hj').2⟩
  · rintro ⟨rfl, hq⟩
    exact ⟨q, mem_pyrange.mpr ⟨Nat.zero_le q, hq⟩, rfl, rfl⟩

theorem mem_colCellsG {j p q : Nat} : (p, q) ∈ colCellsG j ↔ p < DIM ∧ q = j := by
  unfold colCellsG
  simp only [List.mem_map, Prod.mk.injEq]
  constructor
  · rintro ⟨i', hi', rfl, rfl⟩
    exact ⟨(mem_pyrange.mp hi').2, rfl⟩
  · rintro ⟨hp, rfl⟩
    exact ⟨p, mem_pyrange.mpr ⟨Nat.zero_le p, hp⟩, rfl, rfl⟩

theorem mem_quadCellsG {qi qj p q : Nat} :
    (p, q) ∈ quadCellsG qi qj ↔
      (qi * dim ≤ p ∧ p < qi * dim + dim) ∧ (qj * dim ≤ q ∧ q < qj * dim + dim) := by
  unfold quadCellsG
  rw [mem_cellProd, mem_pyrange, mem_pyrange]

theorem validG_empty : validG emptyGB := by
  unfold validG
  decide

/-! ## `canBeUsed` characterised, and validity preservation -/

theorem getD_mem_iff {l : List Nat} {n : Nat} :
    n ∈ l ↔ ∃ j, j < l.length ∧ l.getD j 0 = n := by
  rw [List.mem_iff_getElem]
  constructor
  · rintro ⟨j, hj, rfl⟩
    exact ⟨j, hj, List.getD_eq_getElem l 0 hj⟩
  · rintro ⟨j, hj, hg⟩
    exact ⟨j, hj, by rw [← List.getD_eq_getElem l 0 hj]; exact hg⟩

theorem canBeUsed_iff {b : GB} {n row col : Nat} :
    canBeUsed b n row col = true ↔
      n ∉ b.getD row [] ∧ (∀ i, i < DIM → gget b i col ≠ n) ∧
      (∀ i j, (row / dim) * dim ≤ i → i < (row / dim) * dim + dim →
        (col / dim) * dim ≤ j → j < (col / dim) * dim + dim → gget b i j ≠ n) := by
  unfold canBeUsed
  split_ifs with h1 h2 h3
  · simp only [Bool.false_eq_true, false_iff]
    intro hc
    exact hc.1 h1
  · simp only [Bool.false_eq_true, false_iff]
    intro hc
    obtain ⟨i, hi, hgi⟩ := List.any_eq_true.mp h2
    exact hc.2.1 i (mem_pyrange.mp hi).2 (by simpa using hgi)
  · simp only [Bool.false_eq_true, false_iff]
    intro hc
    obtain ⟨i, hi, hrow⟩ := List.any_eq_true.mp h3
    obtain ⟨j, hj, hgij⟩ := List.any_eq_true.mp hrow
    exact hc.2.2 i j (mem_pyrange.mp hi).1 (mem_pyrange.mp hi).2
      (mem_pyrange.mp hj).1 (mem_pyrange.mp hj).2 (by simpa using hgij)
  · simp only [true_iff]
    refine ⟨h1, fun i hi hgi => ?_, fun i j hi1 hi2 hj1 hj2 hgij => ?_⟩
    · exact h2 (List.any_eq_true.mpr
        ⟨i, mem_pyrange.mpr ⟨Nat.zero_le i, hi⟩, by simpa using hgi⟩)
    · exact h3 (List.any_eq_true.mpr ⟨i, mem_pyrange.mpr ⟨hi1, hi2⟩,
        List.any_eq_true.mpr ⟨j, mem_pyrange.mpr ⟨hj1, hj2⟩, by simpa using hgij⟩⟩)

theorem occValsG_cons (b : GB) (rc : Nat × Nat) (rest : List (Nat × Nat)) :
    occValsG b (rc :: rest) =
      if gget b rc.1 rc.2 ≠ 0 then gget b rc.1 rc.2 :: occValsG b rest
      else occValsG b rest := by
  unfold occValsG
  rw [List.filterMap_cons]
  by_cases h : gget b rc.1 rc.2 = 0
  · rw [if_neg (not_not_intro h), if_neg (not_not_intro h)]
  · rw [if_pos h, if_pos h]

theorem occValsG_congr {b1 b2 : GB} {cells : List (Nat × Nat)}
    (h : ∀ rc ∈ cells, gget b1 rc.1 rc.2 = gget b2 rc.1 rc.2) :
    occValsG b1 cells = occValsG b2 cells := by
  induction cells with
  | nil => rfl
  | cons rc rest ih =>
    rw [occValsG_cons, occValsG_cons, h rc (List.mem_cons_self rc rest),
      ih (fun rc' hrc' => h rc' (List.mem_cons_of_mem rc hrc'))]

theorem mem_occValsG {b : GB} {cells : List (Nat × Nat)} {x : Nat} :
    x ∈ occValsG b cells ↔ (∃ rc ∈ cells, gget b rc.1 rc.2 = x) ∧ x ≠ 0 := by
  unfold occValsG
  rw [List.mem_filterMap]
  constructor
  · rintro ⟨rc, hrc, hx⟩
    split at hx
    · rename_i hne
      cases hx
      exact ⟨⟨rc, hrc, rfl⟩, hne⟩
    · exact absurd hx (by simp)
  · rintro ⟨⟨rc, hrc, hx⟩, hne⟩
    exact ⟨rc, hrc, by rw [hx, if_pos hne]⟩

theorem occValsG_gset_mem {b : GB} {r c v : Nat} {cells : List (Nat × Nat)} {x : Nat}
    (h : x ∈ occValsG (gset b r c v) cells) : x ∈ occValsG b cells ∨ x = v := by
  obtain ⟨⟨rc, hrc, hx⟩, hne⟩ := mem_occValsG.mp h
  rcases gget_gset_cases b r c v rc.1 rc.2 with he | he
  · exact Or.inl (mem_occValsG.mpr ⟨⟨rc, hrc, by rw [← he, hx]⟩, hne⟩)
  · exact Or.inr (by rw [← hx, he])

theorem occValsG_gset_zero_sublist (b : GB) (r c : Nat) (cells : List (Nat × Nat)) :
    List.Sublist (occValsG (gset b r c 0) cells) (occValsG b cells) := by
  induction cells with
  | nil => exact List.Sublist.refl _
  | cons rc rest ih =>
    rw [occValsG_cons, occValsG_cons]
    rcases gget_gset_cases b r c 0 rc.1 rc.2 with he | he
    · rw [he]
      split
      · exact ih.cons₂ _
      · exact ih
    · rw [he]
      rw [if_neg (by simp)]
      split
      · exact ih.cons _
      · exact ih

theorem occValsG_gset_nodup {b : GB} {row col n : Nat} {cells : List (Nat × Nat)}
    (hcells : cells.Nodup) (hn0 : n ≠ 0) (hnd : (occValsG b cells).Nodup)
    (hmem : n ∉ occValsG b cells) (h0 : gget b row col = 0) :
    (occValsG (gset b row col n) cells).Nodup := by
  induction cells with
  | nil => exact List.nodup_nil
  | cons rc rest ih =>
    obtain ⟨hrc, hrest⟩ := List.nodup_cons.mp hcells
    rw [occValsG_cons] at hnd hmem ⊢
    by_cases hrceq : rc = ((row, col) : Nat × Nat)
    · have h0' : gget b rc.1 rc.2 = 0 := by rw [hrceq]; exact h0
      rw [if_neg (not_not_intro h0')] at hnd hmem
      have htail : occValsG (gset b row col n) rest = occValsG b rest :=
        occValsG_congr (fun rc' hrc' => gget_gset_ne n (by
          by_cases hp : row = rc'.1
          · refine Or.inr (fun hq => ?_)
            apply hrc
            rw [hrceq]
            have hrc'' : ((row, col) : Nat × Nat) = rc' := by rw [hp, hq]
            rw [hrc'']
            exact hrc'
          · exact Or.inl hp))
      rcases gget_gset_cases b row col n rc.1 rc.2 with he | he
      · rw [he, h0'] at *
        rw [if_neg (by simp), htail]
        exact hnd
      · rw [he, if_pos hn0, htail]
        exact List.nodup_cons.mpr ⟨hmem, hnd⟩
    · have hval : gget (gset b row col n) rc.1 rc.2 = gget b rc.1 rc.2 :=
        gget_gset_ne n (by
          by_cases hp : row = rc.1
          · refine Or.inr (fun hq => hrceq ?_)
            have hrc'' : rc = ((rc.1, rc.2) : Nat × Nat) := rfl
            rw [hrc'', ← hp, ← hq]
          · exact Or.inl hp)
      rw [hval]
      by_cases hne : gget b rc.1 rc.2 ≠ 0
      · rw [if_pos hne] at hnd hmem ⊢
        obtain ⟨hni, hndr⟩ := List.nodup_cons.mp hnd
        have hmem' : n ∉ occValsG b rest := fun hx => hmem (List.mem_cons_of_mem _ hx)
        refine List.nodup_cons.mpr ⟨fun hx => ?_, ih hrest hndr hmem'⟩
        rcases occValsG_gset_mem hx with hx' | hx'
        · exact hni hx'
        · refine hmem ?_
          rw [hx']
          exact List.mem_cons_self _ _
      · rw [if_neg hne] at hnd hmem ⊢
        exact ih hrest hnd hmem

theorem valid_inj_row {b : GB} (hv : validG b) {i j1 j2 : Nat} (hi : i < DIM)
    (h1 : j1 < DIM) (h2 : j2 < DIM) (hne : j1 ≠ j2) (hz : gget b i j1 ≠ 0) :
    gget b i j1 ≠ gget b i j2 := by
  intro heq
  have hnd := hv.1 i (mem_pyrange.mpr ⟨Nat.zero_le i, hi⟩)
  refine filterMap_nodup_unique hnd ((i, j1) : Nat × Nat) (mem_rowCellsG.mpr ⟨rfl, h1⟩)
    ((i, j2) : Nat × Nat) (mem_rowCellsG.mpr ⟨rfl, h2⟩) (by simp [hne]) (gget b i j1)
    ?_ ?_
  · show (if gget b i j1 ≠ 0 then some (gget b i j1) else none) = some (gget b i j1)
    rw [if_pos hz]
  · show (if gget b i j2 ≠ 0 then some (gget b i j2) else none) = some (gget b i j1)
    rw [heq] at hz
    rw [heq, if_pos hz]

theorem valid_inj_col {b : GB} (hv : validG b) {i1 i2 j : Nat} (hj : j < DIM)
    (h1 : i1 < DIM) (h2 : i2 < DIM) (hne : i1 ≠ i2) (hz : gget b i1 j ≠ 0) :
    gget b i1 j ≠ gget b i2 j := by
  intro heq
  have hnd := hv.2.1 j (mem_pyrange.mpr ⟨Nat.zero_le j, hj⟩)
  refine filterMap_nodup_unique hnd ((i1, j) : Nat × Nat) (mem_colCellsG.mpr ⟨h1, rfl⟩)
    ((i2, j) : Nat × Nat) (mem_colCellsG.mpr ⟨h2, rfl⟩) (by simp [hne]) (gget b i1 j)
    ?_ ?_
  · show (if gget b i1 j ≠ 0 then some (gget b i1 j) else none) = some (gget b i1 j)
    rw [if_pos hz]
  · show (if gget b i2 j ≠ 0 then some (gget b i2 j) else none) = some (gget b i1 j)
    rw [heq] at hz
    rw [heq, if_pos hz]

theorem valid_inj_quad {b : GB} (hv : validG b) {qi qj i1 j1 i2 j2 : Nat}
    (hqi : qi < dim) (hqj : qj < dim)
    (hm1 : ((i1, j1) : Nat × Nat) ∈ quadCellsG qi qj)
    (hm2 : ((i2, j2) : Nat × Nat) ∈ quadCellsG qi qj)
    (hne : ((i1, j1) : Nat × Nat) ≠ (i2, j2)) (hz : gget b i1 j1 ≠ 0) :
    gget b i1 j1 ≠ gget b i2 j2 := by
  intro heq
  have hnd := hv.2.2 qi (mem_pyrange.mpr ⟨Nat.zero_le qi, hqi⟩)
    qj (mem_pyrange.mpr ⟨Nat.zero_le qj, hqj⟩)
  refine filterMap_nodup_unique hnd ((i1, j1) : Nat × Nat) hm1
    ((i2, j2) : Nat × Nat) hm2 hne (gget b i1 j1) ?_ ?_
  · show (if gget b i1 j1 ≠ 0 then some (gget b i1 j1) else none) = some (gget b i1 j1)
    rw [if_pos hz]
  · show (if gget b i2 j2 ≠ 0 then some (gget b i2 j2) else none) = some (gget b i1 j1)
    rw [heq] at hz
    rw [heq, if_pos hz]

/-- A `canBeUsed`-guarded write on a vacant in-range cell keeps the
board valid. -/
theorem valid_gset_of_canBeUsed {b : GB} (hwf : wfGB b) (hv : validG b)
    {n row col : Nat} (hcb : canBeUsed b n row col = true) (hn0 : n ≠ 0)
    (hrow : row < DIM) (hcol : col < DIM) (h0 : gget b row col = 0) :
    validG (gset b row col n) := by
  obtain ⟨hc1, hc2, hc3⟩ := canBeUsed_iff.mp hcb
  refine ⟨fun i hi => ?_, fun j hj => ?_, fun qi hqi qj hqj => ?_⟩
  · by_cases hieq : i = row
    · subst hieq
      refine occValsG_gset_nodup (rowCellsG_nodup i) hn0 (hv.1 i hi) ?_ h0
      intro hx
      obtain ⟨⟨rc, hrc, hval⟩, -⟩ := mem_occValsG.mp hx
      rcases rc with ⟨p, q⟩
      obtain ⟨rfl, hq⟩ := mem_rowCellsG.mp hrc
      have hval' : gget b p q = n := hval
      exact hc1 (getD_mem_iff.mpr ⟨q, by
        rw [row_length hwf hrow]
        exact hq, hval'⟩)
    · have hcong : occValsG (gset b row col n) (rowCellsG i) =
          occValsG b (rowCellsG i) :=
        occValsG_congr (fun rc hrc => gget_gset_ne n (Or.inl (by
          rcases rc with ⟨p, q⟩
          obtain ⟨rfl, -⟩ := mem_rowCellsG.mp hrc
          exact fun hh => hieq hh.symm)))
      rw [hcong]
      exact hv.1 i hi
  · by_cases hjeq : j = col
    · subst hjeq
      refine occValsG_gset_nodup (colCellsG_nodup j) hn0 (hv.2.1 j hj) ?_ h0
      intro hx
      obtain ⟨⟨rc, hrc, hval⟩, -⟩ := mem_occValsG.mp hx
      rcases rc with ⟨p, q⟩
      obtain ⟨hp, rfl⟩ := mem_colCellsG.mp hrc
      have hval' : gget b p q = n := hval
      exact hc2 p hp hval'
    · have hcong : occValsG (gset b row col n) (colCellsG j) =
          occValsG b (colCellsG j) :=
        occValsG_congr (fun rc hrc => gget_gset_ne n (Or.inr (by
          rcases rc with ⟨p, q⟩
          obtain ⟨-, rfl⟩ := mem_colCellsG.mp hrc
          exact fun hh => hjeq hh.symm)))
      rw [hcong]
      exact hv.2.1 j hj
  · have hqi' : qi < dim := (mem_pyrange.mp hqi).2
    have hqj' : qj < dim := (mem_pyrange.mp hqj).2
    by_cases hqeq : qi = row / dim ∧ qj = col / dim
    · obtain ⟨rfl, rfl⟩ := hqeq
      refine occValsG_gset_nodup (quadCellsG_nodup _ _) hn0 (hv.2.2 _ hqi _ hqj) ?_ h0
      intro hx
      obtain ⟨⟨rc, hrc, hval⟩, -⟩ := mem_occValsG.mp hx
      rcases rc with ⟨p, q⟩
      obtain ⟨⟨hp1, hp2⟩, hq1, hq2⟩ := mem_quadCellsG.mp hrc
      have hval' : gget b p q = n := hval
      exact hc3 p q hp1 hp2 hq1 hq2 hval'
    · have hcong : occValsG (gset b row col n) (quadCellsG qi qj) =
          occValsG b (quadCellsG qi qj) :=
        occValsG_congr (fun rc hrc => gget_gset_ne n (by
          rcases rc with ⟨p, q⟩
          obtain ⟨⟨hp1, hp2⟩, hq1, hq2⟩ := mem_quadCellsG.mp hrc
          by_cases hpr : row = p
          · refine Or.inr (fun hqc => ?_)
            refine hqeq ?_
            have hd : dim = 3 := rfl
            subst hpr
            have hqc' : col = q := hqc
            subst hqc'
            constructor
            · rw [hd] at hp1 hp2 ⊢
              omega
            · rw [hd] at hq1 hq2 ⊢
              omega
          · exact Or.inl hpr))
      rw [hcong]
      exact hv.2.2 qi hqi qj hqj

theorem mem_set_iff_of_ne {l : List Nat} {k w n : Nat} (hwn : n ≠ w)
    (hold : l.getD k 0 ≠ n) : n ∈ l.set k w ↔ n ∈ l := by
  rw [getD_mem_iff, getD_mem_iff]
  constructor
  · rintro ⟨j, hj, hg⟩
    rw [List.length_set] at hj
    refine ⟨j, hj, ?_⟩
    by_cases hjk : k = j
    · subst hjk
      rw [getD_set_self _ _ _ _ hj] at hg
      exact absurd hg.symm hwn
    · rw [getD_set_ne _ _ _ hjk] at hg
      exact hg
  · rintro ⟨j, hj, hg⟩
    refine ⟨j, by rw [List.length_set]; exact hj, ?_⟩
    by_cases hjk : k = j
    · subst hjk
      exact absurd hg hold
    · rw [getD_set_ne _ _ _ hjk]
      exact hg

/-- While the number loop keeps earlier trial numbers in the target
cell, the `canBeUsed` test for a different number is unaffected. -/
theorem canBeUsed_gset_irrelevant {b : GB} (hwf : wfGB b) {row col w n : Nat}
    (hrow : row < DIM) (hcol : col < DIM) (h0 : gget b row col = 0)
    (hwn : n ≠ w) (hn0 : n ≠ 0) :
    canBeUsed (gset b row col w) n row col = canBeUsed b n row col := by
  have hrl : row < b.length := by rw [hwf.1]; exact hrow
  have hrowget : (gset b row col w).getD row [] = (b.getD row []).set col w :=
    getD_set_self _ _ _ _ hrl
  have hcl : col < (b.getD row []).length := by rw [row_length hwf hrow]; exact hcol
  have hwval : gget (gset b row col w) row col = w := gget_gset_same w hrl hcl
  have hiff : canBeUsed (gset b row col w) n row col = true ↔
      canBeUsed b n row col = true := by
    rw [canBeUsed_iff, canBeUsed_iff]
    have hmem : n ∈ (gset b row col w).getD row [] ↔ n ∈ b.getD row [] := by
      rw [hrowget]
      exact mem_set_iff_of_ne hwn (by
        show gget b row col ≠ n
        rw [h0]
        exact fun hh => hn0 hh.symm)
    have hcell : ∀ i j, gget (gset b row col w) i j ≠ n ↔ gget b i j ≠ n := by
      intro i j
      by_cases hij : row = i ∧ col = j
      · obtain ⟨rfl, rfl⟩ := hij
        rw [hwval, h0]
        constructor
        · intro _ hh
          exact hn0 hh.symm
        · intro _ hh
          exact hwn hh.symm
      · rw [gget_gset_ne w (by
          by_cases hp : row = i
          · exact Or.inr (fun hq => hij ⟨hp, hq⟩)
          · exact Or.inl hp)]
    constructor
    · rintro ⟨h1, h2, h3⟩
      exact ⟨fun hh => h1 (hmem.mpr hh),
        fun i hi => (hcell i col).mp (h2 i hi),
        fun i j a1 a2 a3 a4 => (hcell i j).mp (h3 i j a1 a2 a3 a4)⟩
    · rintro ⟨h1, h2, h3⟩
      exact ⟨fun hh => h1 (hmem.mp hh),
        fun i hi => (hcell i col).mpr (h2 i hi),
        fun i j a1 a2 a3 a4 => (hcell i j).mpr (h3 i j a1 a2 a3 a4)⟩
  rcases hcb : canBeUsed b n row col with _ | _
  · rw [hcb] at hiff
    rw [Bool.eq_false_iff]
    intro hh
    exact absurd (hiff.mp hh) (by simp)
  · rw [hcb] at hiff
    exact hiff.mpr rfl

/-! ## Shape of the search state -/

/-- Every cell occupied. -/
def completeG (b : GB) : Prop := ∀ i j, i < DIM → j < DIM → gget b i j ≠ 0

/-- All entries at most `DIM`. -/
def rangeG (b : GB) : Prop := ∀ i j, i < DIM → j < DIM → gget b i j ≤ DIM

/-- `C` extends the partial board `b`. -/
def subGrid (b C : GB) : Prop :=
  ∀ i j, i < DIM → j < DIM → gget b i j ≠ 0 → gget C i j = gget b i j

/-- The number of vacant cells. -/
def vacCount (b : GB) : Nat :=
  (gridCells.filter (fun rc => decide (gget b rc.1 rc.2 = 0))).length

theorem gridCells_eq : gridCells = cellProd (pyrange 0 DIM) (pyrange 0 DIM) := by
  decide

theorem mem_gridCells {p q : Nat} : (p, q) ∈ gridCells ↔ p < DIM ∧ q < DIM := by
  rw [gridCells_eq, mem_cellProd, mem_pyrange, mem_pyrange]
  omega

theorem gridCells_nodup : gridCells.Nodup := by decide

/-! ## Unfolding equations for the backtracking engines -/

theorem createSol_zero (ord : Nat → List Nat) (b : GB) (sidx : Nat) :
    createSol ord 0 b sidx = (b, sidx, false) := rfl

theorem createSol_succ_none {ord : Nat → List Nat} {b : GB} {fuel sidx : Nat}
    (h : nextVacantCell b = none) :
    createSol ord (fuel + 1) b sidx = (gset b (DIM - 1) (DIM - 1) 0, sidx, false) := by
  simp only [createSol, h]

theorem createSol_succ_some {ord : Nat → List Nat} {b b' : GB}
    {fuel sidx row col s' : Nat} {res : Bool}
    (h : nextVacantCell b = some (row, col))
    (hl : createNumLoop (createSol ord fuel) row col (ord sidx) b (sidx + 1) =
      (b', s', res)) :
    createSol ord (fuel + 1) b sidx =
      if res then (b', s', true) else (gset b' row col 0, s', false) := by
  cases res <;> simp only [createSol, h, hl] <;> rfl

theorem createNumLoop_nil (recur : GB → Nat → GB × Nat × Bool) (row col sidx : Nat)
    (b : GB) : createNumLoop recur row col [] b sidx = (b, sidx, false) := rfl

theorem createNumLoop_cons_skip {recur : GB → Nat → GB × Nat × Bool}
    {row col n sidx : Nat} {rest : List Nat} {b : GB}
    (h : canBeUsed b n row col = false) :
    createNumLoop recur row col (n :: rest) b sidx =
      createNumLoop recur row col rest b sidx := by
  simp only [createNumLoop]
  rw [if_neg (by rw [h]; exact Bool.false_ne_true)]

theorem createNumLoop_cons_full {recur : GB → Nat → GB × Nat × Bool}
    {row col n sidx : Nat} {rest : List Nat} {b : GB}
    (hcb : canBeUsed b n row col = true)
    (hnv : nextVacantCell (gset b row col n) = none) :
    createNumLoop recur row col (n :: rest) b sidx = (gset b row col n, sidx, true) := by
  simp only [createNumLoop]
  rw [if_pos hcb, hnv]

theorem createNumLoop_cons_rec {recur : GB → Nat → GB × Nat × Bool}
    {row col n sidx s2 : Nat} {rest : List Nat} {b b2 : GB} {rc2 : Nat × Nat}
    {res2 : Bool} (hcb : canBeUsed b n row col = true)
    (hnv : nextVacantCell (gset b row col n) = some rc2)
    (hrec : recur (gset b row col n) sidx = (b2, s2, res2)) :
    createNumLoop recur row col (n :: rest) b sidx =
      if res2 then (b2, s2, true) else createNumLoop recur row col rest b2 s2 := by
  cases res2 <;> simp only [createNumLoop] <;> rw [if_pos hcb, hnv, hrec] <;> rfl

theorem solveG_zero (b : GB) (cnt : Nat) : solveG 0 b cnt = (b, cnt, false) := rfl

theorem solveG_succ_none {b : GB} {fuel cnt : Nat} (h : nextVacantCell b = none) :
    solveG (fuel + 1) b cnt = (gset b (DIM - 1) (DIM - 1) 0, cnt, false) := by
  simp only [solveG, h]

theorem solveG_succ_some {b b' : GB} {fuel cnt row col cnt' : Nat} {res : Bool}
    (h : nextVacantCell b = some (row, col))
    (hl : solveNumLoop (solveG fuel) row col (pyrange 1 (DIM + 1)) b cnt =
      (b', cnt', res)) :
    solveG (fuel + 1) b cnt =
      if res then (b', cnt', true) else (gset b' row col 0, cnt', false) := by
  cases res <;> simp only [solveG, h, hl] <;> rfl

theorem solveNumLoop_nil (recur : GB → Nat → GB × Nat × Bool) (row col cnt : Nat)
    (b : GB) : solveNumLoop recur row col [] b cnt = (b, cnt, false) := rfl

theorem solveNumLoop_cons_skip {recur : GB → Nat → GB × Nat × Bool}
    {row col n cnt : Nat} {rest : List Nat} {b : GB}
    (h : canBeUsed b n row col = false) :
    solveNumLoop recur row col (n :: rest) b cnt =
      solveNumLoop recur row col rest b cnt := by
  simp only [solveNumLoop]
  rw [if_neg (by rw [h]; exact Bool.false_ne_true)]

theorem solveNumLoop_cons_full {recur : GB → Nat → GB × Nat × Bool}
    {row col n cnt : Nat} {rest : List Nat} {b : GB}
    (hcb : canBeUsed b n row col = true)
    (hnv : nextVacantCell (gset b row col n) = none) :
    solveNumLoop recur row col (n :: rest) b cnt = (gset b row col n, cnt + 1, false) := by
  simp only [solveNumLoop]
  rw [if_pos hcb, hnv]

theorem solveNumLoop_cons_rec {recur : GB → Nat → GB × Nat × Bool}
    {row col n cnt cnt2 : Nat} {rest : List Nat} {b b2 : GB} {rc2 : Nat × Nat}
    {res2 : Bool} (hcb : canBeUsed b n row col = true)
    (hnv : nextVacantCell (gset b row col n) = some rc2)
    (hrec : recur (gset b row col n) cnt = (b2, cnt2, res2)) :
    solveNumLoop recur row col (n :: rest) b cnt =
      if res2 then (b2, cnt2, true) else solveNumLoop recur row col rest b2 cnt2 := by
  cases res2 <;> simp only [solveNumLoop] <;> rw [if_pos hcb, hnv, hrec] <;> rfl

/-! ## `createSolution` restores the board on failure -/

theorem createSol_false_restores (ord : Nat → List Nat) :
    ∀ fuel (b : GB) (sidx : Nat) (rc : Nat × Nat), nextVacantCell b = some rc →
      (createSol ord fuel b sidx).2.2 = false → (createSol ord fuel b sidx).1 = b := by
  intro fuel
  induction fuel with
  | zero => exact fun b sidx rc _ _ => rfl
  | succ fuel ih =>
    intro b sidx rc hvac hfalse0
    rcases rc with ⟨row, col⟩
    obtain ⟨hrow, hcol, h0⟩ := nextVacant_some_spec hvac
    have hloop : ∀ (l : List Nat) (w sidx' : Nat),
        (createNumLoop (createSol ord fuel) row col l (gset b row col w) sidx').2.2
          = false →
        ∃ w', (createNumLoop (createSol ord fuel) row col l
          (gset b row col w) sidx').1 = gset b row col w' := by
      intro l
      induction l with
      | nil => exact fun w sidx' _ => ⟨w, by rw [createNumLoop_nil]⟩
      | cons n rest ihl =>
        intro w sidx' hfalse
        rcases hcb : canBeUsed (gset b row col w) n row col with _ | _
        · rw [createNumLoop_cons_skip hcb] at hfalse ⊢
          exact ihl w sidx' hfalse
        · have hbb : gset (gset b row col w) row col n = gset b row col n :=
            gset_gset ..
          rcases hnv : nextVacantCell (gset (gset b row col w) row col n)
            with _ | rc2
          · rw [createNumLoop_cons_full hcb hnv] at hfalse
            exact absurd hfalse (by simp)
          · rcases hrec : createSol ord fuel
              (gset (gset b row col w) row col n) sidx' with ⟨b2, s2, res2⟩
            rw [createNumLoop_cons_rec hcb hnv hrec] at hfalse ⊢
            cases res2
            · rw [if_neg (by exact Bool.false_ne_true)] at hfalse ⊢
              have hb2 : b2 = gset b row col n := by
                have hres := ih (gset (gset b row col w) row col n) sidx' rc2 hnv
                  (by rw [hrec])
                rw [hrec] at hres
                have hres' : b2 = gset (gset b row col w) row col n := hres
                rw [hres', hbb]
              rw [hb2] at hfalse ⊢
              exact ihl n s2 hfalse
            · rw [if_pos rfl] at hfalse
              exact absurd hfalse (by simp)
    have hb0 : b = gset b row col 0 := (gset_self h0).symm
    rcases hl : createNumLoop (createSol ord fuel) row col (ord sidx) b (sidx + 1)
      with ⟨b', s', res'⟩
    have hstep := createSol_succ_some hvac hl
    cases res'
    · rw [hstep, if_neg (by exact Bool.false_ne_true)]
      have hl' : (createNumLoop (createSol ord fuel) row col (ord sidx)
          (gset b row col 0) (sidx + 1)) = (b', s', false) := by
        rw [← hb0]
        exact hl
      obtain ⟨w', hw'⟩ := hloop (ord sidx) 0 (sidx + 1) (by rw [hl'])
      rw [hl'] at hw'
      have hw'' : b' = gset b row col w' := hw'
      show gset b' row col 0 = b
      rw [hw'', gset_gset, ← hb0]
    · rw [hstep, if_pos rfl] at hfalse0
      exact absurd hfalse0 (by simp)

/-! ## Support lemmas for the search invariants -/

theorem rangeG_empty : rangeG emptyGB := by
  intro i j hi hj
  unfold emptyGB gget
  have hD : DIM = 9 := rfl
  rw [hD] at hi hj
  interval_cases i <;> interval_cases j <;> decide

theorem rangeG_gset {b : GB} (hr : rangeG b) {v : Nat} (hv : v ≤ DIM)
    (row col : Nat) : rangeG (gset b row col v) := by
  intro i j hi hj
  rcases gget_gset_cases b row col v i j with he | he <;> rw [he]
  · exact hr i j hi hj
  · exact hv

theorem subGrid_gset {b C : GB} (hsub : subGrid b C) {row col v : Nat}
    (hval : gget C row col = v) : subGrid (gset b row col v) C := by
  intro i j hi hj hnz
  by_cases hij : row = i ∧ col = j
  · obtain ⟨rfl, rfl⟩ := hij
    rcases gget_gset_cases b row col v row col with he | he
    · rw [he] at hnz ⊢
      exact hsub _ _ hi hj hnz
    · rw [he]
      exact hval
  · have hne : row ≠ i ∨ col ≠ j := by
      by_cases hp : row = i
      · exact Or.inr (fun hq => hij ⟨hp, hq⟩)
      · exact Or.inl hp
    rw [gget_gset_ne v hne] at hnz ⊢
    exact hsub i j hi hj hnz

theorem vacCount_pos {b : GB} {rc : Nat × Nat} (h : nextVacantCell b = some rc) :
    0 < vacCount b := by
  obtain ⟨h1, h2, h3⟩ := nextVacant_some_spec h
  have hmem : rc ∈ gridCells.filter (fun rc => decide (gget b rc.1 rc.2 = 0)) :=
    List.mem_filter.mpr ⟨by
      rcases rc with ⟨p, q⟩
      exact mem_gridCells.mpr ⟨h1, h2⟩, by simp [h3]⟩
  exact List.length_pos_of_mem hmem

theorem vacCount_gset_lt {b : GB} (hwf : wfGB b) {row col n : Nat}
    (hrow : row < DIM) (hcol : col < DIM) (h0 : gget b row col = 0) (hn : n ≠ 0) :
    vacCount (gset b row col n) < vacCount b := by
  have hnew : gget (gset b row col n) row col = n :=
    gget_gset_same n (by rw [hwf.1]; exact hrow)
      (by rw [row_length hwf hrow]; exact hcol)
  have key : ∀ cells : List (Nat × Nat), cells.Nodup →
      ((row, col) : Nat × Nat) ∈ cells →
      (cells.filter (fun rc => decide (gget (gset b row col n) rc.1 rc.2 = 0))).length <
      (cells.filter (fun rc => decide (gget b rc.1 rc.2 = 0))).length := by
    intro cells
    induction cells with
    | nil => exact fun _ hmem => absurd hmem (List.not_mem_nil _)
    | cons rc rest ih =>
      intro hnd hmem
      obtain ⟨hrc, hrest⟩ := List.nodup_cons.mp hnd
      rw [List.filter_cons, List.filter_cons]
      by_cases hrceq : rc = ((row, col) : Nat × Nat)
      · have hv1 : decide (gget (gset b row col n) rc.1 rc.2 = 0) = false := by
          rw [hrceq]
          simp only [decide_eq_false_iff_not]
          intro hh
          have hh' : gget (gset b row col n) row col = 0 := hh
          rw [hnew] at hh'
          exact hn hh'
        have hv2 : decide (gget b rc.1 rc.2 = 0) = true := by
          rw [hrceq]
          simp only [decide_eq_true_eq]
          exact h0
        rw [hv1, hv2, if_neg (by exact Bool.false_ne_true), if_pos rfl]
        have htails : rest.filter
            (fun rc => decide (gget (gset b row col n) rc.1 rc.2 = 0)) =
            rest.filter (fun rc => decide (gget b rc.1 rc.2 = 0)) := by
          apply List.filter_congr
          intro x hx
          have hxne : row ≠ x.1 ∨ col ≠ x.2 := by
            by_cases hp : row = x.1
            · refine Or.inr (fun hq => ?_)
              apply hrc
              rw [hrceq]
              have hx' : ((row, col) : Nat × Nat) = x := by
                rw [hp, hq]
              rw [hx']
              exact hx
            · exact Or.inl hp
          rw [gget_gset_ne n hxne]
        rw [htails, List.length_cons]
        omega
      · have hxne : row ≠ rc.1 ∨ col ≠ rc.2 := by
          by_cases hp : row = rc.1
          · refine Or.inr (fun hq => hrceq ?_)
            have hx' : rc = ((rc.1, rc.2) : Nat × Nat) := rfl
            rw [hx', ← hp, ← hq]
          · exact Or.inl hp
        rw [gget_gset_ne n hxne]
        have hmem' : ((row, col) : Nat × Nat) ∈ rest := by
          rcases List.mem_cons.mp hmem with h | h
          · exact absurd h.symm hrceq
          · exact h
        split
        · rw [List.length_cons, List.length_cons]
          exact Nat.succ_lt_succ (ih hrest hmem')
        · exact ih hrest hmem'
  unfold vacCount
  exact key gridCells gridCells_nodup (mem_gridCells.mpr ⟨hrow, hcol⟩)

/-- Extending a partial board towards its completion: the completion's
entry can always be used. -/
theorem canBeUsed_of_completion {b C : GB} (hwf : wfGB b) (hCv : validG C)
    (hsub : subGrid b C) {row col : Nat} (hrow : row < DIM) (hcol : col < DIM)
    (h0 : gget b row col = 0) (hC0 : gget C row col ≠ 0) :
    canBeUsed b (gget C row col) row col = true := by
  rw [canBeUsed_iff]
  refine ⟨?_, ?_, ?_⟩
  · intro hmem
    obtain ⟨q, hq, hgq⟩ := getD_mem_iff.mp hmem
    rw [row_length hwf hrow] at hq
    have hbq : gget b row q = gget C row col := hgq
    have hnz : gget b row q ≠ 0 := by rw [hbq]; exact hC0
    have hCq : gget C row q = gget b row q := hsub row q hrow hq hnz
    have hqc : q ≠ col := by
      intro hh
      rw [hh, h0] at hbq
      exact hC0 hbq.symm
    exact valid_inj_row hCv hrow hq hcol hqc (by rw [hCq]; exact hnz)
      (hCq.trans hbq)
  · intro i hi hgi
    have hnz : gget b i col ≠ 0 := by rw [hgi]; exact hC0
    have hCi : gget C i col = gget b i col := hsub i col hi hcol hnz
    have hir : i ≠ row := by
      intro hh
      rw [hh, h0] at hgi
      exact hC0 hgi.symm
    exact valid_inj_col hCv hcol hi hrow hir (by rw [hCi]; exact hnz)
      (hCi.trans hgi)
  · intro i j hi1 hi2 hj1 hj2 hgij
    have hd : dim = 3 := rfl
    have hD : DIM = 9 := rfl
    have hiD : i < DIM := by
      rw [hd] at hi2
      rw [hD]
      rw [hD] at hrow
      omega
    have hjD : j < DIM := by
      rw [hd] at hj2
      rw [hD]
      rw [hD] at hcol
      omega
    have hnz : gget b i j ≠ 0 := by rw [hgij]; exact hC0
    have hCij : gget C i j = gget b i j := hsub i j hiD hjD hnz
    have hne : ((i, j) : Nat × Nat) ≠ (row, col) := by
      intro hh
      injection hh with ha hb
      rw [ha, hb, h0] at hgij
      exact hC0 hgij.symm
    have hqi : row / dim < dim := by
      rw [hd]
      rw [hD] at hrow
      omega
    have hqj : col / dim < dim := by
      rw [hd]
      rw [hD] at hcol
      omega
    have hm1 : ((i, j) : Nat × Nat) ∈ quadCellsG (row / dim) (col / dim) :=
      mem_quadCellsG.mpr ⟨⟨hi1, hi2⟩, hj1, hj2⟩
    have hm2 : ((row, col) : Nat × Nat) ∈ quadCellsG (row / dim) (col / dim) := by
      refine mem_quadCellsG.mpr ⟨⟨?_, ?_⟩, ?_, ?_⟩ <;> rw [hd] <;> omega
    exact valid_inj_quad hCv hqi hqj hm1 hm2 hne (by rw [hCij]; exact hnz)
      (hCij.trans hgij)

/-! ## `createSolution` soundness: a `True` return leaves a complete
valid board -/

theorem createSol_true_sound (ord : Nat → List Nat)
    (hordmem : ∀ k n, n ∈ ord k → 1 ≤ n ∧ n ≤ DIM)
    (hordnodup : ∀ k, (ord k).Nodup) :
    ∀ fuel (b : GB) (sidx : Nat) (rc : Nat × Nat) (b' : GB) (s' : Nat),
      nextVacantCell b = some rc → wfGB b → validG b → rangeG b →
      createSol ord fuel b sidx = (b', s', true) →
      completeG b' ∧ validG b' ∧ wfGB b' ∧ rangeG b' := by
  intro fuel
  induction fuel with
  | zero =>
    intro b sidx rc b' s' _ _ _ _ hres
    rw [createSol_zero] at hres
    exact absurd (congrArg (fun t => t.2.2) hres) (by simp)
  | succ fuel ih =>
    intro b sidx rc b' s' hvac hwf hval hrange hres
    rcases rc with ⟨row, col⟩
    obtain ⟨hrow, hcol, h0⟩ := nextVacant_some_spec hvac
    have hloop : ∀ (l : List Nat) (w sidx' : Nat) (b' : GB) (s' : Nat),
        (∀ n ∈ l, 1 ≤ n ∧ n ≤ DIM) → l.Nodup → (∀ n ∈ l, n ≠ w) →
        createNumLoop (createSol ord fuel) row col l (gset b row col w) sidx' =
          (b', s', true) →
        completeG b' ∧ validG b' ∧ wfGB b' ∧ rangeG b' := by
      intro l
      induction l with
      | nil =>
        intro w sidx' b' s' _ _ _ hres'
        rw [createNumLoop_nil] at hres'
        exact absurd (congrArg (fun t => t.2.2) hres') (by simp)
      | cons n rest ihl =>
        intro w sidx' b' s' hbnd hnd hne hres'
        obtain ⟨hnn, hndr⟩ := List.nodup_cons.mp hnd
        have hn1 : 1 ≤ n := (hbnd n (List.mem_cons_self n rest)).1
        have hn9 : n ≤ DIM := (hbnd n (List.mem_cons_self n rest)).2
        have hn0 : n ≠ 0 := by omega
        have hnw : n ≠ w := hne n (List.mem_cons_self n rest)
        have hbb : gset (gset b row col w) row col n = gset b row col n :=
          gset_gset ..
        rcases hcb : canBeUsed (gset b row col w) n row col with _ | _
        · rw [createNumLoop_cons_skip hcb] at hres'
          exact ihl w sidx' b' s' (fun x hx => hbnd x (List.mem_cons_of_mem n hx))
            hndr (fun x hx => hne x (List.mem_cons_of_mem n hx)) hres'
        · have hcbb : canBeUsed b n row col = true := by
            rw [← canBeUsed_gset_irrelevant hwf hrow hcol h0 hnw hn0]
            exact hcb
          have hb1wf : wfGB (gset b row col n) := wfGB_gset hwf row col n
          have hb1val : validG (gset b row col n) :=
            valid_gset_of_canBeUsed hwf hval hcbb hn0 hrow hcol h0
          have hb1range : rangeG (gset b row col n) :=
            rangeG_gset hrange hn9 row col
          rcases hnv : nextVacantCell (gset (gset b row col w) row col n)
            with _ | rc2
          · rw [createNumLoop_cons_full hcb hnv] at hres'
            rw [hbb] at hnv
            have hb' : b' = gset b row col n := by
              have := congrArg (fun t => t.1) hres'
              simp only at this
              rw [← this, hbb]
            rw [hb']
            exact ⟨nextVacant_none_spec hnv, hb1val, hb1wf, hb1range⟩
          · rcases hrec : createSol ord fuel
              (gset (gset b row col w) row col n) sidx' with ⟨b2, s2, res2⟩
            rw [createNumLoop_cons_rec hcb hnv hrec] at hres'
            rw [hbb] at hnv hrec
            cases res2
            · rw [if_neg (by exact Bool.false_ne_true)] at hres'
              have hb2 : b2 = gset b row col n := by
                have hr := createSol_false_restores ord fuel
                  (gset b row col n) sidx' rc2 hnv (by rw [hrec])
                rw [hrec] at hr
                exact hr
              rw [hb2] at hres'
              exact ihl n s2 b' s' (fun x hx => hbnd x (List.mem_cons_of_mem n hx))
                hndr (fun x hx hh => hnn (hh ▸ hx)) hres'
            · rw [if_pos rfl] at hres'
              have hb' : b2 = b' := congrArg (fun t => t.1) hres'
              have hs2 : s2 = s' := congrArg (fun t => t.2.1) hres'
              rw [← hb']
              exact ih (gset b row col n) sidx' rc2 b2 s2 hnv hb1wf hb1val
                hb1range hrec
    have hb0 : b = gset b row col 0 := (gset_self h0).symm
    rcases hl : createNumLoop (createSol ord fuel) row col (ord sidx) b (sidx + 1)
      with ⟨b1, s1, res1⟩
    have hstep := createSol_succ_some hvac hl
    rw [hstep] at hres
    cases res1
    · rw [if_neg (by exact Bool.false_ne_true)] at hres
      exact absurd (congrArg (fun t => t.2.2) hres) (by simp)
    · rw [if_pos rfl] at hres
      have hb' : b1 = b' := congrArg (fun t => t.1) hres
      rw [← hb']
      rw [hb0] at hl
      exact hloop (ord sidx) 0 (sidx + 1) b1 s1
        (fun x hx => hordmem sidx x hx) (hordnodup sidx)
        (fun x hx => by
          have := (hordmem sidx x hx).1
          omega) hl

/-! ## `createSolution` completeness: with a completion available the
search returns `True` -/

theorem createSol_true_complete (ord : Nat → List Nat)
    (hord : ∀ k, (ord k).Perm (pyrange 1 (DIM + 1)))
    (C : GB) (hC : completeG C) (hCv : validG C) (hCr : rangeG C) :
    ∀ fuel (b : GB) (sidx : Nat) (rc : Nat × Nat),
      nextVacantCell b = some rc → wfGB b → validG b → subGrid b C →
      vacCount b ≤ fuel →
      (createSol ord fuel b sidx).2.2 = true := by
  intro fuel
  induction fuel with
  | zero =>
    intro b sidx rc hvac _ _ _ hfuel
    have := vacCount_pos hvac
    omega
  | succ fuel ih =>
    intro b sidx rc hvac hwf hval hsub hfuel
    rcases rc with ⟨row, col⟩
    obtain ⟨hrow0, hcol0, h00⟩ := nextVacant_some_spec hvac
    have hrow : row < DIM := hrow0
    have hcol : col < DIM := hcol0
    have h0 : gget b row col = 0 := h00
    have hv0 : gget C row col ≠ 0 := hC row col hrow hcol
    have hv9 : gget C row col ≤ DIM := hCr row col hrow hcol
    have hcbv : canBeUsed b (gget C row col) row col = true :=
      canBeUsed_of_completion hwf hCv hsub hrow hcol h0 hv0
    have hvmem : gget C row col ∈ ord sidx :=
      ((hord sidx).mem_iff).mpr (mem_pyrange.mpr ⟨by omega, by omega⟩)
    have hloop : ∀ (l : List Nat) (w sidx' : Nat),
        gget C row col ∈ l → l.Nodup → (∀ n ∈ l, 1 ≤ n ∧ n ≤ DIM) →
        (∀ n ∈ l, n ≠ w) →
        (createNumLoop (createSol ord fuel) row col l
          (gset b row col w) sidx').2.2 = true := by
      intro l
      induction l with
      | nil =>
        intro w sidx' hmem
        exact absurd hmem (List.not_mem_nil _)
      | cons n rest ihl =>
        intro w sidx' hmem hnd hbnd hne
        obtain ⟨hnn, hndr⟩ := List.nodup_cons.mp hnd
        have hn1 : 1 ≤ n := (hbnd n (List.mem_cons_self n rest)).1
        have hn9 : n ≤ DIM := (hbnd n (List.mem_cons_self n rest)).2
        have hn0 : n ≠ 0 := by omega
        have hnw : n ≠ w := hne n (List.mem_cons_self n rest)
        have hbb : gset (gset b row col w) row col n = gset b row col n :=
          gset_gset ..
        rcases hcb : canBeUsed (gset b row col w) n row col with _ | _
        · by_cases hnv' : n = gget C row col
          · exfalso
            have heqv := canBeUsed_gset_irrelevant hwf hrow hcol h0 hnw hn0
            rw [hcb] at heqv
            rw [hnv'] at heqv
            rw [hcbv] at heqv
            exact absurd heqv.symm (by simp)
          · rw [createNumLoop_cons_skip hcb]
            refine ihl w sidx' ?_ hndr
              (fun x hx => hbnd x (List.mem_cons_of_mem n hx))
              (fun x hx => hne x (List.mem_cons_of_mem n hx))
            rcases List.mem_cons.mp hmem with h | h
            · exact absurd h.symm hnv'
            · exact h
        · rcases hnv2 : nextVacantCell (gset (gset b row col w) row col n)
            with _ | rc2
          · rw [createNumLoop_cons_full hcb hnv2]
          · rcases hrec : createSol ord fuel
              (gset (gset b row col w) row col n) sidx' with ⟨b2, s2, res2⟩
            rw [createNumLoop_cons_rec hcb hnv2 hrec]
            cases res2
            · rw [if_neg (by exact Bool.false_ne_true)]
              rw [hbb] at hnv2 hrec
              have hcbb : canBeUsed b n row col = true := by
                rw [← canBeUsed_gset_irrelevant hwf hrow hcol h0 hnw hn0]
                exact hcb
              have hb2 : b2 = gset b row col n := by
                have hr := createSol_false_restores ord fuel
                  (gset b row col n) sidx' rc2 hnv2 (by rw [hrec])
                rw [hrec] at hr
                exact hr
              by_cases hnv' : n = gget C row col
              · exfalso
                have hresT := ih (gset b row col n) sidx' rc2 hnv2
                  (wfGB_gset hwf row col n)
                  (valid_gset_of_canBeUsed hwf hval hcbb hn0 hrow hcol h0)
                  (by rw [hnv']; exact subGrid_gset hsub rfl)
                  (by
                    have := vacCount_gset_lt hwf hrow hcol h0 hn0
                    omega)
                rw [hrec] at hresT
                exact absurd hresT (by simp)
              · rw [hb2]
                refine ihl n s2 ?_ hndr
                  (fun x hx => hbnd x (List.mem_cons_of_mem n hx))
                  (fun x hx hh => hnn (hh ▸ hx))
                rcases List.mem_cons.mp hmem with h | h
                · exact absurd h.symm hnv'
                · exact h
            · rw [if_pos rfl]
    have hb0 : b = gset b row col 0 := (gset_self h0).symm
    have hndord : (ord sidx).Nodup :=
      ((hord sidx).nodup_iff).mpr (pyrange_nodup 1 (DIM + 1))
    have hbndord : ∀ n ∈ ord sidx, 1 ≤ n ∧ n ≤ DIM := by
      intro n hn
      have := mem_pyrange.mp (((hord sidx).mem_iff).mp hn)
      omega
    rcases hl : createNumLoop (createSol ord fuel) row col (ord sidx) b (sidx + 1)
      with ⟨b1, s1, res1⟩
    have hstep := createSol_succ_some hvac hl
    rw [hstep]
    cases res1
    · exfalso
      rw [hb0] at hl
      have hT := hloop (ord sidx) 0 (sidx + 1) hvmem hndord hbndord
        (fun x hx => by
          have := (hbndord x hx).1
          omega)
      rw [hl] at hT
      exact absurd hT (by simp)
    · rw [if_pos rfl]

/-! ## The counting engine on a board one removal away from a full
valid grid -/

theorem occValsG_eq_map_of_complete {b : GB} {cells : List (Nat × Nat)}
    (h : ∀ rc ∈ cells, gget b rc.1 rc.2 ≠ 0) :
    occValsG b cells = cells.map (fun rc => gget b rc.1 rc.2) := by
  induction cells with
  | nil => rfl
  | cons rc rest ih =>
    rw [occValsG_cons, if_pos (h rc (List.mem_cons_self rc rest)), List.map_cons,
      ih (fun x hx => h x (List.mem_cons_of_mem rc hx))]

/-- Each row of a complete valid grid carries every symbol `1..DIM`. -/
theorem complete_row_surj {C : GB} (hC : completeG C) (hCv : validG C)
    (hCr : rangeG C) {i : Nat} (hi : i < DIM) :
    ∀ n, 1 ≤ n → n ≤ DIM → ∃ j, j < DIM ∧ gget C i j = n := by
  intro n hn1 hn9
  have hocc : occValsG C (rowCellsG i) =
      (pyrange 0 DIM).map (fun j => gget C i j) := by
    rw [occValsG_eq_map_of_complete (fun rc hrc => by
      rcases rc with ⟨p, q⟩
      obtain ⟨rfl, hq⟩ := mem_rowCellsG.mp hrc
      exact hC p q hi hq)]
    unfold rowCellsG
    rw [List.map_map]
    rfl
  have hnodup : ((pyrange 0 DIM).map (fun j => gget C i j)).Nodup := by
    rw [← hocc]
    exact hCv.1 i (mem_pyrange.mpr ⟨Nat.zero_le i, hi⟩)
  have hlen : ((pyrange 0 DIM).map (fun j => gget C i j)).length = DIM := by
    rw [List.length_map]
    unfold pyrange
    simp
  have hsubset : ∀ x ∈ (pyrange 0 DIM).map (fun j => gget C i j),
      x ∈ pyrange 1 (DIM + 1) := by
    intro x hx
    obtain ⟨j, hj, rfl⟩ := List.mem_map.mp hx
    have hj' := (mem_pyrange.mp hj).2
    have h1 : gget C i j ≠ 0 := hC i j hi hj'
    have h2 : gget C i j ≤ DIM := hCr i j hi hj'
    exact mem_pyrange.mpr ⟨by omega, by omega⟩
  have hcard1 : ((pyrange 0 DIM).map (fun j => gget C i j)).toFinset.card = DIM := by
    rw [List.toFinset_card_of_nodup hnodup, hlen]
  have hcard2 : (pyrange 1 (DIM + 1)).toFinset.card = DIM := by
    rw [List.toFinset_card_of_nodup (pyrange_nodup _ _)]
    unfold pyrange
    simp
  have hsub' : ((pyrange 0 DIM).map (fun j => gget C i j)).toFinset ⊆
      (pyrange 1 (DIM + 1)).toFinset := fun x hx =>
    List.mem_toFinset.mpr (hsubset x (List.mem_toFinset.mp hx))
  have heq : ((pyrange 0 DIM).map (fun j => gget C i j)).toFinset =
      (pyrange 1 (DIM + 1)).toFinset :=
    Finset.eq_of_subset_of_card_le hsub' (by rw [hcard1, hcard2])
  have hnL : n ∈ (pyrange 0 DIM).map (fun j => gget C i j) := by
    rw [← List.mem_toFinset, heq, List.mem_toFinset]
    exact mem_pyrange.mpr ⟨hn1, by omega⟩
  obtain ⟨j, hj, hgj⟩ := List.mem_map.mp hnL
  exact ⟨j, (mem_pyrange.mp hj).2, hgj⟩

theorem solveNumLoop_single (recur : GB → Nat → GB × Nat × Bool)
    {row col v : Nat} (cnt : Nat) {b : GB} (l : List Nat)
    (hskip : ∀ n ∈ l, n ≠ v → canBeUsed b n row col = false)
    (hv : canBeUsed b v row col = true)
    (hnone : nextVacantCell (gset b row col v) = none)
    (hvmem : v ∈ l) :
    solveNumLoop recur row col l b cnt = (gset b row col v, cnt + 1, false) := by
  induction l with
  | nil => exact absurd hvmem (List.not_mem_nil _)
  | cons n rest ih =>
    by_cases hn : n = v
    · subst hn
      rw [solveNumLoop_cons_full hv hnone]
    · rw [solveNumLoop_cons_skip (hskip n (List.mem_cons_self n rest) hn)]
      refine ih (fun x hx hxv => hskip x (List.mem_cons_of_mem n hx) hxv) ?_
      rcases List.mem_cons.mp hvmem with h | h
      · exact absurd h.symm hn
      · exact h

/-- Removing one cell from a complete valid grid leaves a puzzle the
counting engine reports exactly one solution for: the removed value is
forced (any other symbol already sits in the row), and writing it back
fills the board. -/
theorem solveCount_single_vacancy {C : GB} (hCwf : wfGB C) (hC : completeG C)
    (hCv : validG C) (hCr : rangeG C) {row col : Nat} (hrow : row < DIM)
    (hcol : col < DIM) : solveCount (gset C row col 0) = 1 := by
  have hv0 : gget C row col ≠ 0 := hC row col hrow hcol
  have hv9 : gget C row col ≤ DIM := hCr row col hrow hcol
  have hb0wf : wfGB (gset C row col 0) := wfGB_gset hCwf row col 0
  have hb00 : gget (gset C row col 0) row col = 0 :=
    gget_gset_same 0 (by rw [hCwf.1]; exact hrow)
      (by rw [row_length hCwf hrow]; exact hcol)
  have hother : ∀ i j, i < DIM → j < DIM → (i, j) ≠ (row, col) →
      gget (gset C row col 0) i j ≠ 0 := by
    intro i j hi hj hne
    have hval : gget (gset C row col 0) i j = gget C i j := by
      refine gget_gset_ne 0 ?_
      by_cases hp : row = i
      · refine Or.inr (fun hq => hne ?_)
        rw [← hp, ← hq]
      · exact Or.inl hp
    rw [hval]
    exact hC i j hi hj
  have hvac : nextVacantCell (gset C row col 0) = some (row, col) :=
    nextVacant_unique hrow hcol hb00 hother
  have hrestore : gset (gset C row col 0) row col (gget C row col) = C :=
    gset_restore _ rfl
  have hnone : nextVacantCell (gset (gset C row col 0) row col
      (gget C row col)) = none := by
    rw [hrestore]
    exact nextVacant_of_complete hC
  have hsub : subGrid (gset C row col 0) C := by
    intro i j hi hj hnz
    rcases gget_gset_cases C row col 0 i j with he | he
    · rw [he]
    · rw [he] at hnz
      exact absurd rfl hnz
  have hcbv : canBeUsed (gset C row col 0) (gget C row col) row col = true :=
    canBeUsed_of_completion hb0wf hCv hsub hrow hcol hb00 hv0
  have hskip : ∀ n ∈ pyrange 1 (DIM + 1), n ≠ gget C row col →
      canBeUsed (gset C row col 0) n row col = false := by
    intro n hn hnv
    have hbnd := mem_pyrange.mp hn
    obtain ⟨j', hj', hgj'⟩ := complete_row_surj hC hCv hCr hrow n hbnd.1 (by omega)
    have hj'c : j' ≠ col := by
      intro hh
      rw [hh] at hgj'
      exact hnv hgj'.symm
    have hb0j' : gget (gset C row col 0) row j' = n := by
      rw [gget_gset_ne 0 (Or.inr (fun hh => hj'c hh.symm))]
      exact hgj'
    have hmem : n ∈ (gset C row col 0).getD row [] :=
      getD_mem_iff.mpr ⟨j', by
        rw [row_length hb0wf hrow]
        exact hj', hb0j'⟩
    unfold canBeUsed
    rw [if_pos hmem]
  have hvmem : gget C row col ∈ pyrange 1 (DIM + 1) :=
    mem_pyrange.mpr ⟨by omega, by omega⟩
  have hloop := solveNumLoop_single (solveG (DIM * DIM)) 0
    (pyrange 1 (DIM + 1)) hskip hcbv hnone hvmem
  have hstep := solveG_succ_some hvac hloop
  show (solveG (DIM * DIM + 1) (gset C row col 0) 0).2.1 = 1
  rw [hstep, if_neg (by exact Bool.false_ne_true)]

/-! ## The elimination loop -/

theorem gget_empty (i j : Nat) : gget emptyGB i j = 0 := by
  unfold gget emptyGB
  by_cases hi : i < DIM
  · have hrow : (List.replicate DIM (List.replicate DIM (0 : Nat))).getD i [] =
        List.replicate DIM 0 := by
      rw [List.getD_eq_getElem _ _ (by simpa using hi)]
      simp
    rw [hrow]
    by_cases hj : j < DIM
    · rw [List.getD_eq_getElem _ _ (by simpa using hj)]
      simp
    · rw [List.getD_eq_default _ _ (by simpa using Nat.le_of_not_lt hj)]
  · have hrow : (List.replicate DIM (List.replicate DIM (0 : Nat))).getD i [] =
        [] := List.getD_eq_default _ _ (by simpa using Nat.le_of_not_lt hi)
    rw [hrow]
    rfl

/-- Once the current puzzle has a unique solution, the rest of the loop
keeps that: an accepted removal was itself checked, a rejected one is
undone. -/
theorem elimLoop_preserves {minOcc : Nat} :
    ∀ (cells : List (Nat × Nat)) (b : GB) (n iters : Nat) (b' : GB),
      solveCount b = 1 → elimLoop minOcc cells b n iters = some b' →
      solveCount b' = 1 := by
  intro cells
  induction cells with
  | nil =>
    intro b n iters b' h1 hres
    simp only [elimLoop] at hres
    split at hres
    · exact absurd hres (by simp)
    · rw [← Option.some.inj hres]
      exact h1
  | cons rc rest ih =>
    intro b n iters b' h1 hres
    simp only [elimLoop] at hres
    split at hres
    · split at hres
      · rw [gset_restore _ rfl] at hres
        exact ih b _ _ b' h1 hres
      · rename_i hcnt
        exact ih _ _ _ b' (not_not.mp hcnt) hres
    · rw [← Option.some.inj hres]
      exact h1

/-- The loop cannot exhaust the popped cell list before the clue count
drops below the floor, so the Python `pop` never fires on an empty
list. -/
theorem elimLoop_total (minOcc : Nat) (hmin : 4 ≤ minOcc) :
    ∀ (cells : List (Nat × Nat)) (b : GB) (n iters : Nat),
      iters ≤ 4 → n ≤ cells.length + (4 - iters) →
      ∃ b', elimLoop minOcc cells b n iters = some b' := by
  intro cells
  induction cells with
  | nil =>
    intro b n iters hit hn
    refine ⟨b, ?_⟩
    simp only [elimLoop]
    rw [if_neg (by
      intro hcon
      obtain ⟨h1, h2⟩ := hcon
      simp only [List.length_nil] at hn
      omega)]
  | cons rc rest ih =>
    intro b n iters hit hn
    rw [List.length_cons] at hn
    simp only [elimLoop]
    by_cases hcond : 0 < iters ∧ minOcc ≤ n
    · rw [if_pos hcond]
      by_cases hcnt : solveCount (gset b rc.1 rc.2 0) ≠ 1
      · rw [if_pos hcnt]
        exact ih _ (n - 1 + 1) (iters - 1) (by omega) (by omega)
      · rw [if_neg hcnt]
        exact ih _ (n - 1) iters hit (by omega)
    · rw [if_neg hcond]
      exact ⟨b, rfl⟩

/-- `eliminateNumbers` on a complete valid grid: the first pop is
always accepted (one removal keeps uniqueness), and from then on the
unique-solution invariant carries to the returned puzzle. -/
theorem eliminateNumbers_unique {C : GB}
    (shuf : List (Nat × Nat) → List (Nat × Nat))
    (hshuf : ∀ l, (shuf l).Perm l) (hCwf : wfGB C) (hC : completeG C)
    (hCv : validG C) (hCr : rangeG C) :
    ∃ b', eliminateNumbers shuf C 20 = some b' ∧ solveCount b' = 1 := by
  have hall : gridCells.filter (fun rc => decide (gget C rc.1 rc.2 ≠ 0)) =
      gridCells :=
    List.filter_eq_self.mpr (fun rc hrc => by
      rcases rc with ⟨p, q⟩
      have hb := mem_gridCells.mp hrc
      simp only [decide_eq_true_eq]
      exact hC p q hb.1 hb.2)
  have hocc : getOccupiedCells shuf C = shuf gridCells := by
    unfold getOccupiedCells
    rw [hall]
  have hperm : (getOccupiedCells shuf C).Perm gridCells := by
    rw [hocc]
    exact hshuf gridCells
  have hlen : (getOccupiedCells shuf C).length = DIM * DIM := by
    rw [hperm.length_eq]
    decide
  rcases hrev : (getOccupiedCells shuf C).reverse with _ | ⟨rc, rest⟩
  · exfalso
    have : (getOccupiedCells shuf C).reverse.length = 0 := by rw [hrev]; rfl
    rw [List.length_reverse, hlen] at this
    exact absurd this (by decide)
  · have hrcmem : rc ∈ gridCells := by
      have h1 : rc ∈ (getOccupiedCells shuf C).reverse := by
        rw [hrev]
        exact List.mem_cons_self rc rest
      exact hperm.mem_iff.mp (List.mem_reverse.mp h1)
    have hrcb : rc.1 < DIM ∧ rc.2 < DIM := by
      rcases rc with ⟨p, q⟩
      exact mem_gridCells.mp hrcmem
    have hcount1 : solveCount (gset C rc.1 rc.2 0) = 1 :=
      solveCount_single_vacancy hCwf hC hCv hCr hrcb.1 hrcb.2
    have hrest : rest.length = DIM * DIM - 1 := by
      have hlenrev : (getOccupiedCells shuf C).reverse.length = DIM * DIM := by
        rw [List.length_reverse, hlen]
      rw [hrev, List.length_cons] at hlenrev
      omega
    show ∃ b', elimLoop 20 (getOccupiedCells shuf C).reverse C
      (getOccupiedCells shuf C).length 4 = some b' ∧ solveCount b' = 1
    rw [hrev, hlen]
    simp only [elimLoop]
    rw [if_pos ⟨by decide, by decide⟩, if_neg (not_not_intro hcount1)]
    obtain ⟨b', hb'⟩ := elimLoop_total 20 (by omega) rest (gset C rc.1 rc.2 0)
      (DIM * DIM - 1) 4 (by omega) (by rw [hrest]; omega)
    exact ⟨b', hb', elimLoop_preserves rest _ _ _ b' hcount1 hb'⟩

/-! ## A reference solution grid for the completeness argument -/

/-- A fixed complete valid grid. -/
def solvedGrid : GB :=
  (pyrange 0 DIM).map (fun r => (pyrange 0 DIM).map (fun c =>
    (3 * (r % 3) + r / 3 + c) % 9 + 1))

theorem solvedGrid_wf : wfGB solvedGrid := by
  unfold wfGB
  decide

theorem solvedGrid_complete : completeG solvedGrid := by
  have haux : ∀ i ∈ pyrange 0 DIM, ∀ j ∈ pyrange 0 DIM,
      gget solvedGrid i j ≠ 0 := by decide
  intro i j hi hj
  exact haux i (mem_pyrange.mpr ⟨Nat.zero_le i, hi⟩)
    j (mem_pyrange.mpr ⟨Nat.zero_le j, hj⟩)

theorem solvedGrid_range : rangeG solvedGrid := by
  have haux : ∀ i ∈ pyrange 0 DIM, ∀ j ∈ pyrange 0 DIM,
      gget solvedGrid i j ≤ DIM := by decide
  intro i j hi hj
  exact haux i (mem_pyrange.mpr ⟨Nat.zero_le i, hi⟩)
    j (mem_pyrange.mpr ⟨Nat.zero_le j, hj⟩)

theorem solvedGrid_valid : validG solvedGrid := by
  unfold validG
  decide

/-! ## The claims about the generator -/

/-- C2: whatever permutations the shuffles produce, `createSudoku`
returns a puzzle and the generator's counting engine (`solve` after
`noOfSolutions = 0`, modelled by `solveCount`) reports exactly one
solution on it.  The elimination loop only ever keeps a removal it has
verified to leave `noOfSolutions = 1`, and its first removal from the
full solution grid is always accepted, since the removed value is the
only symbol the row admits. -/
theorem c2_generator_uniqueness (shuf : List (Nat × Nat) → List (Nat × Nat))
    (ord : Nat → List Nat) (hshuf : ∀ l, (shuf l).Perm l)
    (hord : ∀ k, (ord k).Perm (pyrange 1 (DIM + 1))) (m : Nat) :
    ∃ b : GB, createSudoku shuf ord m = some b ∧ solveCount b = 1 := by
  have hordmem : ∀ k n, n ∈ ord k → 1 ≤ n ∧ n ≤ DIM := by
    intro k n hn
    have := mem_pyrange.mp (((hord k).mem_iff).mp hn)
    omega
  have hordnodup : ∀ k, (ord k).Nodup := fun k =>
    ((hord k).nodup_iff).mpr (pyrange_nodup _ _)
  have hvac0 : nextVacantCell emptyGB = some (0, 0) := by decide
  have hsub0 : subGrid emptyGB solvedGrid := fun i j _ _ hnz =>
    absurd (gget_empty i j) hnz
  have hvc0 : vacCount emptyGB ≤ DIM * DIM + 1 := by decide
  have hres : (createSol ord (DIM * DIM + 1) emptyGB 0).2.2 = true :=
    createSol_true_complete ord hord solvedGrid solvedGrid_complete
      solvedGrid_valid solvedGrid_range (DIM * DIM + 1) emptyGB 0 (0, 0)
      hvac0 wfGB_empty validG_empty hsub0 hvc0
  rcases hrun : createSol ord (DIM * DIM + 1) emptyGB 0 with ⟨b1, s1, res1⟩
  rw [hrun] at hres
  have hres1 : res1 = true := hres
  subst hres1
  obtain ⟨hb1c, hb1v, hb1wf, hb1r⟩ := createSol_true_sound ord hordmem hordnodup
    (DIM * DIM + 1) emptyGB 0 (0, 0) b1 s1 hvac0 wfGB_empty validG_empty
    rangeG_empty hrun
  obtain ⟨b', hb'1, hb'2⟩ := eliminateNumbers_unique shuf hshuf hb1wf hb1c hb1v hb1r
  refine ⟨b', ?_, hb'2⟩
  show eliminateNumbers shuf (createSol ord (DIM * DIM + 1) emptyGB 0).1 20 = some b'
  rw [hrun]
  exact hb'1

theorem c2_generator_uniqueness_witness :
    (∀ l : List (Nat × Nat), (id l).Perm l) ∧
    (∀ k : Nat, ((fun _ => pyrange 1 (DIM + 1)) k : List Nat).Perm
      (pyrange 1 (DIM + 1))) ∧
    ∃ b : GB, createSudoku id (fun _ => pyrange 1 (DIM + 1)) 30 = some b ∧
      solveCount b = 1 :=
  ⟨fun l => List.Perm.refl l, fun _ => List.Perm.refl _,
    c2_generator_uniqueness id (fun _ => pyrange 1 (DIM + 1))
      (fun l => List.Perm.refl l) (fun _ => List.Perm.refl _) 30⟩

/-- C4, the defect behind its failure: `createSudoku` hands the literal
`minimumOccupancy = 20` to `eliminateNumbers`, so the caller's
minimum-occupancy argument (e.g. 30) never reaches the elimination
loop: the run is identical for every argument value. -/
theorem c4_minimum_occupancy_ignored (shuf : List (Nat × Nat) → List (Nat × Nat))
    (ord : Nat → List Nat) (m1 m2 : Nat) :
    createSudoku shuf ord m1 = createSudoku shuf ord m2 := rfl


end SudokuSpec
